import Mathlib

/-!
# The R1CS witness solver of `internal/backend/bn254/cs/r1cs.go`

A shallow embedding of the solver (`Solve`, `solveR1C`, `instantiateR1C`,
`AddTerm`, `mulWireByCoeff`, `logValue`, `printLogs`, `initHints` and the two
built-in hints) together with theorems about it.

Conventions of the embedding.

* A field element `fr.Element` is an element of `ZMod q`; the file `r1cs.go` is
  generated from one template per curve, so the modulus is a parameter `q`,
  and `frModulus` is the value it has for bn254 (a prime, `frModulus_prime`);
  the examples are evaluated in `ZMod frModulus`.  `Div(x, y)` of the field
  library is `x * y⁻¹` with `0⁻¹ = 0`.  The method `String()` of the field
  library is a parameter (`fr.Element.String`); the examples use the rendering
  `fr.String` of the bn254 library.
* Go slices are lists; a write `xs[i] = v` is `List.set`, guarded by the
  bounds check that makes the Go statement panic.
* A Go panic is the `Except.error` branch (carrying the panic message) of a
  function that may panic, and the `panicked` outcome of `Solve`.
* Counts (`Nb...`), wire ids, coefficient ids and hint ids are natural numbers;
  sums of counts are assumed to stay inside the machine `int`.
-/

namespace gnark

/-- Modulus of the bn254 scalar field, the value of `fr.Modulus()`. -/
def frModulus : ℕ :=
  21888242871839275222246405745257275088548364400416034343698204186575808495617

/-- Modular exponentiation by squaring, `a ^ e % p` for `e < 2 ^ fuel`; used
to check that `frModulus` is prime. -/
def powMod (a p : ℕ) : ℕ → ℕ → ℕ
  | 0, _ => 1 % p
  | fuel + 1, e =>
    if e = 0 then 1 % p
    else if e % 2 = 0 then powMod a p fuel (e / 2) * powMod a p fuel (e / 2) % p
    else powMod a p fuel (e / 2) * powMod a p fuel (e / 2) % p * a % p

/-- Message of the runtime panic raised by an out-of-range slice index. -/
def indexOutOfRange : String := "index out of range"

/-- The method `String()` of `fr.Element`.  The type `fr.Element` is declared
outside `r1cs.go`; the solver uses its arithmetic, which is that of `ZMod q`,
and its method `String()`, which the log formatter calls.  `String()` is a
parameter of the model: the theorems hold whatever it prints. -/
class fr.Element (q : ℕ) where
  String : ZMod q → String

/-- Modelled from the spec: `String()` of the bn254 `fr.Element`, which the spec
calls the decimal representation of the element.  The library writes the
canonical representative in decimal when it fits in one 64-bit word, `-k` for
the element `q - k` with `k` below `2^64`, and the canonical representative
otherwise. -/
def fr.String (x : ZMod frModulus) : String :=
  if x.val < 2 ^ 64 then Nat.repr x.val
  else if (-x).val < 2 ^ 64 then "-" ++ Nat.repr (-x).val
  else Nat.repr x.val

instance fr.bn254 : fr.Element frModulus := ⟨fr.String⟩

namespace compiled

/-- Modelled from the spec: `compiled.Term` is declared outside `r1cs.go`; it is
a packed word from which the solver extracts a coefficient id (`CoeffID()`) and
a variable id (`VariableID()`).  The visibility field is never read by the
solver and is left out. -/
structure Term where
  CoeffID : ℕ
  VariableID : ℕ
deriving DecidableEq, Repr

/-- Modelled from the spec: reserved coefficient id meaning zero. -/
def CoeffIdZero : ℕ := 0

/-- Modelled from the spec: reserved coefficient id meaning one. -/
def CoeffIdOne : ℕ := 1

/-- Modelled from the spec: reserved coefficient id meaning two. -/
def CoeffIdTwo : ℕ := 2

/-- Modelled from the spec: reserved coefficient id meaning minus one. -/
def CoeffIdMinusOne : ℕ := 3

/-- Modelled from the spec: a linear expression is an ordered sequence of terms. -/
abbrev LinearExpression := List Term

/-- Modelled from the spec: a constraint `L * R = O`. -/
structure R1C where
  L : LinearExpression
  R : LinearExpression
  O : LinearExpression
deriving DecidableEq, Repr

/-- Modelled from the spec: hint record `(wire-id, function-id, inputs)`. -/
structure Hint where
  WireID : ℕ
  ID : ℕ
  Inputs : List LinearExpression
deriving DecidableEq, Repr

/-- Modelled from the spec: log entry `(format, toResolve)`. -/
structure LogEntry where
  Format : String
  ToResolve : List ℕ
deriving DecidableEq, Repr

end compiled

open compiled

/-- The call `fmt.Sprintf(format, args...)`, kept symbolic: the formatted string
is determined by the format and the argument list, which is all the solver
fixes. -/
structure Sprintf where
  format : String
  args : List String
deriving DecidableEq, Repr

/-- The type `hintFunction` of the source, `func(input []fr.Element) fr.Element`;
the error branch is a panic of the function. -/
abbrev hintFunction (q : ℕ) := List (ZMod q) → Except String (ZMod q)

namespace hint

/-- Modelled from the spec: `hint.Function` pairs a function id with a value of
type `interface{}`; `F` is `none` when that value does not have the
`hintFunction` signature (the type assertion in `Solve` fails). -/
structure Function (q : ℕ) where
  ID : ℕ
  F : Option (hintFunction q)

end hint

/-- The struct `R1CS` of the source: the embedded `compiled.R1CS` (modelled from
the spec, it is declared outside `r1cs.go`), the coefficient table and the
logger, where `loggerOut` is `false` for a nil writer.  The unexported map
`mHints` is derived from `Hints` by `initHints`, see `R1CS.mHints`. -/
structure R1CS (q : ℕ) where
  NbInternalVariables : ℕ
  NbPublicVariables : ℕ
  NbSecretVariables : ℕ
  Logs : List LogEntry
  DebugInfoComputation : List LogEntry
  DebugInfoAssertion : List LogEntry
  NbConstraints : ℕ
  NbCOConstraints : ℕ
  Constraints : List R1C
  Hints : List Hint
  Coefficients : List (ZMod q)
  loggerOut : Bool

/-- The errors `Solve` returns: the two size errors of the argument
validation, the two errors of the hint registration, and
`ErrUnsatisfiedConstraint` wrapped with the formatted debug entry. -/
inductive SolveError where
  | invalidWitnessSize
  | invalidInputSize
  | duplicateHint (id : ℕ)
  | invalidHintSignature (id : ℕ)
  | unsatisfiedConstraint (debugInfoStr : Sprintf)
deriving DecidableEq, Repr

/-- The variables `Solve` works on: the caller's buffers `a`, `b`, `c`,
`wireValues`, and the locals `wireInstantiated` and
`debugInfoComputationOffset`. -/
structure SolveState (q : ℕ) where
  a : List (ZMod q)
  b : List (ZMod q)
  c : List (ZMod q)
  wireValues : List (ZMod q)
  wireInstantiated : List Bool
  debugInfoComputationOffset : ℕ

/-- How one iteration of a loop of `Solve` ends: it falls through to the next
iteration, executes a `return` with an error, or panics. -/
inductive Flow (q : ℕ) where
  | next (s : SolveState q)
  | ret (e : SolveError) (s : SolveState q)
  | panic (msg : String)

/-- What a call of `Solve` leaves behind: a panic, or the returned error
(`none` for nil) with the final buffers, the final `wireInstantiated` flags and
the lines written to the logger, in the order written. -/
inductive SolveReturn (q : ℕ) where
  | panicked (msg : String)
  | returned (err : Option SolveError) (a b c wireValues : List (ZMod q))
      (wireInstantiated : List Bool) (logged : List Sprintf)

/-- The variables captured and mutated by the closure `processTerm` of
`solveR1C`. -/
structure solveR1CState (q : ℕ) where
  wireInstantiated : List Bool
  wireValues : List (ZMod q)
  loc : ℕ
  termToCompute : Term

/-- The loop of `initHints`: `mHints[Hints[i].WireID] = i` for `i` upward. -/
def initHints.loop : List Hint → ℕ → (ℕ → Option ℕ) → (ℕ → Option ℕ)
  | [], _, m => m
  | h :: hs, i, m => initHints.loop hs (i + 1) (fun w => if w = h.WireID then some i else m w)

/-- The map built by `initHints` from a hint list. -/
def initHints (hints : List Hint) : ℕ → Option ℕ :=
  initHints.loop hints 0 (fun _ => none)

/-- The field `mHints` of the source, as `NewR1CS` and `ReadFrom` set it. -/
def R1CS.mHints {q : ℕ} (r1cs : R1CS q) : ℕ → Option ℕ :=
  initHints r1cs.Hints

/-- The method `AddTerm`: `res += value * coefficient of t`. -/
def R1CS.AddTerm {q : ℕ} (r1cs : R1CS q) (res : ZMod q) (t : Term) (value : ZMod q) :
    Except String (ZMod q) :=
  let cID := t.CoeffID
  if cID = CoeffIdOne then .ok (res + value)
  else if cID = CoeffIdMinusOne then .ok (res - value)
  else if cID = CoeffIdZero then .ok res
  else if cID = CoeffIdTwo then .ok (res + (value + value))
  else
    match r1cs.Coefficients[cID]? with
    | none => .error indexOutOfRange
    | some k => .ok (res + k * value)

/-- The method `mulWireByCoeff`: `res *= coefficient of t`. -/
def R1CS.mulWireByCoeff {q : ℕ} (r1cs : R1CS q) (res : ZMod q) (t : Term) :
    Except String (ZMod q) :=
  let cID := t.CoeffID
  if cID = CoeffIdOne then .ok res
  else if cID = CoeffIdMinusOne then .ok (-res)
  else if cID = CoeffIdZero then .ok 0
  else if cID = CoeffIdTwo then .ok (res + res)
  else
    match r1cs.Coefficients[cID]? with
    | none => .error indexOutOfRange
    | some k => .ok (res * k)

/-- One loop of `instantiateR1C`: `AddTerm(&acc, t, wireValues[t.VariableID()])`
for the terms of one side, in order. -/
def instantiateR1C.side {q : ℕ} (r1cs : R1CS q) (wireValues : List (ZMod q)) :
    LinearExpression → ZMod q → Except String (ZMod q)
  | [], acc => .ok acc
  | t :: ts, acc =>
    match wireValues[t.VariableID]? with
    | none => .error indexOutOfRange
    | some w =>
      match r1cs.AddTerm acc t w with
      | .error e => .error e
      | .ok acc1 => instantiateR1C.side r1cs wireValues ts acc1

/-- The function `instantiateR1C`: the values of `L`, `R` and `O`. -/
def instantiateR1C {q : ℕ} (r : R1C) (r1cs : R1CS q) (wireValues : List (ZMod q)) :
    Except String (ZMod q × ZMod q × ZMod q) :=
  match instantiateR1C.side r1cs wireValues r.L 0 with
  | .error e => .error e
  | .ok a =>
    match instantiateR1C.side r1cs wireValues r.R 0 with
    | .error e => .error e
    | .ok b =>
      match instantiateR1C.side r1cs wireValues r.O 0 with
      | .error e => .error e
      | .ok c => .ok (a, b, c)

/-- The inner loop of the hint branch of `processTerm`: the value of one input
linear expression, every wire of which has to be instantiated. -/
def processTerm.hintInput {q : ℕ} (r1cs : R1CS q) (wireInstantiated : List Bool)
    (wireValues : List (ZMod q)) : LinearExpression → ZMod q → Except String (ZMod q)
  | [], acc => .ok acc
  | t :: ts, acc =>
    match wireInstantiated[t.VariableID]? with
    | none => .error indexOutOfRange
    | some false => .error "input not instantiated for hint function"
    | some true =>
      match wireValues[t.VariableID]? with
      | none => .error indexOutOfRange
      | some w =>
        match r1cs.AddTerm acc t w with
        | .error e => .error e
        | .ok acc1 => processTerm.hintInput r1cs wireInstantiated wireValues ts acc1

/-- The outer loop of the hint branch of `processTerm`: the vector `inputs`. -/
def processTerm.hintInputs {q : ℕ} (r1cs : R1CS q) (wireInstantiated : List Bool)
    (wireValues : List (ZMod q)) : List LinearExpression → Except String (List (ZMod q))
  | [] => .ok []
  | l :: ls =>
    match processTerm.hintInput r1cs wireInstantiated wireValues l 0 with
    | .error e => .error e
    | .ok x =>
      match processTerm.hintInputs r1cs wireInstantiated wireValues ls with
      | .error e => .error e
      | .ok xs => .ok (x :: xs)

/-- The closure `processTerm` of `solveR1C`, applied to the term `t`, the
accumulator `val` (one of `a`, `b`, `c`) and `locValue`; it returns the
updated captured variables and the updated accumulator. -/
def processTerm {q : ℕ} (r1cs : R1CS q) (mHintsFunctions : ℕ → Option (hintFunction q))
    (s : solveR1CState q) (t : Term) (val : ZMod q) (locValue : ℕ) :
    Except String (solveR1CState q × ZMod q) :=
  let vID := t.VariableID
  match s.wireInstantiated[vID]? with
  | none => .error indexOutOfRange
  | some true =>
    match s.wireValues[vID]? with
    | none => .error indexOutOfRange
    | some w =>
      match r1cs.AddTerm val t w with
      | .error e => .error e
      | .ok val1 => .ok (s, val1)
  | some false =>
    match r1cs.mHints vID with
    | some hID =>
      match r1cs.Hints[hID]? with
      | none => .error indexOutOfRange
      | some hint =>
        match processTerm.hintInputs r1cs s.wireInstantiated s.wireValues hint.Inputs with
        | .error e => .error e
        | .ok inputs =>
          match mHintsFunctions hint.ID with
          | none => .error "missing hint function"
          | some f =>
            match f inputs with
            | .error e => .error e
            | .ok v =>
              if vID < s.wireValues.length then
                .ok ({ s with
                        wireValues := s.wireValues.set vID v
                        wireInstantiated := s.wireInstantiated.set vID true }, val)
              else .error indexOutOfRange
    | none =>
      if s.loc ≠ 0 then .error "found more than one wire to instantiate"
      else .ok ({ s with termToCompute := t, loc := locValue }, val)

/-- One of the three loops of `solveR1C`: `processTerm(t, &val, locValue)` for
the terms of one side, in order. -/
def solveR1C.walk {q : ℕ} (r1cs : R1CS q) (mHintsFunctions : ℕ → Option (hintFunction q))
    (locValue : ℕ) : LinearExpression → solveR1CState q → ZMod q →
    Except String (solveR1CState q × ZMod q)
  | [], s, val => .ok (s, val)
  | t :: ts, s, val =>
    match processTerm r1cs mHintsFunctions s t val locValue with
    | .error e => .error e
    | .ok (s1, val1) => solveR1C.walk r1cs mHintsFunctions locValue ts s1 val1

/-- The three loops of `solveR1C` over `L`, `R` and `O`; the result is the
captured variables after the walk and the accumulators `a`, `b`, `c`. -/
def solveR1C.walks {q : ℕ} (r1cs : R1CS q) (r : R1C) (wireInstantiated : List Bool)
    (wireValues : List (ZMod q)) (mHintsFunctions : ℕ → Option (hintFunction q)) :
    Except String (solveR1CState q × ZMod q × ZMod q × ZMod q) :=
  match solveR1C.walk r1cs mHintsFunctions 1 r.L
      ⟨wireInstantiated, wireValues, 0, ⟨0, 0⟩⟩ 0 with
  | .error e => .error e
  | .ok (s1, a) =>
    match solveR1C.walk r1cs mHintsFunctions 2 r.R s1 0 with
    | .error e => .error e
    | .ok (s2, b) =>
      match solveR1C.walk r1cs mHintsFunctions 3 r.O s2 0 with
      | .error e => .error e
      | .ok (s3, c) => .ok (s3, a, b, c)

/-- An assignment of the switch of `solveR1C`: `wireValues[vID]` receives
`value`, is multiplied by the coefficient of the term by `mulWireByCoeff`, and
`offset` is what the case leaves in the variable `offset`. -/
def solveR1C.assign {q : ℕ} (r1cs : R1CS q) (s : solveR1CState q) (value : ZMod q)
    (offset : ℕ) : Except String (List (ZMod q) × ℕ) :=
  let vID := s.termToCompute.VariableID
  if vID < s.wireValues.length then
    match r1cs.mulWireByCoeff value s.termToCompute with
    | .error e => .error e
    | .ok v => .ok (s.wireValues.set vID v, offset)
  else .error indexOutOfRange

/-- The switch on `loc` of `solveR1C`: the wire values and the offset it
leaves. -/
def solveR1C.switch {q : ℕ} (r1cs : R1CS q) (s : solveR1CState q) (a b c : ZMod q) :
    Except String (List (ZMod q) × ℕ) :=
  if s.loc = 1 then
    if b ≠ 0 then solveR1C.assign r1cs s (c * b⁻¹ - a) 1 else .ok (s.wireValues, 0)
  else if s.loc = 2 then
    if a ≠ 0 then solveR1C.assign r1cs s (c * a⁻¹ - b) 1 else .ok (s.wireValues, 0)
  else if s.loc = 3 then solveR1C.assign r1cs s (a * b - c) 0
  else .ok (s.wireValues, 0)

/-- The tail of `solveR1C` after the walk: the early return when no unknown
was found, the switch on `loc` that computes the wire, and the final
`wireInstantiated[vID] = true`.  The result is the flags, the wire values and
the returned offset. -/
def solveR1C.compute {q : ℕ} (r1cs : R1CS q) (s : solveR1CState q) (a b c : ZMod q) :
    Except String (List Bool × List (ZMod q) × ℕ) :=
  if s.loc = 0 then .ok (s.wireInstantiated, s.wireValues, 0)
  else
    match solveR1C.switch r1cs s a b c with
    | .error e => .error e
    | .ok (wireValues, offset) =>
      if s.termToCompute.VariableID < s.wireInstantiated.length then
        .ok (s.wireInstantiated.set s.termToCompute.VariableID true, wireValues, offset)
      else .error indexOutOfRange

/-- The method `solveR1C`: it returns the updated `wireInstantiated`, the
updated `wireValues` and the offset (1 if a division happened, 0 otherwise). -/
def R1CS.solveR1C {q : ℕ} (r1cs : R1CS q) (r : R1C) (wireInstantiated : List Bool)
    (wireValues : List (ZMod q)) (mHintsFunctions : ℕ → Option (hintFunction q)) :
    Except String (List Bool × List (ZMod q) × ℕ) :=
  match solveR1C.walks r1cs r wireInstantiated wireValues mHintsFunctions with
  | .error e => .error e
  | .ok (s, a, b, c) => solveR1C.compute r1cs s a b c

/-- The loop of `logValue`: the arguments handed to the format, `"???"` for a
wire that is not instantiated and `wireValues[wireID].String()` otherwise. -/
def logValue.toResolve {q : ℕ} [fr.Element q] (wireValues : List (ZMod q))
    (wireInstantiated : List Bool) :
    List ℕ → Except String (List String)
  | [] => .ok []
  | wireID :: rest =>
    match wireInstantiated[wireID]? with
    | none => .error indexOutOfRange
    | some false =>
      match logValue.toResolve wireValues wireInstantiated rest with
      | .error e => .error e
      | .ok args => .ok ("???" :: args)
    | some true =>
      match wireValues[wireID]? with
      | none => .error indexOutOfRange
      | some w =>
        match logValue.toResolve wireValues wireInstantiated rest with
        | .error e => .error e
        | .ok args => .ok (fr.Element.String w :: args)

/-- The method `logValue`. -/
def logValue {q : ℕ} [fr.Element q] (entry : LogEntry) (wireValues : List (ZMod q))
    (wireInstantiated : List Bool) : Except String Sprintf :=
  match logValue.toResolve wireValues wireInstantiated entry.ToResolve with
  | .error e => .error e
  | .ok args => .ok ⟨entry.Format, args⟩

/-- The loop of `printLogs` over the log entries; the result is the list of
lines written to the logger. -/
def printLogs.loop {q : ℕ} [fr.Element q] (loggerOut : Bool) (wireValues : List (ZMod q))
    (wireInstantiated : List Bool) : List LogEntry → Except String (List Sprintf)
  | [] => .ok []
  | entry :: rest =>
    match logValue entry wireValues wireInstantiated with
    | .error e => .error e
    | .ok logLine =>
      match printLogs.loop loggerOut wireValues wireInstantiated rest with
      | .error e => .error e
      | .ok written => .ok (if loggerOut then logLine :: written else written)

/-- The method `printLogs`. -/
def R1CS.printLogs {q : ℕ} [fr.Element q] (r1cs : R1CS q) (wireValues : List (ZMod q))
    (wireInstantiated : List Bool) : Except String (List Sprintf) :=
  printLogs.loop r1cs.loggerOut wireValues wireInstantiated r1cs.Logs

/-- The built-in hint `powModulusMinusOne`: `1 - x^(q-1)`. -/
def powModulusMinusOne {q : ℕ} : hintFunction q := fun inputs =>
  match inputs with
  | [x] => .ok (1 - x ^ (q - 1))
  | _ => .error "expected one input"

/-- The built-in hint `ithBit`: the bit of the canonical representative of
`inputs[0]` at the position `inputs[1]`, which has to fit on one 64-bit word;
`Bit` of the field library returns 0 beyond the four limbs. -/
def ithBit {q : ℕ} : hintFunction q := fun inputs =>
  match inputs with
  | [value, position] =>
    if position.val < 2 ^ 64 then
      .ok (if position.val / 64 ≥ 4 then 0
           else if value.val.testBit position.val then 1 else 0)
    else .error "expected bit position to fit on one word"
  | _ => .error "expected 2 inputs; inputs[0] == value, inputs[1] == bit position"

/-- The built-in `copy(dst, src)`: the first `min(len(dst), len(src))` elements
of `dst` are replaced by those of `src`. -/
def copy {α : Type} (dst src : List α) : List α :=
  src.take dst.length ++ dst.drop src.length

/-- The seeding loop of `Solve`: `wireInstantiated[i+1] = true` for `i < n`. -/
def Solve.markInputs : ℕ → List Bool → List Bool
  | 0, w => w
  | n + 1, w => (Solve.markInputs n w).set (n + 1) true

/-- The map `mHintsFunctions` of `Solve` before the user hints are added:
`hint.IsZero` and `hint.IthBit` are constants of package `hint`, declared
outside `r1cs.go`, and are parameters here. -/
def Solve.builtinHints {q : ℕ} (isZeroID ithBitID : ℕ) : ℕ → Option (hintFunction q) :=
  fun id => if id = ithBitID then some ithBit
            else if id = isZeroID then some powModulusMinusOne else none

/-- The registration loop of `Solve` over the user hints. -/
def Solve.registerHints {q : ℕ} :
    List (hint.Function q) → (ℕ → Option (hintFunction q)) →
    Except SolveError (ℕ → Option (hintFunction q))
  | [], m => .ok m
  | h :: hs, m =>
    match m h.ID with
    | some _ => .error (.duplicateHint h.ID)
    | none =>
      match h.F with
      | none => .error (.invalidHintSignature h.ID)
      | some f => Solve.registerHints hs (fun id => if id = h.ID then some f else m id)

/-- The part the two loops of `Solve` share: `a[i], b[i], c[i] =
instantiateR1C(...)`, then the check `a[i]*b[i] == c[i]`; on failure the debug
entry `debugInfo` (`none` when its index is out of range) is formatted and
`ErrUnsatisfiedConstraint` is returned. -/
def Solve.check {q : ℕ} [fr.Element q] (r1cs : R1CS q) (i : ℕ) (r : R1C)
    (debugInfo : Option LogEntry)
    (s : SolveState q) : Flow q :=
  match instantiateR1C r r1cs s.wireValues with
  | .error e => .panic e
  | .ok (ai, bi, ci) =>
    if i < s.a.length ∧ i < s.b.length ∧ i < s.c.length then
      let s1 : SolveState q := { s with a := s.a.set i ai, b := s.b.set i bi, c := s.c.set i ci }
      if ai * bi = ci then .next s1
      else
        match debugInfo with
        | none => .panic indexOutOfRange
        | some entry =>
          match logValue entry s1.wireValues s1.wireInstantiated with
          | .error e => .panic e
          | .ok debugInfoStr => .ret (.unsatisfiedConstraint debugInfoStr) s1
    else .panic indexOutOfRange

/-- The body of the first loop of `Solve` (computational constraints). -/
def Solve.solveStep {q : ℕ} [fr.Element q] (r1cs : R1CS q)
    (mHintsFunctions : ℕ → Option (hintFunction q))
    (i : ℕ) (s : SolveState q) : Flow q :=
  match r1cs.Constraints[i]? with
  | none => .panic indexOutOfRange
  | some r =>
    match r1cs.solveR1C r s.wireInstantiated s.wireValues mHintsFunctions with
    | .error e => .panic e
    | .ok (wireInstantiated, wireValues, offset) =>
      let s1 : SolveState q := { s with
        wireInstantiated := wireInstantiated
        wireValues := wireValues
        debugInfoComputationOffset := s.debugInfoComputationOffset + offset }
      Solve.check r1cs i r r1cs.DebugInfoComputation[s1.debugInfoComputationOffset]? s1

/-- The body of the second loop of `Solve` (assertions). -/
def Solve.assertStep {q : ℕ} [fr.Element q] (r1cs : R1CS q) (i : ℕ) (s : SolveState q) :
    Flow q :=
  match r1cs.Constraints[i]? with
  | none => .panic indexOutOfRange
  | some r => Solve.check r1cs i r r1cs.DebugInfoAssertion[i - r1cs.NbCOConstraints]? s

/-- A counting loop `for i := start; i < start + n; i++` with the given body, left at the
first iteration that returns or panics. -/
def Solve.loop {q : ℕ} (body : ℕ → SolveState q → Flow q) :
    ℕ → ℕ → SolveState q → Flow q
  | 0, _, s => .next s
  | n + 1, i, s =>
    match body i s with
    | .next s1 => Solve.loop body n (i + 1) s1
    | .ret e s1 => .ret e s1
    | .panic msg => .panic msg

/-- The statements of `Solve` after the `defer`: hint registration, the loop
over the computational constraints and the loop over the assertions. -/
def Solve.body {q : ℕ} [fr.Element q] (isZeroID ithBitID : ℕ) (r1cs : R1CS q)
    (hintFunctions : List (hint.Function q)) (s : SolveState q) : Flow q :=
  match Solve.registerHints hintFunctions (Solve.builtinHints isZeroID ithBitID) with
  | .error e => .ret e s
  | .ok mHintsFunctions =>
    match Solve.loop (Solve.solveStep r1cs mHintsFunctions) r1cs.NbCOConstraints 0 s with
    | .next s1 =>
      Solve.loop (Solve.assertStep r1cs) (r1cs.Constraints.length - r1cs.NbCOConstraints)
        r1cs.NbCOConstraints s1
    | .ret e s1 => .ret e s1
    | .panic msg => .panic msg

/-- The deferred `printLogs` call of `Solve`, run on the variables as the body
left them. -/
def Solve.deferred {q : ℕ} [fr.Element q] (r1cs : R1CS q) (err : Option SolveError)
    (s : SolveState q) :
    SolveReturn q :=
  match r1cs.printLogs s.wireValues s.wireInstantiated with
  | .error e => .panicked e
  | .ok logged => .returned err s.a s.b s.c s.wireValues s.wireInstantiated logged

/-- The number of wires `nbWires` computed by `Solve`. -/
def R1CS.nbWires {q : ℕ} (r1cs : R1CS q) : ℕ :=
  r1cs.NbPublicVariables + r1cs.NbSecretVariables + r1cs.NbInternalVariables

/-- The variables of `Solve` once the inputs are set: `wireInstantiated` is
allocated with the ONE wire and the inputs marked, `wireValues[0]` is one and
the witness is copied behind it. -/
def Solve.seed {q : ℕ} (nbWires : ℕ) (witness a b c wireValues : List (ZMod q)) :
    SolveState q :=
  let wireInstantiated :=
    Solve.markInputs witness.length ((List.replicate nbWires false).set 0 true)
  let wireValues0 := wireValues.set 0 1
  let wireValues1 := wireValues0.take 1 ++ copy (wireValues0.drop 1) witness
  ⟨a, b, c, wireValues1, wireInstantiated, 0⟩

/-- The method `Solve`.  `isZeroID` and `ithBitID` are the constants
`hint.IsZero` and `hint.IthBit`. -/
def R1CS.Solve {q : ℕ} [fr.Element q] (isZeroID ithBitID : ℕ) (r1cs : R1CS q)
    (witness a b c wireValues : List (ZMod q)) (hintFunctions : List (hint.Function q)) :
    SolveReturn q :=
  if (witness.length : ℤ) ≠ (r1cs.NbPublicVariables : ℤ) - 1 + r1cs.NbSecretVariables then
    .returned (some .invalidWitnessSize) a b c wireValues [] []
  else
    if a.length ≠ r1cs.NbConstraints ∨ b.length ≠ r1cs.NbConstraints ∨
        c.length ≠ r1cs.NbConstraints ∨ wireValues.length ≠ r1cs.nbWires then
      .returned (some .invalidInputSize) a b c wireValues [] []
    else if witness.length < r1cs.nbWires then
      match Solve.body isZeroID ithBitID r1cs hintFunctions
          (Solve.seed r1cs.nbWires witness a b c wireValues) with
      | .next s => Solve.deferred r1cs none s
      | .ret e s => Solve.deferred r1cs (some e) s
      | .panic msg => .panicked msg
    else .panicked indexOutOfRange

/-- The sizes `Solve` validates: the witness has `NbPublicVariables - 1 +
NbSecretVariables` entries, `a`, `b`, `c` have `NbConstraints` entries and
`wireValues` has one entry per wire. -/
def SizesValid {q : ℕ} (r1cs : R1CS q) (witness a b c wireValues : List (ZMod q)) : Prop :=
  (witness.length : ℤ) = (r1cs.NbPublicVariables : ℤ) - 1 + r1cs.NbSecretVariables ∧
  a.length = r1cs.NbConstraints ∧ b.length = r1cs.NbConstraints ∧
  c.length = r1cs.NbConstraints ∧ wireValues.length = r1cs.nbWires

instance {q : ℕ} (r1cs : R1CS q) (witness a b c wireValues : List (ZMod q)) :
    Decidable (SizesValid r1cs witness a b c wireValues) := by
  unfold SizesValid; infer_instance

/-- Entry `j` of the buffers holds a triple with `a[j] * b[j] = c[j]`. -/
def Satisfied {q : ℕ} (A B C : List (ZMod q)) (j : ℕ) : Prop :=
  ∃ x y z, A[j]? = some x ∧ B[j]? = some y ∧ C[j]? = some z ∧ x * y = z

/-- Entry `j` of the buffers holds a triple with `a[j] * b[j] ≠ c[j]`. -/
def Violated {q : ℕ} (A B C : List (ZMod q)) (j : ℕ) : Prop :=
  ∃ x y z, A[j]? = some x ∧ B[j]? = some y ∧ C[j]? = some z ∧ x * y ≠ z

/-- Loop invariant of `Solve` on the buffers, at the head of iteration `i`: the
entries below `i` are written and satisfied, the entries from `i` on are those
of the initial buffers `a0`, `b0`, `c0`. -/
def BufInv {q : ℕ} (r1cs : R1CS q) (a0 b0 c0 : List (ZMod q)) (i : ℕ) (s : SolveState q) :
    Prop :=
  i ≤ r1cs.Constraints.length ∧
  s.a.length = a0.length ∧ s.b.length = b0.length ∧ s.c.length = c0.length ∧
  (∀ j, j < i → Satisfied s.a s.b s.c j) ∧
  (∀ j, i ≤ j → s.a[j]? = a0[j]? ∧ s.b[j]? = b0[j]? ∧ s.c[j]? = c0[j]?)

/-- The buffers `a`, `b`, `c` after a solve that stopped at constraint `i`:
entry `i` is violated, the entries below are satisfied and the entries above
are those of the initial buffers `a0`, `b0`, `c0`. -/
def FailedAt {q : ℕ} (a0 b0 c0 A B C : List (ZMod q)) (i : ℕ) : Prop :=
  i < a0.length ∧ Violated A B C i ∧
  (∀ j, j < i → Satisfied A B C j) ∧
  (∀ j, i < j → A[j]? = a0[j]? ∧ B[j]? = b0[j]? ∧ C[j]? = c0[j]?)

/-- The wires instantiated under `(inst, wv)` are still instantiated under
`(inst1, wv1)` and carry the same value; both vectors keep their lengths. -/
def Frozen {q : ℕ} (inst : List Bool) (wv : List (ZMod q)) (inst1 : List Bool)
    (wv1 : List (ZMod q)) : Prop :=
  inst1.length = inst.length ∧ wv1.length = wv.length ∧
  ∀ v : ℕ, inst[v]? = some true → inst1[v]? = some true ∧ wv1[v]? = wv[v]?

/-- Invariant of the walk of `solveR1C`: the remembered unknown term, if any,
names a wire that is neither instantiated nor a hint wire. -/
def WalkInv {q : ℕ} (r1cs : R1CS q) (s : solveR1CState q) : Prop :=
  s.loc ≠ 0 →
    s.wireInstantiated[s.termToCompute.VariableID]? = some false ∧
    r1cs.mHints s.termToCompute.VariableID = none

/-- The values of the input linear expressions of a hint on a wire vector
(`eval` of the spec applied to each input). -/
def hintInputValues {q : ℕ} (r1cs : R1CS q) (wireValues : List (ZMod q)) :
    List LinearExpression → Except String (List (ZMod q))
  | [] => .ok []
  | l :: ls =>
    match instantiateR1C.side r1cs wireValues l 0 with
    | .error e => .error e
    | .ok x =>
      match hintInputValues r1cs wireValues ls with
      | .error e => .error e
      | .ok xs => .ok (x :: xs)

/-- Invariant of the solver on hint wires: every instantiated wire above the
inputs (wire ids above `n`) that has a hint record carries the output of the
registered function of that record on the record's inputs, all of whose wires
are instantiated. -/
def HintInv {q : ℕ} (r1cs : R1CS q) (mHintsFunctions : ℕ → Option (hintFunction q)) (n : ℕ)
    (inst : List Bool) (wv : List (ZMod q)) : Prop :=
  ∀ v hID hint, n < v → inst[v]? = some true → r1cs.mHints v = some hID →
    r1cs.Hints[hID]? = some hint →
    ∃ f inputs x, mHintsFunctions hint.ID = some f ∧
      processTerm.hintInputs r1cs inst wv hint.Inputs = .ok inputs ∧
      f inputs = .ok x ∧ wv[v]? = some x

/-- The argument the log formatter substitutes for a wire, in the words of the
spec: the representation `String()` of its value, or `"???"` if the wire was
never instantiated. -/
def resolveWire {q : ℕ} [fr.Element q] (wireValues : List (ZMod q))
    (wireInstantiated : List Bool) (wireID : ℕ) : String :=
  if wireInstantiated.getD wireID false then fr.Element.String (wireValues.getD wireID 0)
  else "???"

/-- A log entry formatted against a wire vector, in the words of the spec. -/
def formatEntry {q : ℕ} [fr.Element q] (wireValues : List (ZMod q))
    (wireInstantiated : List Bool) (entry : LogEntry) : Sprintf :=
  ⟨entry.Format, entry.ToResolve.map (resolveWire wireValues wireInstantiated)⟩

/-- Two states of `Solve` with the same wire values, flags and offset, and
buffers `a`, `b`, `c` of the same lengths. -/
def SameCore {q : ℕ} (s t : SolveState q) : Prop :=
  s.wireValues = t.wireValues ∧ s.wireInstantiated = t.wireInstantiated ∧
  s.debugInfoComputationOffset = t.debugInfoComputationOffset ∧
  s.a.length = t.a.length ∧ s.b.length = t.b.length ∧ s.c.length = t.c.length

/-- Two runs of `Solve` at the head of iteration `i`, started on the buffers
`(a0, b0, c0)` and `(a1, b1, c1)`: same wire values, flags and offset, the
same entries of `a`, `b`, `c` below `i`, and from `i` on the entries each
caller passed. -/
def Agree {q : ℕ} (a0 b0 c0 a1 b1 c1 : List (ZMod q)) (i : ℕ) (s t : SolveState q) : Prop :=
  SameCore s t ∧
  (∀ j, j < i → s.a[j]? = t.a[j]? ∧ s.b[j]? = t.b[j]? ∧ s.c[j]? = t.c[j]?) ∧
  (∀ j, i ≤ j → (s.a[j]? = a0[j]? ∧ s.b[j]? = b0[j]? ∧ s.c[j]? = c0[j]?) ∧
    (t.a[j]? = a1[j]? ∧ t.b[j]? = b1[j]? ∧ t.c[j]? = c1[j]?))

/-- Two loop exits of the same kind: both fall through with states related by
`Pn`, both return the same error with states related by `Pr`, or both panic
with the same message. -/
def Flow.Rel {q : ℕ} (Pn Pr : SolveState q → SolveState q → Prop) : Flow q → Flow q → Prop
  | .next s, .next t => Pn s t
  | .ret e s, .ret e1 t => e = e1 ∧ Pr s t
  | .panic msg, .panic msg1 => msg = msg1
  | _, _ => False

/-- Two outcomes of `Solve`, for calls on the buffers `(a0, b0, c0)` and
`(a1, b1, c1)`, that end alike: both panic with the same message, or both
return the same result (nil or the same error) with identical `wireValues`,
flags and log lines, buffers `a`, `b`, `c` that agree below some index `k` and
hold what each caller passed from `k` on, and identical `a`, `b`, `c` after a
success on a system with `NbConstraints` constraints. -/
def EndAlike {q : ℕ} (r1cs : R1CS q) (a0 b0 c0 a1 b1 c1 : List (ZMod q)) :
    SolveReturn q → SolveReturn q → Prop
  | .panicked msg0, .panicked msg1 => msg0 = msg1
  | .returned e0 ra0 rb0 rc0 rw0 ri0 rl0, .returned e1 ra1 rb1 rc1 rw1 ri1 rl1 =>
    e0 = e1 ∧ rw0 = rw1 ∧ ri0 = ri1 ∧ rl0 = rl1 ∧
    (∃ k : ℕ, (∀ j : ℕ, j < k → ra0[j]? = ra1[j]? ∧ rb0[j]? = rb1[j]? ∧ rc0[j]? = rc1[j]?) ∧
      (∀ j : ℕ, k ≤ j → (ra0[j]? = a0[j]? ∧ rb0[j]? = b0[j]? ∧ rc0[j]? = c0[j]?) ∧
        (ra1[j]? = a1[j]? ∧ rb1[j]? = b1[j]? ∧ rc1[j]? = c1[j]?))) ∧
    (e0 = none → r1cs.Constraints.length = r1cs.NbConstraints →
      ra0 = ra1 ∧ rb0 = rb1 ∧ rc0 = rc1)
  | _, _ => False

/-- The unshortcut form of `AddTerm`, in the words of the spec:
`acc += coeffTable[id] * wireValue` for every coefficient id. -/
def AddTerm.unshortcut {q : ℕ} (r1cs : R1CS q) (acc : ZMod q) (t : Term) (value : ZMod q) :
    Except String (ZMod q) :=
  match r1cs.Coefficients[t.CoeffID]? with
  | none => .error indexOutOfRange
  | some k => .ok (acc + k * value)

/-- The coefficient of a term, in the words of the spec: 1, -1, 0, 2 for the
reserved ids one, minus-one, zero, two, and the entry of the coefficient table
for any other id (`none` when the table has no such entry). -/
def R1CS.coeff {q : ℕ} (r1cs : R1CS q) (t : Term) : Option (ZMod q) :=
  if t.CoeffID = CoeffIdOne then some 1
  else if t.CoeffID = CoeffIdMinusOne then some (-1)
  else if t.CoeffID = CoeffIdZero then some 0
  else if t.CoeffID = CoeffIdTwo then some 2
  else r1cs.Coefficients[t.CoeffID]?

/-- The value `eval(lin, wireValues)` of a linear expression, in the words of
the spec: the field sum of `coeff(t) * wireValues[var(t)]` over its terms, 0 for
the empty expression; `none` when a term names a wire or a coefficient that
does not exist. -/
def eval {q : ℕ} (r1cs : R1CS q) (wireValues : List (ZMod q)) : LinearExpression → Option (ZMod q)
  | [] => some 0
  | t :: ts =>
    match wireValues[t.VariableID]?, r1cs.coeff t, eval r1cs wireValues ts with
    | some w, some k, some rest => some (k * w + rest)
    | _, _, _ => none

/-- The wire of the term `t` is resolved in the state `s` of a walk: it is marked
instantiated, or `t` names the wire of the remembered unknown term. -/
def Known {q : ℕ} (s : solveR1CState q) (t : Term) : Prop :=
  s.wireInstantiated[t.VariableID]? = some true ∨
  (s.loc ≠ 0 ∧ s.termToCompute.VariableID = t.VariableID)

/-- Loop invariant of `Solve` on the stored triples, at the head of iteration
`i`: below `i`, entry `j` of `a`, `b`, `c` holds the values of constraint `j`
under the current wire vector, and they satisfy `a[j] * b[j] = c[j]`; when
`flagged` is set, every wire of these constraints is marked instantiated. -/
def StoredInv {q : ℕ} (r1cs : R1CS q) (flagged : Bool) (i : ℕ) (s : SolveState q) : Prop :=
  i ≤ r1cs.Constraints.length ∧
  ∀ j, j < i → ∀ r, r1cs.Constraints[j]? = some r →
    (flagged = true → ∀ t ∈ r.L ++ r.R ++ r.O, s.wireInstantiated[t.VariableID]? = some true) ∧
    ∃ x y z, instantiateR1C r r1cs s.wireValues = .ok (x, y, z) ∧
      s.a[j]? = some x ∧ s.b[j]? = some y ∧ s.c[j]? = some z ∧ x * y = z

/-- The constraint `x * y = z` with secret inputs `x` (wire 1), `y` (wire 2) and
the internal wire `z` (wire 3), and one log entry printing `z`. -/
def exampleProduct : R1CS frModulus where
  NbInternalVariables := 1
  NbPublicVariables := 1
  NbSecretVariables := 2
  Logs := [⟨"z=%s", [3]⟩]
  DebugInfoComputation := [⟨"x*y=z", []⟩]
  DebugInfoAssertion := []
  NbConstraints := 1
  NbCOConstraints := 1
  Constraints := [⟨[⟨1, 1⟩], [⟨1, 2⟩], [⟨1, 3⟩]⟩]
  Hints := []
  Coefficients := [0, 1, 2, -1]
  loggerOut := true

/-- The single assertion `x * y = 10` on the secret inputs `x` (wire 1) and `y`
(wire 2); the coefficient 10 has id 4. -/
def exampleAssertion : R1CS frModulus where
  NbInternalVariables := 0
  NbPublicVariables := 1
  NbSecretVariables := 2
  Logs := [⟨"x=%s", [1]⟩]
  DebugInfoComputation := []
  DebugInfoAssertion := [⟨"%s * %s != 10", [1, 2]⟩]
  NbConstraints := 1
  NbCOConstraints := 0
  Constraints := [⟨[⟨1, 1⟩], [⟨1, 2⟩], [⟨4, 0⟩]⟩]
  Hints := []
  Coefficients := [0, 1, 2, -1, 10]
  loggerOut := true

/-- A user hint function: the double of its single input. -/
def exampleDouble : hintFunction frModulus := fun inputs =>
  match inputs with
  | [x] => .ok (x + x)
  | _ => .error "expected one input"

/-- The secret input `x` (wire 1) and the internal wire `h` (wire 2), a hint wire
whose record calls the hint function with id 7 on `x`; the computational
constraint is `h * 1 = 2 * x`. -/
def exampleHint : R1CS frModulus where
  NbInternalVariables := 1
  NbPublicVariables := 1
  NbSecretVariables := 1
  Logs := []
  DebugInfoComputation := [⟨"h=2x", []⟩]
  DebugInfoAssertion := []
  NbConstraints := 1
  NbCOConstraints := 1
  Constraints := [⟨[⟨1, 2⟩], [⟨1, 0⟩], [⟨2, 1⟩]⟩]
  Hints := [⟨2, 7, [[⟨1, 1⟩]]⟩]
  Coefficients := [0, 1, 2, -1]
  loggerOut := true

/-- The internal wire `u` (wire 1) in the computational constraint
`u * 0 = 0`, the two zeros written as the ONE wire with the zero coefficient:
the unknown lies in `L` and `R` evaluates to zero. -/
def exampleZeroDenominator : R1CS frModulus where
  NbInternalVariables := 1
  NbPublicVariables := 1
  NbSecretVariables := 0
  Logs := []
  DebugInfoComputation := [⟨"u*0=0", [1]⟩]
  DebugInfoAssertion := []
  NbConstraints := 1
  NbCOConstraints := 1
  Constraints := [⟨[⟨1, 1⟩], [⟨0, 0⟩], [⟨0, 0⟩]⟩]
  Hints := []
  Coefficients := [0, 1, 2, -1]
  loggerOut := true

/-- The public input `x` (wire 1) and the internal wire `u` (wire 2) in the
computational constraint `x * 1 = 2 * u`, the coefficient two having the
reserved id 2. -/
def exampleScaled : R1CS frModulus where
  NbInternalVariables := 1
  NbPublicVariables := 2
  NbSecretVariables := 0
  Logs := []
  DebugInfoComputation := [⟨"x=2u, u=%s", [2]⟩]
  DebugInfoAssertion := []
  NbConstraints := 1
  NbCOConstraints := 1
  Constraints := [⟨[⟨1, 1⟩], [⟨1, 0⟩], [⟨2, 2⟩]⟩]
  Hints := []
  Coefficients := [0, 1, 2, -1]
  loggerOut := true

/-- The internal wire `u` (wire 1) in the computational constraint
`u * 0 = 1`: the unknown lies in `L`, `R` evaluates to zero and `O` does not. -/
def exampleZeroDenominatorUnsat : R1CS frModulus where
  NbInternalVariables := 1
  NbPublicVariables := 1
  NbSecretVariables := 0
  Logs := []
  DebugInfoComputation := [⟨"u*0=1, u=%s", [1]⟩]
  DebugInfoAssertion := []
  NbConstraints := 1
  NbCOConstraints := 1
  Constraints := [⟨[⟨1, 1⟩], [⟨0, 0⟩], [⟨1, 0⟩]⟩]
  Hints := []
  Coefficients := [0, 1, 2, -1]
  loggerOut := true

/-- The secret input `x` (wire 1), the internal hint wire `h` (wire 2), whose
record calls the hint function with id 7 on `x`, and the internal wire `u`
(wire 3) in the computational constraint `h * 1 = u`: the hint wire and the
unknown share the constraint. -/
def exampleHintSum : R1CS frModulus where
  NbInternalVariables := 2
  NbPublicVariables := 1
  NbSecretVariables := 1
  Logs := []
  DebugInfoComputation := [⟨"h=u, h=%s, u=%s", [2, 3]⟩]
  DebugInfoAssertion := []
  NbConstraints := 1
  NbCOConstraints := 1
  Constraints := [⟨[⟨1, 2⟩], [⟨1, 0⟩], [⟨1, 3⟩]⟩]
  Hints := [⟨2, 7, [[⟨1, 1⟩]]⟩]
  Coefficients := [0, 1, 2, -1]
  loggerOut := true

/-- The assertion `x * y = 10` of `exampleAssertion` with a log entry that names
wire 7, which the system, of three wires, does not have. -/
def exampleDanglingLog : R1CS frModulus where
  NbInternalVariables := 0
  NbPublicVariables := 1
  NbSecretVariables := 2
  Logs := [⟨"w=%s", [7]⟩]
  DebugInfoComputation := []
  DebugInfoAssertion := [⟨"%s * %s != 10", [1, 2]⟩]
  NbConstraints := 1
  NbCOConstraints := 0
  Constraints := [⟨[⟨1, 1⟩], [⟨1, 2⟩], [⟨4, 0⟩]⟩]
  Hints := []
  Coefficients := [0, 1, 2, -1, 10]
  loggerOut := true

/-! ## Theorems -/

/-! ### The modulus is prime -/

theorem powMod_eq (a p : ℕ) : ∀ (fuel e : ℕ), e < 2 ^ fuel → powMod a p fuel e = a ^ e % p := by
  intro fuel
  induction fuel with
  | zero =>
    intro e he
    have : e = 0 := by simpa using he
    subst this
    simp [powMod]
  | succ n ih =>
    intro e he
    simp only [powMod]
    by_cases h0 : e = 0
    · subst h0; simp
    · rw [if_neg h0]
      have hlt : e / 2 < 2 ^ n := by
        rw [pow_succ] at he
        omega
      rw [ih _ hlt]
      by_cases h2 : e % 2 = 0
      · rw [if_pos h2]
        have : e = e / 2 + e / 2 := by omega
        conv_rhs => rw [this, pow_add]
        rw [← Nat.mul_mod]
      · rw [if_neg h2]
        have : e = e / 2 + e / 2 + 1 := by omega
        conv_rhs => rw [this, pow_succ, pow_add]
        rw [← Nat.mul_mod, Nat.mod_mul_mod]

/-- Lucas test with the factorisation of `p - 1` given as a list of primes `fs`
and the witness `a`, the powers being computed by `powMod`. -/
theorem prime_of_pratt (p a fuel : ℕ) (fs : List ℕ) (hfs : ∀ f ∈ fs, f.Prime)
    (hprod : fs.prod = p - 1) (hp : 1 < p) (hfuel : p < 2 ^ fuel)
    (h1 : powMod a p fuel (p - 1) = 1)
    (hne : ∀ f ∈ fs, powMod a p fuel ((p - 1) / f) ≠ 1) : p.Prime := by
  have key : ∀ e, e < p → ((a : ZMod p) ^ e = 1 ↔ powMod a p fuel e = 1) := by
    intro e he
    rw [powMod_eq a p fuel e (by omega)]
    have h1p : (1 : ℕ) % p = 1 := Nat.mod_eq_of_lt hp
    constructor
    · intro h
      have h2 : ((a ^ e : ℕ) : ZMod p) = ((1 : ℕ) : ZMod p) := by push_cast; exact h
      have := (ZMod.natCast_eq_natCast_iff' _ _ _).mp h2
      rw [this, h1p]
    · intro h
      have h2 : ((a ^ e : ℕ) : ZMod p) = ((1 : ℕ) : ZMod p) :=
        (ZMod.natCast_eq_natCast_iff' _ _ _).mpr (by rw [h, h1p])
      push_cast at h2
      exact h2
  apply lucas_primality p (a : ZMod p)
  · exact (key _ (by omega)).mpr h1
  · intro q hq hdvd
    rw [← hprod] at hdvd
    obtain ⟨f, hf, hqf⟩ := (Prime.dvd_prod_iff hq.prime).mp hdvd
    have : q = f := (Nat.prime_dvd_prime_iff_eq hq (hfs f hf)).mp hqf
    subst this
    intro h
    exact hne q hf ((key _ (Nat.lt_of_le_of_lt (Nat.div_le_self _ _) (by omega))).mp h)

theorem prime_405928799 : Nat.Prime 405928799 :=
  prime_of_pratt 405928799 22 32 [2, 11, 3691, 4999]
    (by intro f hf; simp at hf; rcases hf with rfl | rfl | rfl | rfl <;> norm_num)
    (by decide) (by decide) (by decide) (by decide) (by decide)

set_option maxRecDepth 1000000 in
theorem prime_12048837557 : Nat.Prime 12048837557 :=
  prime_of_pratt 12048837557 2 40 [2, 2, 7, 7, 661, 93001]
    (by intro f hf; simp at hf; rcases hf with rfl | rfl | rfl | rfl <;> norm_num)
    (by decide) (by decide) (by decide) (by decide) (by decide)

set_option maxRecDepth 1000000 in
theorem prime_5156902474397 : Nat.Prime 5156902474397 :=
  prime_of_pratt 5156902474397 2 48 [2, 2, 107, 12048837557]
    (by
      intro f hf; simp at hf
      rcases hf with rfl | rfl | rfl
      · norm_num
      · norm_num
      · exact prime_12048837557)
    (by decide) (by decide) (by decide) (by decide) (by decide)

set_option maxRecDepth 1000000 in
theorem prime_1670836401704629 : Nat.Prime 1670836401704629 :=
  prime_of_pratt 1670836401704629 2 56 [2, 2, 3, 3, 3, 3, 5156902474397]
    (by
      intro f hf; simp at hf
      rcases hf with rfl | rfl | rfl
      · norm_num
      · norm_num
      · exact prime_5156902474397)
    (by decide) (by decide) (by decide) (by decide) (by decide)

set_option maxRecDepth 1000000 in
theorem prime_639533339 : Nat.Prime 639533339 :=
  prime_of_pratt 639533339 2 32 [2, 229, 853, 1637]
    (by intro f hf; simp at hf; rcases hf with rfl | rfl | rfl | rfl <;> norm_num)
    (by decide) (by decide) (by decide) (by decide) (by decide)

set_option maxRecDepth 1000000 in
theorem prime_65865678001877903 : Nat.Prime 65865678001877903 :=
  prime_of_pratt 65865678001877903 5 64 [2, 83, 379, 1637, 639533339]
    (by
      intro f hf; simp at hf
      rcases hf with rfl | rfl | rfl | rfl | rfl
      · norm_num
      · norm_num
      · norm_num
      · norm_num
      · exact prime_639533339)
    (by decide) (by decide) (by decide) (by decide) (by decide)

set_option maxRecDepth 1000000 in
theorem prime_1593227 : Nat.Prime 1593227 :=
  prime_of_pratt 1593227 2 24 [2, 19, 41927]
    (by intro f hf; simp at hf; rcases hf with rfl | rfl | rfl <;> norm_num)
    (by decide) (by decide) (by decide) (by decide) (by decide)

set_option maxRecDepth 1000000 in
theorem prime_13818364434197438864469338081 : Nat.Prime 13818364434197438864469338081 :=
  prime_of_pratt 13818364434197438864469338081 3 96
    [2, 2, 2, 2, 2, 5, 823, 1593227, 65865678001877903]
    (by
      intro f hf; simp at hf
      rcases hf with rfl | rfl | rfl | rfl | rfl
      · norm_num
      · norm_num
      · norm_num
      · exact prime_1593227
      · exact prime_65865678001877903)
    (by decide) (by decide) (by decide) (by decide) (by decide)

set_option maxRecDepth 1000000 in
/-- The modulus of the bn254 scalar field is prime, so `ZMod frModulus` is a
field. -/
theorem frModulus_prime : Nat.Prime frModulus :=
  prime_of_pratt frModulus 5 256
    (List.replicate 28 2 ++
      [3, 3, 13, 29, 983, 11003, 237073, 405928799, 1670836401704629,
        13818364434197438864469338081])
    (by
      intro f hf
      simp only [List.mem_append, List.mem_replicate, List.mem_cons, List.mem_singleton,
        List.not_mem_nil, or_false] at hf
      rcases hf with ⟨-, rfl⟩ | rfl | rfl | rfl | rfl | rfl | rfl | rfl | rfl | rfl | rfl
      · norm_num
      · norm_num
      · norm_num
      · norm_num
      · norm_num
      · norm_num
      · norm_num
      · norm_num
      · exact prime_405928799
      · exact prime_1670836401704629
      · exact prime_13818364434197438864469338081)
    (by decide) (by decide) (by decide) (by decide) (by decide)

/-! ### The solver -/

section
variable {q : ℕ}


theorem Solve.check_next [fr.Element q] {r : R1CS q} {i : ℕ} {cons : R1C} {d : Option LogEntry}
    {s s1 : SolveState q} (h : Solve.check r i cons d s = .next s1) :
    ∃ x y z, instantiateR1C cons r s.wireValues = .ok (x, y, z) ∧ x * y = z ∧
      i < s.a.length ∧ i < s.b.length ∧ i < s.c.length ∧
      s1 = { s with a := s.a.set i x, b := s.b.set i y, c := s.c.set i z } := by
  unfold Solve.check at h
  split at h
  · cases h
  · rename_i x y z hin
    split at h
    · rename_i hb
      split at h
      · rename_i hxy
        injection h with h
        exact ⟨x, y, z, hin, hxy, hb.1, hb.2.1, hb.2.2, h.symm⟩
      · split at h
        · cases h
        · dsimp only at h
          split at h <;> cases h
    · cases h

theorem Solve.check_ret [fr.Element q] {r : R1CS q} {i : ℕ} {cons : R1C} {d : Option LogEntry}
    {s s1 : SolveState q} {e : SolveError} (h : Solve.check r i cons d s = .ret e s1) :
    ∃ x y z, instantiateR1C cons r s.wireValues = .ok (x, y, z) ∧ x * y ≠ z ∧
      i < s.a.length ∧ i < s.b.length ∧ i < s.c.length ∧
      s1 = { s with a := s.a.set i x, b := s.b.set i y, c := s.c.set i z } ∧
      ∃ entry str, d = some entry ∧
        logValue entry s.wireValues s.wireInstantiated = .ok str ∧
        e = .unsatisfiedConstraint str := by
  unfold Solve.check at h
  split at h
  · cases h
  · rename_i x y z hin
    split at h
    · rename_i hb
      split at h
      · cases h
      · rename_i hxy
        split at h
        · cases h
        · rename_i entry
          dsimp only at h
          split at h
          · cases h
          · rename_i str hlog
            injection h with h1 h2
            exact ⟨x, y, z, hin, hxy, hb.1, hb.2.1, hb.2.2, h2.symm, entry, str, rfl, hlog,
              h1.symm⟩
    · cases h

theorem Solve.loop_next {body : ℕ → SolveState q → Flow q} (P : ℕ → SolveState q → Prop)
    (hstep : ∀ i s s1, P i s → body i s = .next s1 → P (i + 1) s1) :
    ∀ (n i : ℕ) (s s1 : SolveState q), P i s → Solve.loop body n i s = .next s1 →
      P (i + n) s1 := by
  intro n
  induction n with
  | zero =>
    intro i s s1 hP h
    simp only [Solve.loop] at h
    injection h with h
    subst h
    simpa using hP
  | succ n ih =>
    intro i s s1 hP h
    simp only [Solve.loop] at h
    split at h
    · rename_i s2 hb
      have := ih (i + 1) s2 s1 (hstep i s s2 hP hb) h
      have e : i + (n + 1) = i + 1 + n := by omega
      rw [e]; exact this
    · cases h
    · cases h

theorem Solve.loop_ret {body : ℕ → SolveState q → Flow q} :
    ∀ (n i : ℕ) (s s1 : SolveState q) (e : SolveError),
      Solve.loop body n i s = .ret e s1 →
      ∃ k s2, k < n ∧ Solve.loop body k i s = .next s2 ∧ body (i + k) s2 = .ret e s1 := by
  intro n
  induction n with
  | zero =>
    intro i s s1 e h
    simp only [Solve.loop] at h
    cases h
  | succ n ih =>
    intro i s s1 e h
    simp only [Solve.loop] at h
    split at h
    · rename_i s2 hb
      obtain ⟨k, s3, hk, hl, hbk⟩ := ih (i + 1) s2 s1 e h
      refine ⟨k + 1, s3, by omega, ?_, ?_⟩
      · simp only [Solve.loop, hb]; exact hl
      · have e2 : i + (k + 1) = i + 1 + k := by omega
        rw [e2]; exact hbk
    · rename_i e2 s2 hb
      injection h with h1 h2
      subst h1; subst h2
      exact ⟨0, s, by omega, by simp [Solve.loop], by simpa using hb⟩
    · cases h

theorem Solve.loop_stop {body : ℕ → SolveState q → Flow q} :
    ∀ (n i k : ℕ) (s s2 s1 : SolveState q) (e : SolveError),
      k < n → Solve.loop body k i s = .next s2 → body (i + k) s2 = .ret e s1 →
      Solve.loop body n i s = .ret e s1 := by
  intro n
  induction n with
  | zero => intro i k s s2 s1 e hk; omega
  | succ n ih =>
    intro i k s s2 s1 e hk hl hb
    cases k with
    | zero =>
      simp only [Solve.loop] at hl
      injection hl with hl
      subst hl
      rw [Nat.add_zero] at hb
      simp only [Solve.loop, hb]
    | succ k =>
      simp only [Solve.loop] at hl
      split at hl
      · rename_i s3 hb3
        have e2 : i + (k + 1) = i + 1 + k := by omega
        rw [e2] at hb
        simp only [Solve.loop, hb3]
        exact ih (i + 1) k s3 s2 s1 e (by omega) hl hb
      · cases hl
      · cases hl



theorem Solve.solveStep_next [fr.Element q] {r : R1CS q} {m : ℕ → Option (hintFunction q)}
    {i : ℕ}
    {s s1 : SolveState q} (h : Solve.solveStep r m i s = .next s1) :
    ∃ cons inst wv off, r.Constraints[i]? = some cons ∧
      r.solveR1C cons s.wireInstantiated s.wireValues m = .ok (inst, wv, off) ∧
      Solve.check r i cons r.DebugInfoComputation[s.debugInfoComputationOffset + off]?
        { s with wireInstantiated := inst, wireValues := wv,
                 debugInfoComputationOffset := s.debugInfoComputationOffset + off } = .next s1 := by
  unfold Solve.solveStep at h
  split at h
  · cases h
  · rename_i cons hc
    split at h
    · cases h
    · rename_i inst wv off hs
      exact ⟨cons, inst, wv, off, hc, hs, h⟩

theorem Solve.solveStep_ret [fr.Element q] {r : R1CS q} {m : ℕ → Option (hintFunction q)}
    {i : ℕ}
    {s s1 : SolveState q} {e : SolveError} (h : Solve.solveStep r m i s = .ret e s1) :
    ∃ cons inst wv off, r.Constraints[i]? = some cons ∧
      r.solveR1C cons s.wireInstantiated s.wireValues m = .ok (inst, wv, off) ∧
      Solve.check r i cons r.DebugInfoComputation[s.debugInfoComputationOffset + off]?
        { s with wireInstantiated := inst, wireValues := wv,
                 debugInfoComputationOffset := s.debugInfoComputationOffset + off } = .ret e s1 := by
  unfold Solve.solveStep at h
  split at h
  · cases h
  · rename_i cons hc
    split at h
    · cases h
    · rename_i inst wv off hs
      exact ⟨cons, inst, wv, off, hc, hs, h⟩

theorem Solve.assertStep_eq [fr.Element q] {r : R1CS q} {i : ℕ} {s : SolveState q} {f : Flow q}
    (h : Solve.assertStep r i s = f) (hf : ∀ msg, f ≠ .panic msg) :
    ∃ cons, r.Constraints[i]? = some cons ∧
      Solve.check r i cons r.DebugInfoAssertion[i - r.NbCOConstraints]? s = f := by
  unfold Solve.assertStep at h
  split at h
  · exact absurd h.symm (hf _)
  · rename_i cons hc
    exact ⟨cons, hc, h⟩

theorem Satisfied.set_ne {A B C : List (ZMod q)} {i j : ℕ} (h : Satisfied A B C j) (hij : i ≠ j)
    (x y z : ZMod q) : Satisfied (A.set i x) (B.set i y) (C.set i z) j := by
  obtain ⟨x1, y1, z1, ha, hb, hc, hxy⟩ := h
  refine ⟨x1, y1, z1, ?_, ?_, ?_, hxy⟩
  · rw [List.getElem?_set_ne hij]; exact ha
  · rw [List.getElem?_set_ne hij]; exact hb
  · rw [List.getElem?_set_ne hij]; exact hc

theorem BufInv.of_check_next [fr.Element q] {r : R1CS q} {a0 b0 c0 : List (ZMod q)} {i : ℕ}
    {cons : R1C}
    {d : Option LogEntry} {s s0 s1 : SolveState q} (hinv : BufInv r a0 b0 c0 i s)
    (hcons : r.Constraints[i]? = some cons)
    (h : Solve.check r i cons d s0 = .next s1)
    (ha : s0.a = s.a) (hb : s0.b = s.b) (hc : s0.c = s.c) : BufInv r a0 b0 c0 (i + 1) s1 := by
  obtain ⟨x, y, z, -, hxy, hia, hib, hic, rfl⟩ := Solve.check_next h
  obtain ⟨-, hla, hlb, hlc, hsat, hrest⟩ := hinv
  have hlt : i < r.Constraints.length := by
    rcases List.getElem?_eq_some_iff.mp hcons with ⟨hlt, -⟩
    exact hlt
  rw [ha] at hia; rw [hb] at hib; rw [hc] at hic
  refine ⟨hlt, ?_, ?_, ?_, ?_, ?_⟩
  · simp [ha, hla]
  · simp [hb, hlb]
  · simp [hc, hlc]
  · intro j hj
    simp only [ha, hb, hc]
    rcases Nat.lt_succ_iff_lt_or_eq.mp hj with hlt2 | rfl
    · exact (hsat j hlt2).set_ne (by omega) x y z
    · exact ⟨x, y, z, by simp [hia], by simp [hib], by simp [hic], hxy⟩
  · intro j hj
    have hne : i ≠ j := by omega
    simp only [ha, hb, hc]
    rw [List.getElem?_set_ne hne, List.getElem?_set_ne hne, List.getElem?_set_ne hne]
    exact hrest j (by omega)

theorem BufInv.of_check_ret [fr.Element q] {r : R1CS q} {a0 b0 c0 : List (ZMod q)} {i : ℕ}
    {cons : R1C}
    {d : Option LogEntry} {s s0 s1 : SolveState q} {e : SolveError}
    (hinv : BufInv r a0 b0 c0 i s)
    (h : Solve.check r i cons d s0 = .ret e s1)
    (ha : s0.a = s.a) (hb : s0.b = s.b) (hc : s0.c = s.c) :
    FailedAt a0 b0 c0 s1.a s1.b s1.c i ∧ ∃ str, e = .unsatisfiedConstraint str := by
  obtain ⟨x, y, z, -, hxy, hia, hib, hic, rfl, -, str, -, -, he⟩ := Solve.check_ret h
  obtain ⟨-, hla, hlb, hlc, hsat, hrest⟩ := hinv
  rw [ha] at hia; rw [hb] at hib; rw [hc] at hic
  refine ⟨⟨by omega, ?_, ?_, ?_⟩, str, he⟩
  · exact ⟨x, y, z, by simp [ha, hia], by simp [hb, hib], by simp [hc, hic], hxy⟩
  · intro j hj
    simp only [ha, hb, hc]
    exact (hsat j hj).set_ne (by omega) x y z
  · intro j hj
    have hne : i ≠ j := by omega
    simp only [ha, hb, hc]
    rw [List.getElem?_set_ne hne, List.getElem?_set_ne hne, List.getElem?_set_ne hne]
    exact hrest j (by omega)


theorem Solve.registerHints_error :
    ∀ (hf : List (hint.Function q)) (m : ℕ → Option (hintFunction q)) (e : SolveError),
      Solve.registerHints hf m = .error e →
      (∃ id, e = .duplicateHint id) ∨ (∃ id, e = .invalidHintSignature id) := by
  intro hf
  induction hf with
  | nil => intro m e h; simp [Solve.registerHints] at h
  | cons x xs ih =>
    intro m e h
    simp only [Solve.registerHints] at h
    split at h
    · injection h with h; exact Or.inl ⟨_, h.symm⟩
    · split at h
      · injection h with h; exact Or.inr ⟨_, h.symm⟩
      · exact ih _ _ h

theorem BufInv.init (r : R1CS q) (s : SolveState q) : BufInv r s.a s.b s.c 0 s :=
  ⟨Nat.zero_le _, rfl, rfl, rfl, fun _ hj => absurd hj (Nat.not_lt_zero _),
    fun _ _ => ⟨rfl, rfl, rfl⟩⟩

theorem BufInv.solveStep [fr.Element q] {r : R1CS q} {m : ℕ → Option (hintFunction q)}
    {a0 b0 c0 : List (ZMod q)}
    (i : ℕ) (s s1 : SolveState q) (hinv : BufInv r a0 b0 c0 i s)
    (h : Solve.solveStep r m i s = .next s1) : BufInv r a0 b0 c0 (i + 1) s1 := by
  obtain ⟨cons, inst, wv, off, hc, -, hk⟩ := Solve.solveStep_next h
  exact hinv.of_check_next hc hk rfl rfl rfl

theorem BufInv.assertStep [fr.Element q] {r : R1CS q} {a0 b0 c0 : List (ZMod q)}
    (i : ℕ) (s s1 : SolveState q) (hinv : BufInv r a0 b0 c0 i s)
    (h : Solve.assertStep r i s = .next s1) : BufInv r a0 b0 c0 (i + 1) s1 := by
  obtain ⟨cons, hc, hk⟩ := Solve.assertStep_eq h (by intro msg; simp)
  exact hinv.of_check_next hc hk rfl rfl rfl

theorem Solve.body_next [fr.Element q] {isZ ithB : ℕ} {r : R1CS q} {hf : List (hint.Function q)}
    {s s1 : SolveState q} (h : Solve.body isZ ithB r hf s = .next s1) :
    BufInv r s.a s.b s.c r.Constraints.length s1 := by
  unfold Solve.body at h
  split at h
  · cases h
  · rename_i m hm
    split at h
    · rename_i s2 h1
      have i1 := Solve.loop_next (BufInv r s.a s.b s.c) BufInv.solveStep _ _ _ _
        (BufInv.init r s) h1
      rw [Nat.zero_add] at i1
      have i2 := Solve.loop_next (BufInv r s.a s.b s.c) BufInv.assertStep _ _ _ _ i1 h
      have hle : r.NbCOConstraints ≤ r.Constraints.length := by
        have := i1.1; omega
      have e : r.NbCOConstraints + (r.Constraints.length - r.NbCOConstraints)
          = r.Constraints.length := by omega
      rw [e] at i2
      exact i2
    · cases h
    · cases h

theorem Solve.body_ret [fr.Element q] {isZ ithB : ℕ} {r : R1CS q} {hf : List (hint.Function q)}
    {s s1 : SolveState q} {e : SolveError} (h : Solve.body isZ ithB r hf s = .ret e s1) :
    (s1 = s ∧ ((∃ id, e = .duplicateHint id) ∨ (∃ id, e = .invalidHintSignature id))) ∨
    ((∃ i, FailedAt s.a s.b s.c s1.a s1.b s1.c i) ∧ ∃ str, e = .unsatisfiedConstraint str) := by
  unfold Solve.body at h
  split at h
  · rename_i e1 hm
    injection h with h1 h2
    subst h1; subst h2
    exact Or.inl ⟨rfl, Solve.registerHints_error _ _ _ hm⟩
  · rename_i m hm
    right
    split at h
    · rename_i s2 h1
      have i1 := Solve.loop_next (BufInv r s.a s.b s.c) BufInv.solveStep _ _ _ _
        (BufInv.init r s) h1
      rw [Nat.zero_add] at i1
      obtain ⟨k, s3, -, hl, hb⟩ := Solve.loop_ret _ _ _ _ _ h
      have i2 := Solve.loop_next (BufInv r s.a s.b s.c) BufInv.assertStep _ _ _ _ i1 hl
      obtain ⟨cons, -, hk⟩ := Solve.assertStep_eq hb (by intro msg; simp)
      obtain ⟨hf1, hf2⟩ := i2.of_check_ret hk rfl rfl rfl
      exact ⟨⟨_, hf1⟩, hf2⟩
    · rename_i e1 s2 h1
      injection h with h2 h3
      subst h2; subst h3
      obtain ⟨k, s3, -, hl, hb⟩ := Solve.loop_ret _ _ _ _ _ h1
      have i1 := Solve.loop_next (BufInv r s.a s.b s.c) BufInv.solveStep _ _ _ _
        (BufInv.init r s) hl
      obtain ⟨cons, inst, wv, off, -, -, hk⟩ := Solve.solveStep_ret hb
      obtain ⟨hf1, hf2⟩ := i1.of_check_ret hk rfl rfl rfl
      exact ⟨⟨_, hf1⟩, hf2⟩
    · cases h

theorem Solve.deferred_returned [fr.Element q] {r : R1CS q} {err err1 : Option SolveError}
    {s : SolveState q}
    {a1 b1 c1 wv1 : List (ZMod q)} {inst1 : List Bool} {lg : List Sprintf}
    (h : Solve.deferred r err s = .returned err1 a1 b1 c1 wv1 inst1 lg) :
    err1 = err ∧ a1 = s.a ∧ b1 = s.b ∧ c1 = s.c ∧ wv1 = s.wireValues ∧
      inst1 = s.wireInstantiated ∧ r.printLogs s.wireValues s.wireInstantiated = .ok lg := by
  unfold Solve.deferred at h
  split at h
  · cases h
  · rename_i lg1 hp
    injection h with h1 h2 h3 h4 h5 h6 h7
    subst h7
    exact ⟨h1.symm, h2.symm, h3.symm, h4.symm, h5.symm, h6.symm, hp⟩

theorem Solve_of_valid [fr.Element q] (isZ ithB : ℕ) (r : R1CS q)
    (w a b c wv : List (ZMod q)) (hf : List (hint.Function q))
    (h : SizesValid r w a b c wv) :
    r.Solve isZ ithB w a b c wv hf =
      match Solve.body isZ ithB r hf (Solve.seed r.nbWires w a b c wv) with
      | .next s => Solve.deferred r none s
      | .ret e s => Solve.deferred r (some e) s
      | .panic msg => .panicked msg := by
  obtain ⟨h1, h2, h3, h4, h5⟩ := h
  have hlt : w.length < r.nbWires := by
    unfold R1CS.nbWires; omega
  unfold R1CS.Solve
  rw [if_neg (by simpa using h1), if_neg (by simp [h2, h3, h4, h5]), if_pos hlt]

theorem Solve_of_not_valid [fr.Element q] (isZ ithB : ℕ) (r : R1CS q)
    (w a b c wv : List (ZMod q)) (hf : List (hint.Function q))
    (h : ¬ SizesValid r w a b c wv) :
    r.Solve isZ ithB w a b c wv hf = .returned (some .invalidWitnessSize) a b c wv [] [] ∨
    r.Solve isZ ithB w a b c wv hf = .returned (some .invalidInputSize) a b c wv [] [] := by
  unfold R1CS.Solve
  by_cases h1 : (w.length : ℤ) ≠ (r.NbPublicVariables : ℤ) - 1 + r.NbSecretVariables
  · left; rw [if_pos h1]
  · right
    rw [if_neg h1, if_pos]
    unfold SizesValid at h
    by_contra hc
    apply h
    simp only [not_or, not_not] at hc h1
    exact ⟨h1, hc⟩

/-- What a returning call of `Solve` on valid sizes went through: the body ran on the
seeded variables and left them as returned. -/
theorem Solve_returned_of_valid [fr.Element q] {isZ ithB : ℕ} {r : R1CS q}
    {w a b c wv : List (ZMod q)} {hf : List (hint.Function q)}
    (hv : SizesValid r w a b c wv) {err : Option SolveError}
    {a1 b1 c1 wv1 : List (ZMod q)} {inst1 : List Bool} {lg : List Sprintf}
    (h : r.Solve isZ ithB w a b c wv hf = .returned err a1 b1 c1 wv1 inst1 lg) :
    ∃ s1, (match err with
        | none => Solve.body isZ ithB r hf (Solve.seed r.nbWires w a b c wv) = .next s1
        | some e => Solve.body isZ ithB r hf (Solve.seed r.nbWires w a b c wv) = .ret e s1) ∧
      a1 = s1.a ∧ b1 = s1.b ∧ c1 = s1.c ∧ wv1 = s1.wireValues ∧
      inst1 = s1.wireInstantiated ∧ r.printLogs s1.wireValues s1.wireInstantiated = .ok lg := by
  rw [Solve_of_valid isZ ithB r w a b c wv hf hv] at h
  split at h
  · rename_i s1 hb
    obtain ⟨h1, h2⟩ := Solve.deferred_returned h
    subst h1
    exact ⟨s1, hb, h2⟩
  · rename_i e s1 hb
    obtain ⟨h1, h2⟩ := Solve.deferred_returned h
    subst h1
    exact ⟨s1, hb, h2⟩
  · cases h

theorem SizesValid_of_returned_none [fr.Element q] {isZ ithB : ℕ} {r : R1CS q}
    {w a b c wv : List (ZMod q)} {hf : List (hint.Function q)}
    {a1 b1 c1 wv1 : List (ZMod q)} {inst1 : List Bool} {lg : List Sprintf}
    (h : r.Solve isZ ithB w a b c wv hf = .returned none a1 b1 c1 wv1 inst1 lg) :
    SizesValid r w a b c wv := by
  by_contra hv
  rcases Solve_of_not_valid isZ ithB r w a b c wv hf hv with h1 | h1 <;>
  · rw [h1] at h; cases h


/-- C1 (soundness): when the constraint sequence has `NbConstraints` entries and
`Solve` returns no error, every index below `NbConstraints` of the returned
buffers holds a written triple with `A[i] * B[i] = C[i]` in the field. -/
theorem Solve_sound [fr.Element q] (isZeroID ithBitID : ℕ) (r1cs : R1CS q)
    (witness a b c wireValues : List (ZMod q)) (hintFunctions : List (hint.Function q))
    (hlen : r1cs.Constraints.length = r1cs.NbConstraints)
    (a1 b1 c1 wv1 : List (ZMod q)) (inst1 : List Bool) (logged : List Sprintf)
    (h : r1cs.Solve isZeroID ithBitID witness a b c wireValues hintFunctions =
      .returned none a1 b1 c1 wv1 inst1 logged) :
    ∀ i, i < r1cs.NbConstraints →
      ∃ x y z, a1[i]? = some x ∧ b1[i]? = some y ∧ c1[i]? = some z ∧ x * y = z := by
  intro i hi
  obtain ⟨s1, hb, rfl, rfl, rfl, -⟩ := Solve_returned_of_valid (SizesValid_of_returned_none h) h
  have hinv := Solve.body_next hb
  exact hinv.2.2.2.2.1 i (by omega)

/-- Witness of C1: the system `x * y = z` solved on `x = 3`, `y = 5`. -/
theorem Solve_sound_witness :
    exampleProduct.Constraints.length = exampleProduct.NbConstraints ∧
    exampleProduct.Solve 1 2 [3, 5] [0] [0] [0] [0, 0, 0, 0] [] =
      .returned none [3] [5] [15] [1, 3, 5, 15] [true, true, true, true] [⟨"z=%s", ["15"]⟩] ∧
    ∀ i, i < exampleProduct.NbConstraints →
      ∃ x y z : ZMod frModulus,
        [(3 : ZMod frModulus)][i]? = some x ∧ [(5 : ZMod frModulus)][i]? = some y ∧
        [(15 : ZMod frModulus)][i]? = some z ∧ x * y = z :=
  ⟨rfl, rfl, Solve_sound 1 2 exampleProduct [3, 5] [0] [0] [0] [0, 0, 0, 0] [] rfl
    [3] [5] [15] [1, 3, 5, 15] [true, true, true, true] [⟨"z=%s", ["15"]⟩] rfl⟩

/-- C5 (argument validation): when the witness length differs from
`NbPublicVariables - 1 + NbSecretVariables`, or the length of `a`, `b` or `c`
from `NbConstraints`, or the length of `wireValues` from the number of wires,
`Solve` returns one of the two invalid-size errors and leaves the four buffers
as they were (nothing is logged); when all lengths agree, `Solve` never returns
an invalid-size error. -/
theorem Solve_argument_validation [fr.Element q] (isZeroID ithBitID : ℕ) (r1cs : R1CS q)
    (witness a b c wireValues : List (ZMod q)) (hintFunctions : List (hint.Function q)) :
    (((witness.length : ℤ) ≠ (r1cs.NbPublicVariables : ℤ) - 1 + r1cs.NbSecretVariables ∨
        a.length ≠ r1cs.NbConstraints ∨ b.length ≠ r1cs.NbConstraints ∨
        c.length ≠ r1cs.NbConstraints ∨
        wireValues.length ≠
          r1cs.NbPublicVariables + r1cs.NbSecretVariables + r1cs.NbInternalVariables) →
      (r1cs.Solve isZeroID ithBitID witness a b c wireValues hintFunctions =
          .returned (some .invalidWitnessSize) a b c wireValues [] [] ∨
        r1cs.Solve isZeroID ithBitID witness a b c wireValues hintFunctions =
          .returned (some .invalidInputSize) a b c wireValues [] [])) ∧
    (((witness.length : ℤ) = (r1cs.NbPublicVariables : ℤ) - 1 + r1cs.NbSecretVariables ∧
        a.length = r1cs.NbConstraints ∧ b.length = r1cs.NbConstraints ∧
        c.length = r1cs.NbConstraints ∧
        wireValues.length =
          r1cs.NbPublicVariables + r1cs.NbSecretVariables + r1cs.NbInternalVariables) →
      ∀ (e : SolveError) (a1 b1 c1 wv1 : List (ZMod q)) (inst1 : List Bool)
        (logged : List Sprintf),
        r1cs.Solve isZeroID ithBitID witness a b c wireValues hintFunctions =
          .returned (some e) a1 b1 c1 wv1 inst1 logged →
        e ≠ .invalidWitnessSize ∧ e ≠ .invalidInputSize) := by
  constructor
  · intro hbad
    apply Solve_of_not_valid
    intro hv
    obtain ⟨h1, h2, h3, h4, h5⟩ := hv
    unfold R1CS.nbWires at h5
    rcases hbad with hb | hb | hb | hb | hb
    · exact hb h1
    · exact hb h2
    · exact hb h3
    · exact hb h4
    · exact hb h5
  · intro hv e a1 b1 c1 wv1 inst1 logged h
    obtain ⟨s1, hb, -⟩ := Solve_returned_of_valid hv h
    rcases Solve.body_ret hb with ⟨-, ⟨id, rfl⟩ | ⟨id, rfl⟩⟩ | ⟨-, str, rfl⟩ <;> simp

/-- Witness of C5: a witness of length 1 where 2 are expected is rejected with
the buffers untouched, and the valid call on `x = 3`, `y = 4` returns an error
that is not a size error. -/
theorem Solve_argument_validation_witness :
    (exampleAssertion.Solve 1 2 [3] [7] [8] [9] [4, 5, 6] [] =
        .returned (some .invalidWitnessSize) [7] [8] [9] [4, 5, 6] [] [] ∨
      exampleAssertion.Solve 1 2 [3] [7] [8] [9] [4, 5, 6] [] =
        .returned (some .invalidInputSize) [7] [8] [9] [4, 5, 6] [] []) ∧
    (SolveError.unsatisfiedConstraint ⟨"%s * %s != 10", ["3", "4"]⟩ ≠ .invalidWitnessSize ∧
      SolveError.unsatisfiedConstraint ⟨"%s * %s != 10", ["3", "4"]⟩ ≠ .invalidInputSize) :=
  ⟨(Solve_argument_validation 1 2 exampleAssertion [3] [7] [8] [9] [4, 5, 6] []).1
      (Or.inl (by decide)),
    (Solve_argument_validation 1 2 exampleAssertion [3, 4] [7] [8] [9] [4, 5, 6] []).2
      ⟨by decide, rfl, rfl, rfl, rfl⟩ _ [3] [4] [10] [1, 3, 4] [true, true, true]
      [⟨"x=%s", ["3"]⟩] rfl⟩

/-- C8 (first unsatisfied constraint): when `Solve` returns
`ErrUnsatisfiedConstraint` there is an index `i` below `NbConstraints` whose
written entries have `A[i] * B[i] ≠ C[i]`, every index below `i` holds written
entries with `A[j] * B[j] = C[j]`, and the entries above `i` are the ones the
caller passed in. -/
theorem Solve_first_unsatisfied [fr.Element q] (isZeroID ithBitID : ℕ) (r1cs : R1CS q)
    (witness a0 b0 c0 wireValues : List (ZMod q)) (hintFunctions : List (hint.Function q))
    (debugInfoStr : Sprintf)
    (a1 b1 c1 wv1 : List (ZMod q)) (inst1 : List Bool) (logged : List Sprintf)
    (h : r1cs.Solve isZeroID ithBitID witness a0 b0 c0 wireValues hintFunctions =
      .returned (some (.unsatisfiedConstraint debugInfoStr)) a1 b1 c1 wv1 inst1 logged) :
    ∃ i, i < r1cs.NbConstraints ∧
      (∃ x y z, a1[i]? = some x ∧ b1[i]? = some y ∧ c1[i]? = some z ∧ x * y ≠ z) ∧
      (∀ j, j < i →
        ∃ x y z, a1[j]? = some x ∧ b1[j]? = some y ∧ c1[j]? = some z ∧ x * y = z) ∧
      (∀ j, i < j → a1[j]? = a0[j]? ∧ b1[j]? = b0[j]? ∧ c1[j]? = c0[j]?) := by
  have hv : SizesValid r1cs witness a0 b0 c0 wireValues := by
    by_contra hv
    rcases Solve_of_not_valid isZeroID ithBitID r1cs witness a0 b0 c0 wireValues hintFunctions hv
      with h1 | h1 <;>
    · rw [h1] at h; cases h
  obtain ⟨s1, hb, rfl, rfl, rfl, -⟩ := Solve_returned_of_valid hv h
  rcases Solve.body_ret hb with ⟨-, ⟨id, hid⟩ | ⟨id, hid⟩⟩ | ⟨⟨i, hi, hviol, hlow, hup⟩, -⟩
  · cases hid
  · cases hid
  · refine ⟨i, ?_, hviol, hlow, ?_⟩
    · have := hv.2.1
      simp only [Solve.seed] at hi
      omega
    · intro j hj
      simpa [Solve.seed] using hup j hj

/-- Witness of C8: the single assertion `x * y = 10` with `x = 3`, `y = 4` fails
at index 0. -/
theorem Solve_first_unsatisfied_witness :
    exampleAssertion.Solve 1 2 [3, 4] [7] [8] [9] [4, 5, 6] [] =
      .returned (some (.unsatisfiedConstraint ⟨"%s * %s != 10", ["3", "4"]⟩))
        [3] [4] [10] [1, 3, 4] [true, true, true] [⟨"x=%s", ["3"]⟩] ∧
    ∃ i, i < exampleAssertion.NbConstraints ∧
      (∃ x y z : ZMod frModulus, [(3 : ZMod frModulus)][i]? = some x ∧
        [(4 : ZMod frModulus)][i]? = some y ∧ [(10 : ZMod frModulus)][i]? = some z ∧
        x * y ≠ z) ∧
      (∀ j, j < i →
        ∃ x y z : ZMod frModulus, [(3 : ZMod frModulus)][j]? = some x ∧
          [(4 : ZMod frModulus)][j]? = some y ∧ [(10 : ZMod frModulus)][j]? = some z ∧
          x * y = z) ∧
      (∀ j, i < j → [(3 : ZMod frModulus)][j]? = [(7 : ZMod frModulus)][j]? ∧
        [(4 : ZMod frModulus)][j]? = [(8 : ZMod frModulus)][j]? ∧
        [(10 : ZMod frModulus)][j]? = [(9 : ZMod frModulus)][j]?) :=
  ⟨rfl, Solve_first_unsatisfied 1 2 exampleAssertion [3, 4] [7] [8] [9] [4, 5, 6] []
    ⟨"%s * %s != 10", ["3", "4"]⟩ [3] [4] [10] [1, 3, 4] [true, true, true]
    [⟨"x=%s", ["3"]⟩] rfl⟩


theorem Frozen.refl (inst : List Bool) (wv : List (ZMod q)) : Frozen inst wv inst wv :=
  ⟨rfl, rfl, fun _ h => ⟨h, rfl⟩⟩

theorem Frozen.trans {inst inst1 inst2 : List Bool} {wv wv1 wv2 : List (ZMod q)}
    (h1 : Frozen inst wv inst1 wv1) (h2 : Frozen inst1 wv1 inst2 wv2) :
    Frozen inst wv inst2 wv2 := by
  refine ⟨h2.1.trans h1.1, h2.2.1.trans h1.2.1, ?_⟩
  intro v hv
  obtain ⟨a1, a2⟩ := h1.2.2 v hv
  obtain ⟨b1, b2⟩ := h2.2.2 v a1
  exact ⟨b1, b2.trans a2⟩

theorem Frozen.set_both {inst : List Bool} {wv : List (ZMod q)} {v : ℕ}
    (hv : inst[v]? = some false) (x : ZMod q) :
    Frozen inst wv (inst.set v true) (wv.set v x) := by
  refine ⟨by simp, by simp, ?_⟩
  intro u hu
  have hne : v ≠ u := by
    rintro rfl
    rw [hv] at hu
    cases hu
  rw [List.getElem?_set_ne hne, List.getElem?_set_ne hne]
  exact ⟨hu, rfl⟩

theorem Frozen.set_flag {inst : List Bool} (wv : List (ZMod q)) (v : ℕ) :
    Frozen inst wv (inst.set v true) wv := by
  refine ⟨by simp, rfl, ?_⟩
  intro u hu
  refine ⟨?_, rfl⟩
  by_cases hne : v = u
  · subst hne
    have hlt : v < inst.length := by
      rcases List.getElem?_eq_some_iff.mp hu with ⟨hlt, -⟩
      exact hlt
    simp [hlt]
  · rw [List.getElem?_set_ne hne]; exact hu

theorem processTerm_cases {r : R1CS q} {m : ℕ → Option (hintFunction q)} {s s1 : solveR1CState q}
    {t : Term} {val val1 : ZMod q} {locValue : ℕ}
    (h : processTerm r m s t val locValue = .ok (s1, val1)) :
    (s.wireInstantiated[t.VariableID]? = some true ∧ s1 = s ∧
      ∃ w, s.wireValues[t.VariableID]? = some w ∧ r.AddTerm val t w = .ok val1) ∨
    (s.wireInstantiated[t.VariableID]? = some false ∧ val1 = val ∧
      ∃ hID hint inputs f v, r.mHints t.VariableID = some hID ∧ r.Hints[hID]? = some hint ∧
        processTerm.hintInputs r s.wireInstantiated s.wireValues hint.Inputs = .ok inputs ∧
        m hint.ID = some f ∧ f inputs = .ok v ∧ t.VariableID < s.wireValues.length ∧
        s1 = { s with wireValues := s.wireValues.set t.VariableID v
                      wireInstantiated := s.wireInstantiated.set t.VariableID true }) ∨
    (s.wireInstantiated[t.VariableID]? = some false ∧ val1 = val ∧
      r.mHints t.VariableID = none ∧ s.loc = 0 ∧
      s1 = { s with termToCompute := t, loc := locValue }) := by
  unfold processTerm at h
  dsimp only at h
  split at h
  · cases h
  · rename_i hi
    left
    split at h
    · cases h
    · rename_i w hw
      split at h
      · cases h
      · rename_i v1 ha
        injection h with h
        injection h with h1 h2
        subst h1; subst h2
        exact ⟨hi, rfl, w, hw, ha⟩
  · rename_i hi
    right
    split at h
    · rename_i hID hm
      left
      split at h
      · cases h
      · rename_i hint hh
        split at h
        · cases h
        · rename_i inputs hin
          split at h
          · cases h
          · rename_i f hf
            split at h
            · cases h
            · rename_i v hv
              split at h
              · rename_i hlt
                injection h with h
                injection h with h1 h2
                exact ⟨hi, h2.symm, hID, hint, inputs, f, v, hm, hh, hin, hf, hv, hlt, h1.symm⟩
              · cases h
    · rename_i hm
      right
      split at h
      · cases h
      · rename_i hl
        injection h with h
        injection h with h1 h2
        exact ⟨hi, h2.symm, hm, by simpa using hl, h1.symm⟩

theorem processTerm_frozen {r : R1CS q} {m : ℕ → Option (hintFunction q)}
    {s s1 : solveR1CState q} {t : Term} {val val1 : ZMod q} {locValue : ℕ}
    (h : processTerm r m s t val locValue = .ok (s1, val1)) (hw : WalkInv r s) :
    Frozen s.wireInstantiated s.wireValues s1.wireInstantiated s1.wireValues ∧ WalkInv r s1 := by
  rcases processTerm_cases h with ⟨-, rfl, -⟩ | ⟨hi, -, hID, hint, inputs, f, v, hm, -, -, -, -, -, rfl⟩ |
    ⟨hi, -, hm, -, rfl⟩
  · exact ⟨Frozen.refl _ _, hw⟩
  · refine ⟨Frozen.set_both hi v, ?_⟩
    intro hl
    obtain ⟨w1, w2⟩ := hw hl
    refine ⟨?_, w2⟩
    have hne : t.VariableID ≠ s.termToCompute.VariableID := by
      intro he
      rw [he, w2] at hm
      cases hm
    simp only
    rw [List.getElem?_set_ne hne]
    exact w1
  · exact ⟨Frozen.refl _ _, fun _ => ⟨hi, hm⟩⟩

theorem solveR1C.walk_induct {r : R1CS q} {m : ℕ → Option (hintFunction q)} {locValue : ℕ}
    (P : solveR1CState q → Prop)
    (hstep : ∀ s t val s1 val1, P s → processTerm r m s t val locValue = .ok (s1, val1) → P s1) :
    ∀ (ts : LinearExpression) (s : solveR1CState q) (val : ZMod q) (s1 : solveR1CState q)
      (val1 : ZMod q), P s → solveR1C.walk r m locValue ts s val = .ok (s1, val1) → P s1 := by
  intro ts
  induction ts with
  | nil =>
    intro s val s1 val1 hP h
    simp only [solveR1C.walk] at h
    injection h with h
    injection h with h1 h2
    subst h1
    exact hP
  | cons t ts ih =>
    intro s val s1 val1 hP h
    simp only [solveR1C.walk] at h
    split at h
    · cases h
    · rename_i s2 val2 hp
      exact ih s2 val2 s1 val1 (hstep _ _ _ _ _ hP hp) h


theorem solveR1C.walk_frozen {r : R1CS q} {m : ℕ → Option (hintFunction q)} {locValue : ℕ}
    {inst : List Bool} {wv : List (ZMod q)}
    {ts : LinearExpression} {s s1 : solveR1CState q} {val val1 : ZMod q}
    (h : solveR1C.walk r m locValue ts s val = .ok (s1, val1))
    (hf : Frozen inst wv s.wireInstantiated s.wireValues) (hw : WalkInv r s) :
    Frozen inst wv s1.wireInstantiated s1.wireValues ∧ WalkInv r s1 :=
  solveR1C.walk_induct
    (fun s => Frozen inst wv s.wireInstantiated s.wireValues ∧ WalkInv r s)
    (fun _ _ _ _ _ hP hp =>
      ⟨hP.1.trans (processTerm_frozen hp hP.2).1, (processTerm_frozen hp hP.2).2⟩)
    ts s val s1 val1 ⟨hf, hw⟩ h

theorem solveR1C.walks_cases {r : R1CS q} {m : ℕ → Option (hintFunction q)} {cons : R1C}
    {inst : List Bool} {wv : List (ZMod q)} {s : solveR1CState q} {a b c : ZMod q}
    (h : solveR1C.walks r cons inst wv m = .ok (s, a, b, c)) :
    ∃ s1 s2, solveR1C.walk r m 1 cons.L ⟨inst, wv, 0, ⟨0, 0⟩⟩ 0 = .ok (s1, a) ∧
      solveR1C.walk r m 2 cons.R s1 0 = .ok (s2, b) ∧
      solveR1C.walk r m 3 cons.O s2 0 = .ok (s, c) := by
  unfold solveR1C.walks at h
  split at h
  · cases h
  · rename_i s1 a1 h1
    split at h
    · cases h
    · rename_i s2 b1 h2
      split at h
      · cases h
      · rename_i s3 c1 h3
        injection h with h
        injection h with e1 h
        injection h with e2 h
        injection h with e3 e4
        subst e1; subst e2; subst e3; subst e4
        exact ⟨s1, s2, h1, h2, h3⟩

theorem solveR1C.walks_frozen {r : R1CS q} {m : ℕ → Option (hintFunction q)} {cons : R1C}
    {inst : List Bool} {wv : List (ZMod q)} {s : solveR1CState q} {a b c : ZMod q}
    (h : solveR1C.walks r cons inst wv m = .ok (s, a, b, c)) :
    Frozen inst wv s.wireInstantiated s.wireValues ∧ WalkInv r s := by
  obtain ⟨s1, s2, h1, h2, h3⟩ := solveR1C.walks_cases h
  have w0 : WalkInv r (⟨inst, wv, 0, ⟨0, 0⟩⟩ : solveR1CState q) := fun hl => absurd rfl hl
  obtain ⟨f1, w1⟩ := solveR1C.walk_frozen h1 (Frozen.refl inst wv) w0
  obtain ⟨f2, w2⟩ := solveR1C.walk_frozen h2 f1 w1
  exact solveR1C.walk_frozen h3 f2 w2

theorem solveR1C.assign_cases {r : R1CS q} {s : solveR1CState q} {value : ZMod q}
    {offset off : ℕ} {wv1 : List (ZMod q)}
    (h : solveR1C.assign r s value offset = .ok (wv1, off)) :
    off = offset ∧ s.termToCompute.VariableID < s.wireValues.length ∧
      ∃ v, r.mulWireByCoeff value s.termToCompute = .ok v ∧
        wv1 = s.wireValues.set s.termToCompute.VariableID v := by
  unfold solveR1C.assign at h
  dsimp only at h
  split at h
  · rename_i hlt
    split at h
    · cases h
    · rename_i v hv
      injection h with h
      injection h with e1 e2
      exact ⟨e2.symm, hlt, v, hv, e1.symm⟩
  · cases h

theorem solveR1C.switch_cases {r : R1CS q} {s : solveR1CState q} {a b c : ZMod q}
    {wv1 : List (ZMod q)} {off : ℕ} (h : solveR1C.switch r s a b c = .ok (wv1, off)) :
    (wv1 = s.wireValues ∧ off = 0) ∨
      ∃ v, wv1 = s.wireValues.set s.termToCompute.VariableID v := by
  unfold solveR1C.switch at h
  split at h
  · split at h
    · obtain ⟨-, -, v, -, e⟩ := solveR1C.assign_cases h
      exact Or.inr ⟨v, e⟩
    · injection h with h
      injection h with e1 e2
      exact Or.inl ⟨e1.symm, e2.symm⟩
  · split at h
    · split at h
      · obtain ⟨-, -, v, -, e⟩ := solveR1C.assign_cases h
        exact Or.inr ⟨v, e⟩
      · injection h with h
        injection h with e1 e2
        exact Or.inl ⟨e1.symm, e2.symm⟩
    · split at h
      · obtain ⟨-, -, v, -, e⟩ := solveR1C.assign_cases h
        exact Or.inr ⟨v, e⟩
      · injection h with h
        injection h with e1 e2
        exact Or.inl ⟨e1.symm, e2.symm⟩

theorem solveR1C.compute_cases {r : R1CS q} {s : solveR1CState q} {a b c : ZMod q}
    {inst1 : List Bool} {wv1 : List (ZMod q)} {off : ℕ}
    (h : solveR1C.compute r s a b c = .ok (inst1, wv1, off)) :
    (s.loc = 0 ∧ inst1 = s.wireInstantiated ∧ wv1 = s.wireValues ∧ off = 0) ∨
    (s.loc ≠ 0 ∧ s.termToCompute.VariableID < s.wireInstantiated.length ∧
      inst1 = s.wireInstantiated.set s.termToCompute.VariableID true ∧
      solveR1C.switch r s a b c = .ok (wv1, off) ∧
      ((wv1 = s.wireValues ∧ off = 0) ∨
        ∃ v, wv1 = s.wireValues.set s.termToCompute.VariableID v)) := by
  unfold solveR1C.compute at h
  split at h
  · rename_i hl
    injection h with h
    injection h with e1 h
    injection h with e2 e3
    exact Or.inl ⟨hl, e1.symm, e2.symm, e3.symm⟩
  · rename_i hl
    right
    split at h
    · cases h
    · rename_i wv2 off2 hsw
      split at h
      · rename_i hlt
        injection h with h
        injection h with e1 h
        injection h with e2 e3
        subst e2; subst e3
        exact ⟨hl, hlt, e1.symm, hsw, solveR1C.switch_cases hsw⟩
      · cases h

theorem solveR1C.compute_frozen {r : R1CS q} {s : solveR1CState q} {a b c : ZMod q}
    {inst1 : List Bool} {wv1 : List (ZMod q)} {off : ℕ}
    (h : solveR1C.compute r s a b c = .ok (inst1, wv1, off)) (hw : WalkInv r s) :
    Frozen s.wireInstantiated s.wireValues inst1 wv1 := by
  rcases solveR1C.compute_cases h with ⟨-, rfl, rfl, -⟩ | ⟨hl, -, rfl, -, ⟨rfl, -⟩ | ⟨v, rfl⟩⟩
  · exact Frozen.refl _ _
  · exact Frozen.set_flag _ _
  · exact Frozen.set_both (hw hl).1 v

theorem R1CS.solveR1C_cases {r : R1CS q} {m : ℕ → Option (hintFunction q)} {cons : R1C}
    {inst inst1 : List Bool} {wv wv1 : List (ZMod q)} {off : ℕ}
    (h : r.solveR1C cons inst wv m = .ok (inst1, wv1, off)) :
    ∃ s a b c, solveR1C.walks r cons inst wv m = .ok (s, a, b, c) ∧
      solveR1C.compute r s a b c = .ok (inst1, wv1, off) := by
  unfold R1CS.solveR1C at h
  split at h
  · cases h
  · rename_i s a b c hw
    exact ⟨s, a, b, c, hw, h⟩

theorem R1CS.solveR1C_frozen {r : R1CS q} {m : ℕ → Option (hintFunction q)} {cons : R1C}
    {inst inst1 : List Bool} {wv wv1 : List (ZMod q)} {off : ℕ}
    (h : r.solveR1C cons inst wv m = .ok (inst1, wv1, off)) : Frozen inst wv inst1 wv1 := by
  obtain ⟨s, a, b, c, hw, hc⟩ := R1CS.solveR1C_cases h
  obtain ⟨f1, w1⟩ := solveR1C.walks_frozen hw
  exact f1.trans (solveR1C.compute_frozen hc w1)


theorem Solve.markInputs_length (n : ℕ) (w : List Bool) :
    (Solve.markInputs n w).length = w.length := by
  induction n with
  | zero => rfl
  | succ n ih => simp [Solve.markInputs, ih]

theorem Solve.markInputs_getElem? (n : ℕ) (w : List Bool) (v : ℕ) :
    (Solve.markInputs n w)[v]? =
      if 1 ≤ v ∧ v ≤ n ∧ v < w.length then some true else w[v]? := by
  induction n with
  | zero =>
    simp only [Solve.markInputs]
    rw [if_neg (by omega)]
  | succ n ih =>
    simp only [Solve.markInputs]
    by_cases hv : n + 1 = v
    · subst hv
      by_cases hlt : n + 1 < w.length
      · rw [if_pos ⟨by omega, by omega, hlt⟩]
        simp [Solve.markInputs_length, hlt]
      · rw [if_neg (by omega)]
        rw [List.getElem?_eq_none (by simp [Solve.markInputs_length]; omega),
          List.getElem?_eq_none (by omega)]
    · rw [List.getElem?_set_ne hv, ih]
      by_cases hc : 1 ≤ v ∧ v ≤ n ∧ v < w.length
      · rw [if_pos hc, if_pos ⟨hc.1, by omega, hc.2.2⟩]
      · rw [if_neg hc, if_neg (by omega)]

theorem Solve.seed_inst_length (nbWires : ℕ) (w a b c wv : List (ZMod q)) :
    (Solve.seed nbWires w a b c wv).wireInstantiated.length = nbWires := by
  simp [Solve.seed, Solve.markInputs_length]

theorem Solve.seed_inst (nbWires : ℕ) (w a b c wv : List (ZMod q)) (v : ℕ) (hv : v < nbWires) :
    (Solve.seed nbWires w a b c wv).wireInstantiated[v]? = some (decide (v ≤ w.length)) := by
  simp only [Solve.seed, Solve.markInputs_getElem?]
  by_cases h0 : v = 0
  · subst h0
    simp [hv]
  · by_cases hle : v ≤ w.length
    · rw [if_pos ⟨by omega, hle, by simpa using hv⟩]
      simp [hle]
    · rw [if_neg (by omega), List.getElem?_set_ne (by omega)]
      simp [hv, hle]

theorem Solve.seed_wireValues_length (nbWires : ℕ) (w a b c wv : List (ZMod q))
    (h : w.length < wv.length) :
    (Solve.seed nbWires w a b c wv).wireValues.length = wv.length := by
  simp only [Solve.seed, copy, List.length_append, List.length_take, List.length_drop,
    List.length_set]
  omega

theorem Solve.seed_wireValues_zero (nbWires : ℕ) (w a b c wv : List (ZMod q))
    (h : 0 < wv.length) :
    (Solve.seed nbWires w a b c wv).wireValues[0]? = some 1 := by
  simp only [Solve.seed]
  cases wv with
  | nil => simp at h
  | cons x xs => simp

theorem Solve.seed_wireValues_input (nbWires : ℕ) (w a b c wv : List (ZMod q))
    (h : w.length < wv.length) (j : ℕ) (hj : j < w.length) :
    (Solve.seed nbWires w a b c wv).wireValues[j + 1]? = w[j]? := by
  simp only [Solve.seed]
  cases wv with
  | nil => simp at h
  | cons x xs =>
    simp only [List.length_cons] at h
    simp only [List.set_cons_zero, List.take_succ_cons, List.take_zero, List.drop_succ_cons,
      List.drop_zero, List.singleton_append, List.getElem?_cons_succ, copy]
    rw [List.getElem?_append_left (by simp; omega)]
    rw [List.getElem?_take_of_lt (by omega)]

theorem Solve.seed_wireValues_rest (nbWires : ℕ) (w a b c wv : List (ZMod q)) (v : ℕ)
    (hv : w.length < v) :
    (Solve.seed nbWires w a b c wv).wireValues[v]? = wv[v]? := by
  simp only [Solve.seed]
  cases wv with
  | nil => simp [copy]
  | cons x xs =>
    obtain ⟨u, rfl⟩ : ∃ u, v = u + 1 := ⟨v - 1, by omega⟩
    simp only [List.set_cons_zero, List.take_succ_cons, List.take_zero, List.drop_succ_cons,
      List.drop_zero, List.singleton_append, List.getElem?_cons_succ, copy]
    by_cases hx : w.length ≤ xs.length
    · rw [List.getElem?_append_right (by simp; omega)]
      simp only [List.length_take, List.getElem?_drop]
      congr 1
      omega
    · rw [List.getElem?_eq_none (by simp; omega), List.getElem?_eq_none (by omega)]

theorem Solve.solveStep_wires [fr.Element q] {r : R1CS q} {m : ℕ → Option (hintFunction q)}
    {i : ℕ}
    {s s1 : SolveState q} (h : Solve.solveStep r m i s = .next s1) :
    ∃ cons off, r.Constraints[i]? = some cons ∧
      r.solveR1C cons s.wireInstantiated s.wireValues m =
        .ok (s1.wireInstantiated, s1.wireValues, off) := by
  obtain ⟨cons, inst, wv, off, hc, hs, hk⟩ := Solve.solveStep_next h
  obtain ⟨x, y, z, -, -, -, -, -, rfl⟩ := Solve.check_next hk
  exact ⟨cons, off, hc, hs⟩

theorem Solve.assertStep_wires [fr.Element q] {r : R1CS q} {i : ℕ}
    {s s1 : SolveState q} (h : Solve.assertStep r i s = .next s1) :
    s1.wireInstantiated = s.wireInstantiated ∧ s1.wireValues = s.wireValues := by
  obtain ⟨cons, -, hk⟩ := Solve.assertStep_eq h (by intro msg; simp)
  obtain ⟨x, y, z, -, -, -, -, -, rfl⟩ := Solve.check_next hk
  exact ⟨rfl, rfl⟩

theorem Solve.body_cases_next [fr.Element q] {isZ ithB : ℕ} {r : R1CS q}
    {hf : List (hint.Function q)}
    {s s1 : SolveState q} (h : Solve.body isZ ithB r hf s = .next s1) :
    ∃ m s2, Solve.registerHints hf (Solve.builtinHints isZ ithB) = .ok m ∧
      Solve.loop (Solve.solveStep r m) r.NbCOConstraints 0 s = .next s2 ∧
      Solve.loop (Solve.assertStep r) (r.Constraints.length - r.NbCOConstraints)
        r.NbCOConstraints s2 = .next s1 := by
  unfold Solve.body at h
  split at h
  · cases h
  · rename_i m hm
    split at h
    · rename_i s2 h1
      exact ⟨m, s2, hm, h1, h⟩
    · cases h
    · cases h

theorem Solve.assertLoop_wires [fr.Element q] {r : R1CS q} {n i : ℕ} {s s1 : SolveState q}
    (h : Solve.loop (Solve.assertStep r) n i s = .next s1) :
    s1.wireInstantiated = s.wireInstantiated ∧ s1.wireValues = s.wireValues := by
  have := Solve.loop_next
    (fun _ s2 => s2.wireInstantiated = s.wireInstantiated ∧ s2.wireValues = s.wireValues)
    (fun i s2 s3 hP hb => by
      obtain ⟨e1, e2⟩ := Solve.assertStep_wires hb
      exact ⟨e1.trans hP.1, e2.trans hP.2⟩) n i s s1 ⟨rfl, rfl⟩ h
  exact this

theorem Solve.body_frozen [fr.Element q] {isZ ithB : ℕ} {r : R1CS q} {hf : List (hint.Function q)}
    {s s1 : SolveState q} (h : Solve.body isZ ithB r hf s = .next s1) :
    Frozen s.wireInstantiated s.wireValues s1.wireInstantiated s1.wireValues := by
  obtain ⟨m, s2, -, h1, h2⟩ := Solve.body_cases_next h
  have f1 := Solve.loop_next
    (fun _ s2 => Frozen s.wireInstantiated s.wireValues s2.wireInstantiated s2.wireValues)
    (fun i s2 s3 hP hb => by
      obtain ⟨cons, off, -, hs⟩ := Solve.solveStep_wires hb
      exact hP.trans (R1CS.solveR1C_frozen hs)) _ _ _ _ (Frozen.refl _ _) h1
  obtain ⟨e1, e2⟩ := Solve.assertLoop_wires h2
  rw [e1, e2]
  exact f1

/-- C4 (seed kept): on every successful `Solve` the final wire vector has
`wireValues[0] = 1` and `wireValues[1 + j] = witness[j]` for every `j` below the
witness length; the ONE wire and the input wires are marked instantiated before
the first constraint, and no call of `solveR1C`, whether it solves for a wire
or runs a hint, changes the value of a wire that is marked instantiated. -/
theorem Solve_keeps_seed [fr.Element q] (isZeroID ithBitID : ℕ) (r1cs : R1CS q)
    (witness a b c wireValues : List (ZMod q)) (hintFunctions : List (hint.Function q))
    (a1 b1 c1 wv1 : List (ZMod q)) (inst1 : List Bool) (logged : List Sprintf)
    (h : r1cs.Solve isZeroID ithBitID witness a b c wireValues hintFunctions =
      .returned none a1 b1 c1 wv1 inst1 logged) :
    wv1[0]? = some 1 ∧ (∀ j, j < witness.length → wv1[1 + j]? = witness[j]?) ∧
    (∀ j, j ≤ witness.length →
      (Solve.seed r1cs.nbWires witness a b c wireValues).wireInstantiated[j]? = some true) ∧
    (∀ (r : R1C) (inst inst2 : List Bool) (wv wv2 : List (ZMod q))
      (mHintsFunctions : ℕ → Option (hintFunction q)) (offset : ℕ),
      r1cs.solveR1C r inst wv mHintsFunctions = .ok (inst2, wv2, offset) →
      ∀ v : ℕ, inst[v]? = some true → inst2[v]? = some true ∧ wv2[v]? = wv[v]?) := by
  have hv := SizesValid_of_returned_none h
  obtain ⟨s1, hb, -, -, -, rfl, -, -⟩ := Solve_returned_of_valid hv h
  have hlt : witness.length < wireValues.length := by
    obtain ⟨h1, -, -, -, h5⟩ := hv
    unfold R1CS.nbWires at h5
    omega
  have hlt2 : witness.length < r1cs.nbWires := by rw [← hv.2.2.2.2]; exact hlt
  obtain ⟨-, -, hfz⟩ := Solve.body_frozen hb
  refine ⟨?_, ?_, ?_, ?_⟩
  · have h0 := hfz 0 (by rw [Solve.seed_inst _ _ _ _ _ _ 0 (by omega)]; simp)
    rw [h0.2, Solve.seed_wireValues_zero _ _ _ _ _ _ (by omega)]
  · intro j hj
    have h0 := hfz (1 + j) (by
      rw [Solve.seed_inst _ _ _ _ _ _ (1 + j) (by omega)]
      simp; omega)
    rw [h0.2, Nat.add_comm 1 j, Solve.seed_wireValues_input _ _ _ _ _ _ hlt j hj]
  · intro j hj
    rw [Solve.seed_inst _ _ _ _ _ _ j (by omega)]
    simp [hj]
  · intro r inst inst2 wv wv2 mHintsFunctions offset hs v hvi
    exact (R1CS.solveR1C_frozen hs).2.2 v hvi

/-- Witness of C4: the system `x * y = z` solved on `x = 3`, `y = 5` keeps
`[1, 3, 5]` in front of the computed wire. -/
theorem Solve_keeps_seed_witness :
    exampleProduct.Solve 1 2 [3, 5] [0] [0] [0] [9, 9, 9, 9] [] =
      .returned none [3] [5] [15] [1, 3, 5, 15] [true, true, true, true] [⟨"z=%s", ["15"]⟩] ∧
    ([(1 : ZMod frModulus), 3, 5, 15][0]? = some 1 ∧
      ∀ j, j < [(3 : ZMod frModulus), 5].length →
        [(1 : ZMod frModulus), 3, 5, 15][1 + j]? = [(3 : ZMod frModulus), 5][j]?) :=
  ⟨rfl, (Solve_keeps_seed 1 2 exampleProduct [3, 5] [0] [0] [0] [9, 9, 9, 9] []
    [3] [5] [15] [1, 3, 5, 15] [true, true, true, true] [⟨"z=%s", ["15"]⟩] rfl).1,
    (Solve_keeps_seed 1 2 exampleProduct [3, 5] [0] [0] [0] [9, 9, 9, 9] []
    [3] [5] [15] [1, 3, 5, 15] [true, true, true, true] [⟨"z=%s", ["15"]⟩] rfl).2.1⟩


theorem processTerm.hintInput_frozen {r : R1CS q} {inst inst1 : List Bool}
    {wv wv1 : List (ZMod q)} (hf : Frozen inst wv inst1 wv1) :
    ∀ (l : LinearExpression) (acc x : ZMod q),
      processTerm.hintInput r inst wv l acc = .ok x →
      processTerm.hintInput r inst1 wv1 l acc = .ok x := by
  intro l
  induction l with
  | nil => intro acc x h; simpa [processTerm.hintInput] using h
  | cons t ts ih =>
    intro acc x h
    cases hi : inst[t.VariableID]? with
    | none => simp [processTerm.hintInput, hi] at h
    | some flag =>
      cases flag with
      | false => simp [processTerm.hintInput, hi] at h
      | true =>
        obtain ⟨f1, f2⟩ := hf.2.2 _ hi
        cases hw : wv[t.VariableID]? with
        | none => simp [processTerm.hintInput, hi, hw] at h
        | some w =>
          rw [hw] at f2
          cases ha : r.AddTerm acc t w with
          | error e => simp [processTerm.hintInput, hi, hw, ha] at h
          | ok acc1 =>
            simp only [processTerm.hintInput, hi, hw, ha] at h
            simp only [processTerm.hintInput, f1, f2, ha]
            exact ih _ _ h

theorem processTerm.hintInputs_frozen {r : R1CS q} {inst inst1 : List Bool}
    {wv wv1 : List (ZMod q)} (hf : Frozen inst wv inst1 wv1) :
    ∀ (ls : List LinearExpression) (xs : List (ZMod q)),
      processTerm.hintInputs r inst wv ls = .ok xs →
      processTerm.hintInputs r inst1 wv1 ls = .ok xs := by
  intro ls
  induction ls with
  | nil => intro xs h; simpa [processTerm.hintInputs] using h
  | cons l ls ih =>
    intro xs h
    cases hx : processTerm.hintInput r inst wv l 0 with
    | error e => simp [processTerm.hintInputs, hx] at h
    | ok x =>
      cases hy : processTerm.hintInputs r inst wv ls with
      | error e => simp [processTerm.hintInputs, hx, hy] at h
      | ok ys =>
        simp only [processTerm.hintInputs, hx, hy] at h
        simp only [processTerm.hintInputs, processTerm.hintInput_frozen hf _ _ _ hx, ih _ hy]
        exact h

theorem processTerm.hintInput_side {r : R1CS q} {inst : List Bool} {wv : List (ZMod q)} :
    ∀ (l : LinearExpression) (acc x : ZMod q),
      processTerm.hintInput r inst wv l acc = .ok x →
      instantiateR1C.side r wv l acc = .ok x := by
  intro l
  induction l with
  | nil => intro acc x h; simpa [processTerm.hintInput, instantiateR1C.side] using h
  | cons t ts ih =>
    intro acc x h
    cases hi : inst[t.VariableID]? with
    | none => simp [processTerm.hintInput, hi] at h
    | some flag =>
      cases flag with
      | false => simp [processTerm.hintInput, hi] at h
      | true =>
        cases hw : wv[t.VariableID]? with
        | none => simp [processTerm.hintInput, hi, hw] at h
        | some w =>
          cases ha : r.AddTerm acc t w with
          | error e => simp [processTerm.hintInput, hi, hw, ha] at h
          | ok acc1 =>
            simp only [processTerm.hintInput, hi, hw, ha] at h
            simp only [instantiateR1C.side, hw, ha]
            exact ih _ _ h

theorem processTerm.hintInputs_values {r : R1CS q} {inst : List Bool} {wv : List (ZMod q)} :
    ∀ (ls : List LinearExpression) (xs : List (ZMod q)),
      processTerm.hintInputs r inst wv ls = .ok xs → hintInputValues r wv ls = .ok xs := by
  intro ls
  induction ls with
  | nil => intro xs h; simpa [processTerm.hintInputs, hintInputValues] using h
  | cons l ls ih =>
    intro xs h
    cases hx : processTerm.hintInput r inst wv l 0 with
    | error e => simp [processTerm.hintInputs, hx] at h
    | ok x =>
      cases hy : processTerm.hintInputs r inst wv ls with
      | error e => simp [processTerm.hintInputs, hx, hy] at h
      | ok ys =>
        simp only [processTerm.hintInputs, hx, hy] at h
        simp only [hintInputValues, processTerm.hintInput_side _ _ _ hx, ih _ hy]
        exact h

theorem HintInv.step {r : R1CS q} {m : ℕ → Option (hintFunction q)} {n : ℕ}
    {inst inst1 : List Bool} {wv wv1 : List (ZMod q)}
    (hinv : HintInv r m n inst wv) (hf : Frozen inst wv inst1 wv1)
    (hnew : ∀ v hID hint, n < v → inst1[v]? = some true → inst[v]? ≠ some true →
      r.mHints v = some hID → r.Hints[hID]? = some hint →
      ∃ f inputs x, m hint.ID = some f ∧
        processTerm.hintInputs r inst wv hint.Inputs = .ok inputs ∧
        f inputs = .ok x ∧ wv1[v]? = some x) :
    HintInv r m n inst1 wv1 := by
  intro v hID hint hn hi hm hh
  by_cases hold : inst[v]? = some true
  · obtain ⟨f, inputs, x, h1, h2, h3, h4⟩ := hinv v hID hint hn hold hm hh
    refine ⟨f, inputs, x, h1, processTerm.hintInputs_frozen hf _ _ h2, h3, ?_⟩
    rw [(hf.2.2 v hold).2]
    exact h4
  · obtain ⟨f, inputs, x, h1, h2, h3, h4⟩ := hnew v hID hint hn hi hold hm hh
    exact ⟨f, inputs, x, h1, processTerm.hintInputs_frozen hf _ _ h2, h3, h4⟩

theorem HintInv.of_processTerm {r : R1CS q} {m : ℕ → Option (hintFunction q)} {n : ℕ}
    {s s1 : solveR1CState q} {t : Term} {val val1 : ZMod q} {locValue : ℕ}
    (hinv : HintInv r m n s.wireInstantiated s.wireValues) (hw : WalkInv r s)
    (h : processTerm r m s t val locValue = .ok (s1, val1)) :
    HintInv r m n s1.wireInstantiated s1.wireValues := by
  refine hinv.step (processTerm_frozen h hw).1 ?_
  intro v hID hint hn hi hold hm hh
  rcases processTerm_cases h with ⟨-, rfl, -⟩ |
    ⟨hi0, -, hID1, hint1, inputs, f, x, hm1, hh1, hin, hf, hx, hlt, rfl⟩ | ⟨-, -, -, -, rfl⟩
  · exact absurd hi hold
  · by_cases hv : t.VariableID = v
    · subst hv
      rw [hm1] at hm
      injection hm with hm
      subst hm
      rw [hh1] at hh
      injection hh with hh
      subst hh
      exact ⟨f, inputs, x, hf, hin, hx, by simp [hlt]⟩
    · simp only at hi
      rw [List.getElem?_set_ne hv] at hi
      exact absurd hi hold
  · exact absurd hi hold

theorem HintInv.of_compute {r : R1CS q} {m : ℕ → Option (hintFunction q)} {n : ℕ}
    {s : solveR1CState q} {a b c : ZMod q}
    {inst1 : List Bool} {wv1 : List (ZMod q)} {off : ℕ}
    (hinv : HintInv r m n s.wireInstantiated s.wireValues) (hw : WalkInv r s)
    (h : solveR1C.compute r s a b c = .ok (inst1, wv1, off)) :
    HintInv r m n inst1 wv1 := by
  refine hinv.step (solveR1C.compute_frozen h hw) ?_
  intro v hID hint hn hi hold hm hh
  rcases solveR1C.compute_cases h with ⟨-, rfl, -, -⟩ | ⟨hl, -, rfl, -⟩
  · exact absurd hi hold
  · by_cases hv : s.termToCompute.VariableID = v
    · subst hv
      rw [(hw hl).2] at hm
      cases hm
    · rw [List.getElem?_set_ne hv] at hi
      exact absurd hi hold

theorem HintInv.of_solveR1C {r : R1CS q} {m : ℕ → Option (hintFunction q)} {n : ℕ} {cons : R1C}
    {inst inst1 : List Bool} {wv wv1 : List (ZMod q)} {off : ℕ}
    (hinv : HintInv r m n inst wv)
    (h : r.solveR1C cons inst wv m = .ok (inst1, wv1, off)) : HintInv r m n inst1 wv1 := by
  obtain ⟨s, a, b, c, hw, hc⟩ := R1CS.solveR1C_cases h
  obtain ⟨s1, s2, h1, h2, h3⟩ := solveR1C.walks_cases hw
  have step : ∀ (locValue : ℕ) (s t val s1 val1),
      (HintInv r m n s.wireInstantiated s.wireValues ∧ WalkInv r s) →
      processTerm r m s t val locValue = .ok (s1, val1) →
      (HintInv r m n s1.wireInstantiated s1.wireValues ∧ WalkInv r s1) :=
    fun _ _ _ _ _ _ hP hp => ⟨hP.1.of_processTerm hP.2 hp, (processTerm_frozen hp hP.2).2⟩
  have w0 : WalkInv r (⟨inst, wv, 0, ⟨0, 0⟩⟩ : solveR1CState q) := fun hl => absurd rfl hl
  have p1 := solveR1C.walk_induct _ (step 1) _ _ _ _ _ ⟨hinv, w0⟩ h1
  have p2 := solveR1C.walk_induct _ (step 2) _ _ _ _ _ p1 h2
  have p3 := solveR1C.walk_induct _ (step 3) _ _ _ _ _ p2 h3
  exact p3.1.of_compute p3.2 hc


theorem initHints.loop_of_forall_ne (v : ℕ) :
    ∀ (hs : List Hint) (i : ℕ) (m : ℕ → Option ℕ), (∀ h ∈ hs, h.WireID ≠ v) →
      initHints.loop hs i m v = m v := by
  intro hs
  induction hs with
  | nil => intro i m _; rfl
  | cons h hs ih =>
    intro i m hne
    simp only [initHints.loop]
    rw [ih _ _ (fun h1 hh => hne h1 (List.mem_cons_of_mem _ hh))]
    have : v ≠ h.WireID := fun e => hne h (List.mem_cons_self _ _) e.symm
    simp [this]

theorem initHints.loop_of_exists (v : ℕ) :
    ∀ (hs : List Hint) (i : ℕ) (m : ℕ → Option ℕ), (∃ h ∈ hs, h.WireID = v) →
      ∃ k h, initHints.loop hs i m v = some k ∧ i ≤ k ∧ hs[k - i]? = some h ∧ h.WireID = v := by
  intro hs
  induction hs with
  | nil => intro i m ⟨h, hh, _⟩; simp at hh
  | cons h0 hs ih =>
    intro i m hex
    simp only [initHints.loop]
    by_cases htl : ∃ h ∈ hs, h.WireID = v
    · obtain ⟨k, h, h1, h2, h3, h4⟩ := ih (i + 1)
        (fun w => if w = h0.WireID then some i else m w) htl
      refine ⟨k, h, h1, by omega, ?_, h4⟩
      have e : k - i = (k - (i + 1)) + 1 := by omega
      rw [e, List.getElem?_cons_succ]
      exact h3
    · have hne : ∀ h ∈ hs, h.WireID ≠ v := fun h hh e => htl ⟨h, hh, e⟩
      have h0v : h0.WireID = v := by
        obtain ⟨h, hh, e⟩ := hex
        rcases List.mem_cons.mp hh with rfl | hh
        · exact e
        · exact absurd e (hne h hh)
      rw [initHints.loop_of_forall_ne v hs _ _ hne]
      refine ⟨i, h0, by simp [h0v], le_refl _, by simp, h0v⟩

theorem R1CS.mHints_of_registered (r : R1CS q) (v : ℕ) (hex : ∃ h ∈ r.Hints, h.WireID = v) :
    ∃ hID hint, r.mHints v = some hID ∧ r.Hints[hID]? = some hint ∧ hint.WireID = v := by
  obtain ⟨k, h, h1, -, h3, h4⟩ := initHints.loop_of_exists v r.Hints 0 (fun _ => none) hex
  exact ⟨k, h, h1, by simpa using h3, h4⟩

theorem solveR1C.walk_covers {r : R1CS q} {m : ℕ → Option (hintFunction q)} {locValue : ℕ} :
    ∀ (ts : LinearExpression) (s : solveR1CState q) (val : ZMod q) (s1 : solveR1CState q)
      (val1 : ZMod q), WalkInv r s → solveR1C.walk r m locValue ts s val = .ok (s1, val1) →
      ∀ t ∈ ts, r.mHints t.VariableID ≠ none →
        s1.wireInstantiated[t.VariableID]? = some true := by
  intro ts
  induction ts with
  | nil => intro s val s1 val1 _ _ t ht; simp at ht
  | cons t0 ts ih =>
    intro s val s1 val1 hw h t ht hm
    simp only [solveR1C.walk] at h
    split at h
    · cases h
    · rename_i s2 val2 hp
      obtain ⟨-, w2⟩ := processTerm_frozen hp hw
      rcases List.mem_cons.mp ht with rfl | ht
      · have h2 : s2.wireInstantiated[t.VariableID]? = some true := by
          rcases processTerm_cases hp with ⟨hi, rfl, -⟩ |
            ⟨hi, -, hID, hint, inputs, f, v, -, -, -, -, -, -, rfl⟩ | ⟨-, -, hn, -, -⟩
          · exact hi
          · have hlt : t.VariableID < s.wireInstantiated.length := by
              rcases List.getElem?_eq_some_iff.mp hi with ⟨hlt, -⟩
              exact hlt
            simp [hlt]
          · exact absurd hn hm
        exact ((solveR1C.walk_frozen h (Frozen.refl _ _) w2).1.2.2 _ h2).1
      · exact ih s2 val2 s1 val1 w2 h t ht hm

theorem R1CS.solveR1C_covers {r : R1CS q} {m : ℕ → Option (hintFunction q)} {cons : R1C}
    {inst inst1 : List Bool} {wv wv1 : List (ZMod q)} {off : ℕ}
    (h : r.solveR1C cons inst wv m = .ok (inst1, wv1, off)) :
    ∀ t ∈ cons.L ++ cons.R ++ cons.O, r.mHints t.VariableID ≠ none →
      inst1[t.VariableID]? = some true := by
  obtain ⟨s, a, b, c, hw, hc⟩ := R1CS.solveR1C_cases h
  obtain ⟨s1, s2, h1, h2, h3⟩ := solveR1C.walks_cases hw
  have w0 : WalkInv r (⟨inst, wv, 0, ⟨0, 0⟩⟩ : solveR1CState q) := fun hl => absurd rfl hl
  obtain ⟨-, w1⟩ := solveR1C.walk_frozen h1 (Frozen.refl _ _) w0
  obtain ⟨f2, w2⟩ := solveR1C.walk_frozen h2 (Frozen.refl _ _) w1
  obtain ⟨f3, w3⟩ := solveR1C.walk_frozen h3 (Frozen.refl _ _) w2
  have f4 := solveR1C.compute_frozen hc w3
  intro t ht hm
  simp only [List.mem_append] at ht
  rcases ht with (ht | ht) | ht
  · have c1 := solveR1C.walk_covers _ _ _ _ _ w0 h1 t ht hm
    exact ((f2.trans (f3.trans f4)).2.2 _ c1).1
  · have c2 := solveR1C.walk_covers _ _ _ _ _ w1 h2 t ht hm
    exact ((f3.trans f4).2.2 _ c2).1
  · have c3 := solveR1C.walk_covers _ _ _ _ _ w2 h3 t ht hm
    exact (f4.2.2 _ c3).1

theorem HintInv.seed (r : R1CS q) (m : ℕ → Option (hintFunction q))
    (w a b c wv : List (ZMod q)) :
    HintInv r m w.length (Solve.seed r.nbWires w a b c wv).wireInstantiated
      (Solve.seed r.nbWires w a b c wv).wireValues := by
  intro v hID hint hn hi
  exfalso
  by_cases hv : v < r.nbWires
  · rw [Solve.seed_inst _ _ _ _ _ _ v hv] at hi
    simp at hi
    omega
  · rw [List.getElem?_eq_none (by rw [Solve.seed_inst_length]; omega)] at hi
    cases hi

/-- C10 (hint wires carry their hint's output): after every successful `Solve`,
every wire above the inputs that has a record in `Hints` and occurs in a
computational constraint has a record selected by `mHints`, and its final value
is the output of the registered function with that record's id on the values
of the record's input linear expressions under the final wire vector. -/
theorem Solve_hint_wires [fr.Element q] (isZeroID ithBitID : ℕ) (r1cs : R1CS q)
    (witness a b c wireValues : List (ZMod q)) (hintFunctions : List (hint.Function q))
    (a1 b1 c1 wv1 : List (ZMod q)) (inst1 : List Bool) (logged : List Sprintf)
    (h : r1cs.Solve isZeroID ithBitID witness a b c wireValues hintFunctions =
      .returned none a1 b1 c1 wv1 inst1 logged)
    (i : ℕ) (cons : R1C) (t : Term) (hi : i < r1cs.NbCOConstraints)
    (hcons : r1cs.Constraints[i]? = some cons) (ht : t ∈ cons.L ++ cons.R ++ cons.O)
    (hinput : witness.length < t.VariableID)
    (hreg : ∃ record ∈ r1cs.Hints, record.WireID = t.VariableID) :
    ∃ hID record mHintsFunctions f inputs x,
      r1cs.mHints t.VariableID = some hID ∧ r1cs.Hints[hID]? = some record ∧
      record.WireID = t.VariableID ∧
      Solve.registerHints hintFunctions (Solve.builtinHints isZeroID ithBitID) =
        .ok mHintsFunctions ∧
      mHintsFunctions record.ID = some f ∧
      hintInputValues r1cs wv1 record.Inputs = .ok inputs ∧
      f inputs = .ok x ∧ wv1[t.VariableID]? = some x := by
  have hv := SizesValid_of_returned_none h
  obtain ⟨s1, hb, -, -, -, rfl, rfl, -⟩ := Solve_returned_of_valid hv h
  obtain ⟨m, s2, hm, h1, h2⟩ := Solve.body_cases_next hb
  obtain ⟨hID, record, g1, g2, g3⟩ := R1CS.mHints_of_registered r1cs _ hreg
  have key := Solve.loop_next
    (fun k s => HintInv r1cs m witness.length s.wireInstantiated s.wireValues ∧
      ∀ j, j < k → ∀ cons, r1cs.Constraints[j]? = some cons →
        ∀ t ∈ cons.L ++ cons.R ++ cons.O, r1cs.mHints t.VariableID ≠ none →
          s.wireInstantiated[t.VariableID]? = some true)
    (fun k s s3 hP hstep => by
      obtain ⟨cons1, off, hc1, hs⟩ := Solve.solveStep_wires hstep
      refine ⟨hP.1.of_solveR1C hs, ?_⟩
      intro j hj cons2 hc2 t2 ht2 hm2
      rcases Nat.lt_succ_iff_lt_or_eq.mp hj with hlt | rfl
      · exact ((R1CS.solveR1C_frozen hs).2.2 _ (hP.2 j hlt cons2 hc2 t2 ht2 hm2)).1
      · rw [hc1] at hc2
        injection hc2 with hc2
        subst hc2
        exact R1CS.solveR1C_covers hs t2 ht2 hm2)
    _ _ _ _ ⟨HintInv.seed r1cs m witness a b c wireValues,
      fun j hj => absurd hj (Nat.not_lt_zero _)⟩ h1
  rw [Nat.zero_add] at key
  obtain ⟨-, e2⟩ := Solve.assertLoop_wires h2
  rw [e2]
  have hinst := key.2 i hi cons hcons t ht (by rw [g1]; simp)
  obtain ⟨f, inputs, x, k1, k2, k3, k4⟩ := key.1 _ hID record hinput hinst g1 g2
  exact ⟨hID, record, m, f, inputs, x, g1, g2, g3, hm, k1,
    processTerm.hintInputs_values _ _ k2, k3, k4⟩

/-- Witness of C10: in `exampleHint` solved on `x = 3` the hint wire 2 ends with
the double of `x`. -/
theorem Solve_hint_wires_witness :
    exampleHint.Solve 1 2 [3] [0] [0] [0] [0, 0, 0] [⟨7, some exampleDouble⟩] =
      .returned none [6] [1] [6] [1, 3, 6] [true, true, true] [] ∧
    ∃ hID record mHintsFunctions f inputs x,
      exampleHint.mHints 2 = some hID ∧ exampleHint.Hints[hID]? = some record ∧
      record.WireID = 2 ∧
      Solve.registerHints [⟨7, some exampleDouble⟩] (Solve.builtinHints 1 2) =
        .ok mHintsFunctions ∧
      mHintsFunctions record.ID = some f ∧
      hintInputValues exampleHint [1, 3, 6] record.Inputs = .ok inputs ∧
      f inputs = .ok x ∧ [(1 : ZMod frModulus), 3, 6][2]? = some x :=
  ⟨rfl, Solve_hint_wires 1 2 exampleHint [3] [0] [0] [0] [0, 0, 0] [⟨7, some exampleDouble⟩]
    [6] [1] [6] [1, 3, 6] [true, true, true] [] rfl 0 ⟨[⟨1, 2⟩], [⟨1, 0⟩], [⟨2, 1⟩]⟩ ⟨1, 2⟩
    (by decide) rfl (by decide) (by decide) ⟨⟨2, 7, [[⟨1, 1⟩]]⟩, by decide, rfl⟩⟩


theorem logValue.toResolve_eq [fr.Element q] {wv : List (ZMod q)} {inst : List Bool} :
    ∀ (ws : List ℕ) (args : List String), logValue.toResolve wv inst ws = .ok args →
      args = ws.map (resolveWire wv inst) := by
  intro ws
  induction ws with
  | nil => intro args h; simp only [logValue.toResolve] at h; cases h; rfl
  | cons w ws ih =>
    intro args h
    cases hi : inst[w]? with
    | none => simp [logValue.toResolve, hi] at h
    | some flag =>
      cases hr : logValue.toResolve wv inst ws with
      | error e =>
        cases flag with
        | false => simp [logValue.toResolve, hi, hr] at h
        | true =>
          cases hw : wv[w]? with
          | none => simp [logValue.toResolve, hi, hw] at h
          | some x => simp [logValue.toResolve, hi, hw, hr] at h
      | ok rest =>
        have hrest := ih rest hr
        cases flag with
        | false =>
          simp only [logValue.toResolve, hi, hr] at h
          cases h
          have : resolveWire wv inst w = "???" := by
            simp [resolveWire, List.getD_eq_getElem?_getD, hi]
          simp [this, hrest]
        | true =>
          cases hw : wv[w]? with
          | none => simp [logValue.toResolve, hi, hw] at h
          | some x =>
            simp only [logValue.toResolve, hi, hw, hr] at h
            cases h
            have : resolveWire wv inst w = fr.Element.String x := by
              simp [resolveWire, List.getD_eq_getElem?_getD, hi, hw]
            simp [this, hrest]

theorem logValue.toResolve_ok [fr.Element q] {wv : List (ZMod q)} {inst : List Bool} :
    ∀ (ws : List ℕ), (∀ w ∈ ws, w < inst.length ∧ w < wv.length) →
      logValue.toResolve wv inst ws = .ok (ws.map (resolveWire wv inst)) := by
  intro ws
  induction ws with
  | nil => intro _; rfl
  | cons w ws ih =>
    intro hwf
    have hr := ih (fun u hu => hwf u (List.mem_cons_of_mem _ hu))
    obtain ⟨h1, h2⟩ := hwf w (List.mem_cons_self _ _)
    have e1 : inst[w]? = some inst[w] := List.getElem?_eq_getElem h1
    have e2 : wv[w]? = some wv[w] := List.getElem?_eq_getElem h2
    cases hf : inst[w] with
    | false =>
      rw [hf] at e1
      have : resolveWire wv inst w = "???" := by
        simp [resolveWire, List.getD_eq_getElem?_getD, e1]
      simp only [logValue.toResolve, e1, hr, List.map_cons, this]
    | true =>
      rw [hf] at e1
      have : resolveWire wv inst w = fr.Element.String wv[w] := by
        simp [resolveWire, List.getD_eq_getElem?_getD, e1, e2]
      simp only [logValue.toResolve, e1, e2, hr, List.map_cons, this]

theorem logValue_eq [fr.Element q] {wv : List (ZMod q)} {inst : List Bool} {entry : LogEntry}
    {line : Sprintf}
    (h : logValue entry wv inst = .ok line) : line = formatEntry wv inst entry := by
  unfold logValue at h
  split at h
  · cases h
  · rename_i args ha
    cases h
    rw [logValue.toResolve_eq _ _ ha]
    rfl

theorem logValue_ok [fr.Element q] {wv : List (ZMod q)} {inst : List Bool} (entry : LogEntry)
    (hwf : ∀ w ∈ entry.ToResolve, w < inst.length ∧ w < wv.length) :
    logValue entry wv inst = .ok (formatEntry wv inst entry) := by
  unfold logValue
  rw [logValue.toResolve_ok _ hwf]
  rfl

theorem printLogs.loop_eq [fr.Element q] {wv : List (ZMod q)} {inst : List Bool} (lo : Bool) :
    ∀ (logs : List LogEntry) (out : List Sprintf), printLogs.loop lo wv inst logs = .ok out →
      out = if lo then logs.map (formatEntry wv inst) else [] := by
  intro logs
  induction logs with
  | nil => intro out h; simp only [printLogs.loop] at h; cases h; simp
  | cons entry logs ih =>
    intro out h
    simp only [printLogs.loop] at h
    split at h
    · cases h
    · rename_i line hl
      split at h
      · cases h
      · rename_i rest hr
        cases h
        rw [ih rest hr, logValue_eq hl]
        cases lo <;> simp

theorem printLogs.loop_ok [fr.Element q] {wv : List (ZMod q)} {inst : List Bool} (lo : Bool) :
    ∀ (logs : List LogEntry),
      (∀ entry ∈ logs, ∀ w ∈ entry.ToResolve, w < inst.length ∧ w < wv.length) →
      printLogs.loop lo wv inst logs =
        .ok (if lo then logs.map (formatEntry wv inst) else []) := by
  intro logs
  induction logs with
  | nil => intro _; cases lo <;> rfl
  | cons entry logs ih =>
    intro hwf
    simp only [printLogs.loop]
    rw [logValue_ok entry (hwf entry (List.mem_cons_self _ _)),
      ih (fun e he => hwf e (List.mem_cons_of_mem _ he))]
    cases lo <;> simp

theorem Solve.registerHints_error_of_dup :
    ∀ (hf : List (hint.Function q)) (m : ℕ → Option (hintFunction q)),
      ((∃ h ∈ hf, m h.ID ≠ none) ∨
        ∃ (i j : ℕ) (h1 h2 : hint.Function q),
          i < j ∧ hf[i]? = some h1 ∧ hf[j]? = some h2 ∧ h1.ID = h2.ID) →
      ∃ e, Solve.registerHints hf m = .error e := by
  intro hf
  induction hf with
  | nil =>
    intro m h
    rcases h with ⟨h, hh, _⟩ | ⟨i, j, h1, h2, _, hi, _⟩
    · simp at hh
    · simp at hi
  | cons h0 tl ih =>
    intro m h
    simp only [Solve.registerHints]
    cases hm : m h0.ID with
    | some f0 => exact ⟨_, rfl⟩
    | none =>
      cases hF : h0.F with
      | none => exact ⟨_, rfl⟩
      | some f =>
        simp only
        apply ih
        rcases h with ⟨h, hh, hne⟩ | ⟨i, j, h1, h2, hij, hi, hj, hid⟩
        · left
          rcases List.mem_cons.mp hh with rfl | hh
          · exact absurd hm hne
          · refine ⟨h, hh, ?_⟩
            by_cases e : h.ID = h0.ID
            · simp [e]
            · simpa [e] using hne
        · obtain ⟨j1, rfl⟩ : ∃ j1, j = j1 + 1 := ⟨j - 1, by omega⟩
          rw [List.getElem?_cons_succ] at hj
          cases i with
          | zero =>
            left
            simp only [List.getElem?_cons_zero, Option.some.injEq] at hi
            subst hi
            exact ⟨h2, List.getElem?_mem hj, by simp [hid]⟩
          | succ i1 =>
            right
            rw [List.getElem?_cons_succ] at hi
            exact ⟨i1, j1, h1, h2, by omega, hi, hj, hid⟩


/-- C6, as the code has it: on a size-valid call for a system whose log
entries name existing wires, if the user hint list holds two entries with the
same function id, or an entry whose id is that of the built-in is-zero or
ith-bit hint, then `Solve` returns a hint-registration error and `a`, `b`, `c`
are returned as they were passed: no constraint is processed. -/
theorem Solve_rejects_duplicate_hints [fr.Element q] (isZeroID ithBitID : ℕ) (r1cs : R1CS q)
    (witness a0 b0 c0 wireValues : List (ZMod q)) (hintFunctions : List (hint.Function q))
    (hv : SizesValid r1cs witness a0 b0 c0 wireValues)
    (hlogs : ∀ entry ∈ r1cs.Logs, ∀ wireID ∈ entry.ToResolve, wireID < r1cs.nbWires)
    (hdup : (∃ (i j : ℕ) (h1 h2 : hint.Function q), i < j ∧ hintFunctions[i]? = some h1 ∧
        hintFunctions[j]? = some h2 ∧ h1.ID = h2.ID) ∨
      ∃ h ∈ hintFunctions, h.ID = isZeroID ∨ h.ID = ithBitID) :
    ∃ e wv1 inst1 logged,
      ((∃ id, e = SolveError.duplicateHint id) ∨ (∃ id, e = SolveError.invalidHintSignature id)) ∧
      r1cs.Solve isZeroID ithBitID witness a0 b0 c0 wireValues hintFunctions =
        .returned (some e) a0 b0 c0 wv1 inst1 logged := by
  have hreg : ∃ e, Solve.registerHints hintFunctions
      (@Solve.builtinHints q isZeroID ithBitID) = .error e := by
    apply Solve.registerHints_error_of_dup
    rcases hdup with hd | ⟨h, hh, hid⟩
    · exact Or.inr hd
    · left
      refine ⟨h, hh, ?_⟩
      unfold Solve.builtinHints
      rcases hid with hid | hid
      · rw [hid]; split <;> simp
      · simp [hid]
  obtain ⟨e, he⟩ := hreg
  have hlt : witness.length < wireValues.length := by
    obtain ⟨h1, -, -, -, h5⟩ := hv
    unfold R1CS.nbWires at h5
    omega
  have hlog := @printLogs.loop_ok q _
    (Solve.seed r1cs.nbWires witness a0 b0 c0 wireValues).wireValues
    (Solve.seed r1cs.nbWires witness a0 b0 c0 wireValues).wireInstantiated
    r1cs.loggerOut r1cs.Logs (by
      intro entry hentry w hw
      rw [Solve.seed_inst_length, Solve.seed_wireValues_length _ _ _ _ _ _ hlt, hv.2.2.2.2]
      exact ⟨hlogs entry hentry w hw, hlogs entry hentry w hw⟩)
  refine ⟨e, (Solve.seed r1cs.nbWires witness a0 b0 c0 wireValues).wireValues,
    (Solve.seed r1cs.nbWires witness a0 b0 c0 wireValues).wireInstantiated,
    (if r1cs.loggerOut = true then
      List.map (formatEntry (Solve.seed r1cs.nbWires witness a0 b0 c0 wireValues).wireValues
        (Solve.seed r1cs.nbWires witness a0 b0 c0 wireValues).wireInstantiated) r1cs.Logs
    else []), Solve.registerHints_error _ _ _ he, ?_⟩
  rw [Solve_of_valid _ _ _ _ _ _ _ _ _ hv]
  simp only [Solve.body, he, Solve.deferred, R1CS.printLogs, hlog]
  rfl

/-- Witness of C6 as amended: the same hint id registered twice is rejected with the
buffers `a`, `b`, `c` untouched. -/
theorem Solve_rejects_duplicate_hints_witness :
    ∃ e wv1 inst1 logged,
      ((∃ id, e = SolveError.duplicateHint id) ∨ (∃ id, e = SolveError.invalidHintSignature id)) ∧
      exampleAssertion.Solve 1 2 [3, 4] [7] [8] [9] [4, 5, 6]
          [⟨7, some exampleDouble⟩, ⟨7, some exampleDouble⟩] =
        .returned (some e) [7] [8] [9] wv1 inst1 logged :=
  Solve_rejects_duplicate_hints 1 2 exampleAssertion [3, 4] [7] [8] [9] [4, 5, 6]
    [⟨7, some exampleDouble⟩, ⟨7, some exampleDouble⟩]
    ⟨by decide, rfl, rfl, rfl, rfl⟩ (by decide)
    (Or.inl ⟨0, 1, ⟨7, some exampleDouble⟩, ⟨7, some exampleDouble⟩, by decide, rfl, rfl, rfl⟩)

/-- Counterexample to C6 as stated: a size-valid call with the same hint id
registered twice, on a system one log entry of which names a wire that does
not exist: the registration error is on its way out when the deferred
`printLogs` panics on the index, and `Solve` returns no error. -/
theorem Solve_panics_on_duplicate_hints_with_dangling_log :
    SizesValid exampleDanglingLog [3, 4] [7] [8] [9] [4, 5, 6] ∧
    exampleDanglingLog.nbWires = 3 ∧ exampleDanglingLog.Logs = [⟨"w=%s", [7]⟩] ∧
    Solve.registerHints [⟨7, some exampleDouble⟩, ⟨7, some exampleDouble⟩]
      (Solve.builtinHints 1 2) = .error (.duplicateHint 7) ∧
    exampleDanglingLog.Solve 1 2 [3, 4] [7] [8] [9] [4, 5, 6]
        [⟨7, some exampleDouble⟩, ⟨7, some exampleDouble⟩] =
      .panicked "index out of range" :=
  ⟨⟨by decide, rfl, rfl, rfl, rfl⟩, rfl, rfl, rfl, rfl⟩

/-- C7, as the code has it: a call of `Solve` that passes the argument validation
and returns, whatever it returns (nil, a hint-registration error or an
unsatisfied constraint of either phase), has written every entry of `Logs`, in
stored order, formatted against the wire values and flags it leaves, when a
logger is configured, and nothing when the logger is nil; a call that fails
the argument validation returns before the flush is deferred and writes
nothing. -/
theorem Solve_flushes_logs [fr.Element q] (isZeroID ithBitID : ℕ) (r1cs : R1CS q)
    (witness a b c wireValues : List (ZMod q)) (hintFunctions : List (hint.Function q)) :
    (SizesValid r1cs witness a b c wireValues →
      ∀ (err : Option SolveError) (a1 b1 c1 wv1 : List (ZMod q)) (inst1 : List Bool)
        (logged : List Sprintf),
        r1cs.Solve isZeroID ithBitID witness a b c wireValues hintFunctions =
          .returned err a1 b1 c1 wv1 inst1 logged →
        logged = if r1cs.loggerOut then r1cs.Logs.map (formatEntry wv1 inst1) else []) ∧
    (¬ SizesValid r1cs witness a b c wireValues →
      ∃ e, r1cs.Solve isZeroID ithBitID witness a b c wireValues hintFunctions =
        .returned (some e) a b c wireValues [] []) := by
  constructor
  · intro hv err a1 b1 c1 wv1 inst1 logged h
    obtain ⟨s1, -, -, -, -, rfl, rfl, hp⟩ := Solve_returned_of_valid hv h
    exact printLogs.loop_eq _ _ _ hp
  · intro hv
    rcases Solve_of_not_valid isZeroID ithBitID r1cs witness a b c wireValues hintFunctions hv
      with h | h
    · exact ⟨_, h⟩
    · exact ⟨_, h⟩

/-- Witness of C7 as amended: the failing assertion `x * y = 10` still has its log
entry written, and a call with a short witness writes nothing. -/
theorem Solve_flushes_logs_witness :
    ([(⟨"x=%s", ["3"]⟩ : Sprintf)] =
      if exampleAssertion.loggerOut then
        exampleAssertion.Logs.map (formatEntry [(1 : ZMod frModulus), 3, 4] [true, true, true])
      else []) ∧
    ∃ e, exampleAssertion.Solve 1 2 [3] [7] [8] [9] [4, 5, 6] [] =
      .returned (some e) [7] [8] [9] [4, 5, 6] [] [] :=
  ⟨(Solve_flushes_logs 1 2 exampleAssertion [3, 4] [7] [8] [9] [4, 5, 6] []).1
      ⟨by decide, rfl, rfl, rfl, rfl⟩ _ [3] [4] [10] [1, 3, 4] [true, true, true]
      [⟨"x=%s", ["3"]⟩] rfl,
    (Solve_flushes_logs 1 2 exampleAssertion [3] [7] [8] [9] [4, 5, 6] []).2
      (by decide)⟩

/-- Counterexample to C7 as stated: with a logger configured and one log entry
stored, a call whose witness has the wrong length returns the size error
without writing anything. -/
theorem Solve_skips_logs_on_invalid_size :
    exampleAssertion.loggerOut = true ∧ exampleAssertion.Logs = [⟨"x=%s", [1]⟩] ∧
    exampleAssertion.Solve 1 2 [3] [7] [8] [9] [4, 5, 6] [] =
      .returned (some .invalidWitnessSize) [7] [8] [9] [4, 5, 6] [] [] :=
  ⟨rfl, rfl, rfl⟩


theorem Flow.Rel.mono {Pn Pr Qn Qr : SolveState q → SolveState q → Prop} {f g : Flow q}
    (h : Flow.Rel Pn Pr f g) (hn : ∀ s t, Pn s t → Qn s t) (hr : ∀ s t, Pr s t → Qr s t) :
    Flow.Rel Qn Qr f g := by
  cases f <;> cases g <;> simp only [Flow.Rel] at h ⊢
  · exact hn _ _ h
  · exact ⟨h.1, hr _ _ h.2⟩
  · exact h

theorem Solve.check_rel [fr.Element q] (r : R1CS q) (i : ℕ) (cons : R1C) (d : Option LogEntry)
    (s t : SolveState q) (hst : SameCore s t) :
    Flow.Rel
      (fun s1 t1 => SameCore s1 t1 ∧ ∃ x y z, i < s.a.length ∧ i < s.b.length ∧ i < s.c.length ∧
        s1.a = s.a.set i x ∧ s1.b = s.b.set i y ∧ s1.c = s.c.set i z ∧
        t1.a = t.a.set i x ∧ t1.b = t.b.set i y ∧ t1.c = t.c.set i z)
      (fun s1 t1 => SameCore s1 t1 ∧ ∃ x y z, i < s.a.length ∧ i < s.b.length ∧ i < s.c.length ∧
        s1.a = s.a.set i x ∧ s1.b = s.b.set i y ∧ s1.c = s.c.set i z ∧
        t1.a = t.a.set i x ∧ t1.b = t.b.set i y ∧ t1.c = t.c.set i z)
      (Solve.check r i cons d s) (Solve.check r i cons d t) := by
  obtain ⟨sa, sb, sc, swv, sinst, soff⟩ := s
  obtain ⟨ta, tb, tc, twv, tinst, toff⟩ := t
  obtain ⟨h1, h2, h3, h4, h5, h6⟩ := hst
  simp only at h1 h2 h3 h4 h5 h6
  subst h1; subst h2; subst h3
  unfold Solve.check
  simp only
  cases hin : instantiateR1C cons r swv with
  | error e => simp [Flow.Rel]
  | ok abc =>
    obtain ⟨x, y, z⟩ := abc
    simp only
    by_cases hb : i < sa.length ∧ i < sb.length ∧ i < sc.length
    · have hb1 : i < ta.length ∧ i < tb.length ∧ i < tc.length := by
        rw [← h4, ← h5, ← h6]; exact hb
      rw [if_pos hb, if_pos hb1]
      by_cases hxy : x * y = z
      · rw [if_pos hxy, if_pos hxy]
        simp only [Flow.Rel]
        exact ⟨⟨rfl, rfl, rfl, by simp [h4], by simp [h5], by simp [h6]⟩, x, y, z, hb.1, hb.2.1,
          hb.2.2, rfl, rfl, rfl, rfl, rfl, rfl⟩
      · rw [if_neg hxy, if_neg hxy]
        cases d with
        | none => simp [Flow.Rel]
        | some entry =>
          simp only
          cases hl : logValue entry swv sinst with
          | error e => simp [Flow.Rel]
          | ok str =>
            simp only [Flow.Rel, true_and]
            exact ⟨⟨rfl, rfl, rfl, by simp [h4], by simp [h5], by simp [h6]⟩, x, y, z, hb.1,
              hb.2.1, hb.2.2, rfl, rfl, rfl, rfl, rfl, rfl⟩
    · have hb1 : ¬ (i < ta.length ∧ i < tb.length ∧ i < tc.length) := by
        rw [← h4, ← h5, ← h6]; exact hb
      rw [if_neg hb, if_neg hb1]
      simp [Flow.Rel]

theorem Agree.of_set {a0 b0 c0 a1 b1 c1 : List (ZMod q)} {i : ℕ} {s t s1 t1 : SolveState q}
    (h : Agree a0 b0 c0 a1 b1 c1 i s t) {s2 t2 : SolveState q}
    (hs : s2.a = s.a ∧ s2.b = s.b ∧ s2.c = s.c) (ht : t2.a = t.a ∧ t2.b = t.b ∧ t2.c = t.c)
    (h1 : SameCore s1 t1 ∧ ∃ x y z, i < s2.a.length ∧ i < s2.b.length ∧ i < s2.c.length ∧
        s1.a = s2.a.set i x ∧ s1.b = s2.b.set i y ∧ s1.c = s2.c.set i z ∧
        t1.a = t2.a.set i x ∧ t1.b = t2.b.set i y ∧ t1.c = t2.c.set i z) :
    Agree a0 b0 c0 a1 b1 c1 (i + 1) s1 t1 := by
  obtain ⟨hc, x, y, z, ia, ib, ic, e1, e2, e3, e4, e5, e6⟩ := h1
  obtain ⟨hsame, hlow, hup⟩ := h
  rw [hs.1] at e1 ia; rw [hs.2.1] at e2 ib; rw [hs.2.2] at e3 ic
  rw [ht.1] at e4; rw [ht.2.1] at e5; rw [ht.2.2] at e6
  have ja : i < t.a.length := by rw [← hsame.2.2.2.1]; exact ia
  have jb : i < t.b.length := by rw [← hsame.2.2.2.2.1]; exact ib
  have jc : i < t.c.length := by rw [← hsame.2.2.2.2.2]; exact ic
  refine ⟨hc, ?_, ?_⟩
  · intro j hj
    rw [e1, e2, e3, e4, e5, e6]
    rcases Nat.lt_succ_iff_lt_or_eq.mp hj with hlt | rfl
    · have hne : i ≠ j := by omega
      simp only [List.getElem?_set_ne hne]
      exact hlow j hlt
    · simp [ia, ib, ic, ja, jb, jc]
  · intro j hj
    have hne : i ≠ j := by omega
    rw [e1, e2, e3, e4, e5, e6]
    simp only [List.getElem?_set_ne hne]
    exact hup j (by omega)

theorem Solve.solveStep_rel [fr.Element q] (r : R1CS q) (m : ℕ → Option (hintFunction q))
    (a0 b0 c0 a1 b1 c1 : List (ZMod q)) (i : ℕ) (s t : SolveState q)
    (h : Agree a0 b0 c0 a1 b1 c1 i s t) :
    Flow.Rel (Agree a0 b0 c0 a1 b1 c1 (i + 1)) (fun s1 t1 => ∃ k, Agree a0 b0 c0 a1 b1 c1 k s1 t1)
      (Solve.solveStep r m i s) (Solve.solveStep r m i t) := by
  obtain ⟨e1, e2, e3, e4, e5, e6⟩ := h.1
  unfold Solve.solveStep
  cases hc : r.Constraints[i]? with
  | none => simp [Flow.Rel]
  | some cons =>
    simp only
    rw [← e1, ← e2, ← e3]
    cases hs : r.solveR1C cons s.wireInstantiated s.wireValues m with
    | error e => simp [Flow.Rel]
    | ok res =>
      obtain ⟨inst, wv, off⟩ := res
      simp only
      refine (Solve.check_rel r i cons _
        { s with
          wireInstantiated := inst
          wireValues := wv
          debugInfoComputationOffset := s.debugInfoComputationOffset + off }
        { t with
          wireInstantiated := inst
          wireValues := wv
          debugInfoComputationOffset := s.debugInfoComputationOffset + off }
        ⟨rfl, rfl, rfl, e4, e5, e6⟩).mono ?_ ?_
      · intro s1 t1 h1
        exact h.of_set ⟨rfl, rfl, rfl⟩ ⟨rfl, rfl, rfl⟩ h1
      · intro s1 t1 h1
        exact ⟨i + 1, h.of_set ⟨rfl, rfl, rfl⟩ ⟨rfl, rfl, rfl⟩ h1⟩

theorem Solve.assertStep_rel [fr.Element q] (r : R1CS q)
    (a0 b0 c0 a1 b1 c1 : List (ZMod q)) (i : ℕ) (s t : SolveState q)
    (h : Agree a0 b0 c0 a1 b1 c1 i s t) :
    Flow.Rel (Agree a0 b0 c0 a1 b1 c1 (i + 1)) (fun s1 t1 => ∃ k, Agree a0 b0 c0 a1 b1 c1 k s1 t1)
      (Solve.assertStep r i s) (Solve.assertStep r i t) := by
  unfold Solve.assertStep
  cases hc : r.Constraints[i]? with
  | none => simp [Flow.Rel]
  | some cons =>
    simp only
    refine (Solve.check_rel r i cons _ s t h.1).mono ?_ ?_
    · intro s1 t1 h1
      exact h.of_set ⟨rfl, rfl, rfl⟩ ⟨rfl, rfl, rfl⟩ h1
    · intro s1 t1 h1
      exact ⟨i + 1, h.of_set ⟨rfl, rfl, rfl⟩ ⟨rfl, rfl, rfl⟩ h1⟩

theorem Solve.loop_rel {body : ℕ → SolveState q → Flow q} {a0 b0 c0 a1 b1 c1 : List (ZMod q)}
    (hbody : ∀ i s t, Agree a0 b0 c0 a1 b1 c1 i s t →
      Flow.Rel (Agree a0 b0 c0 a1 b1 c1 (i + 1))
        (fun s1 t1 => ∃ k, Agree a0 b0 c0 a1 b1 c1 k s1 t1) (body i s) (body i t)) :
    ∀ (n i : ℕ) (s t : SolveState q), Agree a0 b0 c0 a1 b1 c1 i s t →
      Flow.Rel (Agree a0 b0 c0 a1 b1 c1 (i + n))
        (fun s1 t1 => ∃ k, Agree a0 b0 c0 a1 b1 c1 k s1 t1)
        (Solve.loop body n i s) (Solve.loop body n i t) := by
  intro n
  induction n with
  | zero =>
    intro i s t h
    simpa [Solve.loop, Flow.Rel] using h
  | succ n ih =>
    intro i s t h
    have hb := hbody i s t h
    simp only [Solve.loop]
    cases h1 : body i s with
    | next s1 =>
      cases h2 : body i t with
      | next t1 =>
        rw [h1, h2] at hb
        simp only [Flow.Rel] at hb
        have := ih (i + 1) s1 t1 hb
        have e : i + (n + 1) = i + 1 + n := by omega
        simp only
        rw [e]
        exact this
      | ret e t1 => rw [h1, h2] at hb; simp [Flow.Rel] at hb
      | panic msg => rw [h1, h2] at hb; simp [Flow.Rel] at hb
    | ret e s1 =>
      cases h2 : body i t with
      | next t1 => rw [h1, h2] at hb; simp [Flow.Rel] at hb
      | ret e1 t1 => rw [h1, h2] at hb; simpa [Flow.Rel] using hb
      | panic msg => rw [h1, h2] at hb; simp [Flow.Rel] at hb
    | panic msg =>
      cases h2 : body i t with
      | next t1 => rw [h1, h2] at hb; simp [Flow.Rel] at hb
      | ret e1 t1 => rw [h1, h2] at hb; simp [Flow.Rel] at hb
      | panic msg1 => rw [h1, h2] at hb; simpa [Flow.Rel] using hb

theorem Agree.start {s t : SolveState q} (h : SameCore s t) :
    Agree s.a s.b s.c t.a t.b t.c 0 s t :=
  ⟨h, fun _ hj => absurd hj (Nat.not_lt_zero _), fun _ _ => ⟨⟨rfl, rfl, rfl⟩, rfl, rfl, rfl⟩⟩

theorem Solve.body_rel [fr.Element q] (isZ ithB : ℕ) (r : R1CS q) (hf : List (hint.Function q))
    {s t : SolveState q} (h : SameCore s t) :
    Flow.Rel (fun s1 t1 => ∃ k, r.Constraints.length ≤ k ∧ Agree s.a s.b s.c t.a t.b t.c k s1 t1)
      (fun s1 t1 => ∃ k, Agree s.a s.b s.c t.a t.b t.c k s1 t1)
      (Solve.body isZ ithB r hf s) (Solve.body isZ ithB r hf t) := by
  unfold Solve.body
  cases hm : Solve.registerHints hf (@Solve.builtinHints q isZ ithB) with
  | error e =>
    simp only [Flow.Rel, true_and]
    exact ⟨0, Agree.start h⟩
  | ok m =>
    simp only
    have l1 := Solve.loop_rel (Solve.solveStep_rel r m s.a s.b s.c t.a t.b t.c)
      r.NbCOConstraints 0 s t (Agree.start h)
    cases h1 : Solve.loop (Solve.solveStep r m) r.NbCOConstraints 0 s with
    | next s1 =>
      cases h2 : Solve.loop (Solve.solveStep r m) r.NbCOConstraints 0 t with
      | next t1 =>
        rw [h1, h2] at l1
        simp only [Flow.Rel, Nat.zero_add] at l1
        simp only
        have l2 := Solve.loop_rel (Solve.assertStep_rel r s.a s.b s.c t.a t.b t.c)
          (r.Constraints.length - r.NbCOConstraints) r.NbCOConstraints s1 t1 l1
        exact l2.mono (fun _ _ hh => ⟨_, by omega, hh⟩) (fun _ _ hh => hh)
      | ret e t1 => rw [h1, h2] at l1; simp [Flow.Rel] at l1
      | panic msg => rw [h1, h2] at l1; simp [Flow.Rel] at l1
    | ret e s1 =>
      cases h2 : Solve.loop (Solve.solveStep r m) r.NbCOConstraints 0 t with
      | next t1 => rw [h1, h2] at l1; simp [Flow.Rel] at l1
      | ret e1 t1 => rw [h1, h2] at l1; simpa [Flow.Rel] using l1
      | panic msg => rw [h1, h2] at l1; simp [Flow.Rel] at l1
    | panic msg =>
      cases h2 : Solve.loop (Solve.solveStep r m) r.NbCOConstraints 0 t with
      | next t1 => rw [h1, h2] at l1; simp [Flow.Rel] at l1
      | ret e1 t1 => rw [h1, h2] at l1; simp [Flow.Rel] at l1
      | panic msg1 => rw [h1, h2] at l1; simpa [Flow.Rel] using l1


theorem Solve.seed_sameCore (nbWires : ℕ) (w a0 b0 c0 wv0 a1 b1 c1 wv1 : List (ZMod q))
    (ha : a0.length = a1.length) (hb : b0.length = b1.length) (hc : c0.length = c1.length)
    (hwv : wv0.length = wv1.length) (hlt : w.length < wv0.length)
    (htail : ∀ v, w.length < v → wv0[v]? = wv1[v]?) :
    SameCore (Solve.seed nbWires w a0 b0 c0 wv0) (Solve.seed nbWires w a1 b1 c1 wv1) := by
  refine ⟨?_, rfl, rfl, ha, hb, hc⟩
  apply List.ext_getElem?
  intro v
  by_cases h0 : v = 0
  · subst h0
    rw [Solve.seed_wireValues_zero _ _ _ _ _ _ (by omega),
      Solve.seed_wireValues_zero _ _ _ _ _ _ (by omega)]
  · by_cases hle : v ≤ w.length
    · obtain ⟨j, rfl⟩ : ∃ j, v = j + 1 := ⟨v - 1, by omega⟩
      rw [Solve.seed_wireValues_input _ _ _ _ _ _ hlt j (by omega),
        Solve.seed_wireValues_input _ _ _ _ _ _ (by omega) j (by omega)]
    · rw [Solve.seed_wireValues_rest _ _ _ _ _ _ v (by omega),
        Solve.seed_wireValues_rest _ _ _ _ _ _ v (by omega)]
      exact htail v (by omega)

/-- C3, as the code has it: `Solve` is a function of `(S, w, hintFunctions)` and
of what the caller left in `wireValues` behind the inputs.  Two size-valid
calls whose `wireValues` buffers agree behind the seed prefix, whatever else
the four buffers hold, end alike: both panic with the same message, or both
return the same result (nil or the same error) with identical `wireValues`,
flags and log lines; their `a`, `b`, `c` agree on the indices processed (below
some `k`) and keep what each caller passed from `k` on, and are identical
after a success on a system with `NbConstraints` constraints. -/
theorem Solve_deterministic [fr.Element q] (isZeroID ithBitID : ℕ) (r1cs : R1CS q)
    (witness : List (ZMod q)) (hintFunctions : List (hint.Function q))
    (a0 b0 c0 wv0 a1 b1 c1 wv1 : List (ZMod q))
    (hv0 : SizesValid r1cs witness a0 b0 c0 wv0) (hv1 : SizesValid r1cs witness a1 b1 c1 wv1)
    (htail : ∀ v, witness.length < v → wv0[v]? = wv1[v]?) :
    EndAlike r1cs a0 b0 c0 a1 b1 c1
      (r1cs.Solve isZeroID ithBitID witness a0 b0 c0 wv0 hintFunctions)
      (r1cs.Solve isZeroID ithBitID witness a1 b1 c1 wv1 hintFunctions) := by
  have hlt : witness.length < wv0.length := by
    obtain ⟨h1, -, -, -, h5⟩ := hv0
    unfold R1CS.nbWires at h5
    omega
  have hsame := Solve.seed_sameCore r1cs.nbWires witness a0 b0 c0 wv0 a1 b1 c1 wv1
    (hv0.2.1.trans hv1.2.1.symm) (hv0.2.2.1.trans hv1.2.2.1.symm)
    (hv0.2.2.2.1.trans hv1.2.2.2.1.symm) (hv0.2.2.2.2.trans hv1.2.2.2.2.symm) hlt htail
  have hb := Solve.body_rel isZeroID ithBitID r1cs hintFunctions hsame
  have fin : ∀ (e : Option SolveError) (s t : SolveState q) (k : ℕ),
      (e = none → r1cs.Constraints.length ≤ k) →
      Agree a0 b0 c0 a1 b1 c1 k s t →
      EndAlike r1cs a0 b0 c0 a1 b1 c1 (Solve.deferred r1cs e s) (Solve.deferred r1cs e t) := by
    intro e s t k hk hag
    obtain ⟨⟨e1, e2, -, -, -, -⟩, hlow, hup⟩ := hag
    unfold Solve.deferred
    rw [← e1, ← e2]
    cases hp : r1cs.printLogs s.wireValues s.wireInstantiated with
    | error msg => simp [EndAlike]
    | ok lg =>
      simp only [EndAlike, true_and]
      refine ⟨⟨k, hlow, hup⟩, ?_⟩
      intro he hlen
      have hk1 := hk he
      have key : ∀ j : ℕ, s.a[j]? = t.a[j]? ∧ s.b[j]? = t.b[j]? ∧ s.c[j]? = t.c[j]? := by
        intro j
        by_cases hj : j < k
        · exact hlow j hj
        · obtain ⟨⟨p1, p2, p3⟩, p4, p5, p6⟩ := hup j (by omega)
          have n0 : a0[j]? = none := List.getElem?_eq_none (by have := hv0.2.1; omega)
          have n1 : b0[j]? = none := List.getElem?_eq_none (by have := hv0.2.2.1; omega)
          have n2 : c0[j]? = none := List.getElem?_eq_none (by have := hv0.2.2.2.1; omega)
          have n3 : a1[j]? = none := List.getElem?_eq_none (by have := hv1.2.1; omega)
          have n4 : b1[j]? = none := List.getElem?_eq_none (by have := hv1.2.2.1; omega)
          have n5 : c1[j]? = none := List.getElem?_eq_none (by have := hv1.2.2.2.1; omega)
          rw [p1, p2, p3, p4, p5, p6, n0, n1, n2, n3, n4, n5]
          exact ⟨rfl, rfl, rfl⟩
      exact ⟨List.ext_getElem? fun j => (key j).1, List.ext_getElem? fun j => (key j).2.1,
        List.ext_getElem? fun j => (key j).2.2⟩
  rw [Solve_of_valid _ _ _ _ _ _ _ _ _ hv0, Solve_of_valid _ _ _ _ _ _ _ _ _ hv1]
  cases h0 : Solve.body isZeroID ithBitID r1cs hintFunctions
      (Solve.seed r1cs.nbWires witness a0 b0 c0 wv0) with
  | next s =>
    cases h1 : Solve.body isZeroID ithBitID r1cs hintFunctions
        (Solve.seed r1cs.nbWires witness a1 b1 c1 wv1) with
    | next t =>
      rw [h0, h1] at hb
      simp only [Flow.Rel] at hb
      obtain ⟨k, hk, hag⟩ := hb
      exact fin none s t k (fun _ => hk) hag
    | ret e t => rw [h0, h1] at hb; simp [Flow.Rel] at hb
    | panic msg => rw [h0, h1] at hb; simp [Flow.Rel] at hb
  | ret e s =>
    cases h1 : Solve.body isZeroID ithBitID r1cs hintFunctions
        (Solve.seed r1cs.nbWires witness a1 b1 c1 wv1) with
    | next t => rw [h0, h1] at hb; simp [Flow.Rel] at hb
    | ret e1 t =>
      rw [h0, h1] at hb
      simp only [Flow.Rel] at hb
      obtain ⟨rfl, k, hag⟩ := hb
      exact fin (some e) s t k (fun he => by cases he) hag
    | panic msg => rw [h0, h1] at hb; simp [Flow.Rel] at hb
  | panic msg =>
    cases h1 : Solve.body isZeroID ithBitID r1cs hintFunctions
        (Solve.seed r1cs.nbWires witness a1 b1 c1 wv1) with
    | next t => rw [h0, h1] at hb; simp [Flow.Rel] at hb
    | ret e1 t => rw [h0, h1] at hb; simp [Flow.Rel] at hb
    | panic msg1 =>
      rw [h0, h1] at hb
      simpa [Flow.Rel, EndAlike] using hb

/-- Witness of C3 as amended: two calls on `x * y = z` with `x = 3`, `y = 5` whose
buffers differ everywhere except behind the inputs in `wireValues`. -/
theorem Solve_deterministic_witness :
    SizesValid exampleProduct [3, 5] [7] [8] [9] [9, 9, 9, 0] ∧
    SizesValid exampleProduct [3, 5] [1] [2] [4] [4, 4, 4, 0] ∧
    EndAlike exampleProduct [7] [8] [9] [1] [2] [4]
      (exampleProduct.Solve 1 2 [3, 5] [7] [8] [9] [9, 9, 9, 0] [])
      (exampleProduct.Solve 1 2 [3, 5] [1] [2] [4] [4, 4, 4, 0] []) :=
  ⟨by decide, by decide,
    Solve_deterministic 1 2 exampleProduct [3, 5] [] [7] [8] [9] [9, 9, 9, 0]
      [1] [2] [4] [4, 4, 4, 0] (by decide) (by decide) (by
        intro v hv
        have h4 : 3 ≤ v := hv
        obtain ⟨u, rfl⟩ : ∃ u, v = u + 3 := ⟨v - 3, by omega⟩
        rfl)⟩

/-- Counterexample to C3 as stated: two size-correct calls on `u * 0 = 0` that
differ only in what `wireValues` initially holds for the internal wire both
succeed, and leave different `wireValues` and different `a`. -/
theorem Solve_depends_on_initial_wireValues :
    exampleZeroDenominator.Solve 1 2 [] [0] [0] [0] [0, 7] [] =
      .returned none [7] [0] [0] [1, 7] [true, true] [] ∧
    exampleZeroDenominator.Solve 1 2 [] [0] [0] [0] [0, 9] [] =
      .returned none [9] [0] [0] [1, 9] [true, true] [] ∧
    ([1, 7] : List (ZMod frModulus)) ≠ [1, 9] ∧ ([7] : List (ZMod frModulus)) ≠ [9] :=
  ⟨rfl, rfl, by decide, by decide⟩


theorem solveR1C.walk_of_instantiated {r : R1CS q} {m : ℕ → Option (hintFunction q)}
    {locValue : ℕ} :
    ∀ (ts : LinearExpression) (s : solveR1CState q) (val : ZMod q) (s1 : solveR1CState q)
      (val1 : ZMod q), (∀ t ∈ ts, s.wireInstantiated[t.VariableID]? = some true) →
      solveR1C.walk r m locValue ts s val = .ok (s1, val1) →
      s1 = s ∧ instantiateR1C.side r s.wireValues ts val = .ok val1 := by
  intro ts
  induction ts with
  | nil =>
    intro s val s1 val1 _ h
    simp only [solveR1C.walk] at h
    injection h with h
    injection h with h1 h2
    subst h1; subst h2
    exact ⟨rfl, rfl⟩
  | cons t ts ih =>
    intro s val s1 val1 hall h
    simp only [solveR1C.walk] at h
    split at h
    · cases h
    · rename_i s2 val2 hp
      have ht := hall t (List.mem_cons_self _ _)
      rcases processTerm_cases hp with ⟨-, rfl, w, hw, ha⟩ | ⟨hi, -⟩ | ⟨hi, -⟩
      · obtain ⟨e1, e2⟩ := ih s2 val2 s1 val1
          (fun u hu => hall u (List.mem_cons_of_mem _ hu)) h
        refine ⟨e1, ?_⟩
        simp only [instantiateR1C.side, hw, ha]
        exact e2
      · rw [ht] at hi; cases hi
      · rw [ht] at hi; cases hi

theorem instantiateR1C.side_frozen {r : R1CS q} {inst inst1 : List Bool}
    {wv wv1 : List (ZMod q)} (hf : Frozen inst wv inst1 wv1) :
    ∀ (ts : LinearExpression) (acc x : ZMod q),
      (∀ t ∈ ts, inst[t.VariableID]? = some true) →
      instantiateR1C.side r wv ts acc = .ok x → instantiateR1C.side r wv1 ts acc = .ok x := by
  intro ts
  induction ts with
  | nil => intro acc x _ h; simpa [instantiateR1C.side] using h
  | cons t ts ih =>
    intro acc x hall h
    have f2 := (hf.2.2 _ (hall t (List.mem_cons_self _ _))).2
    cases hw : wv[t.VariableID]? with
    | none => simp [instantiateR1C.side, hw] at h
    | some w =>
      rw [hw] at f2
      cases ha : r.AddTerm acc t w with
      | error e => simp [instantiateR1C.side, hw, ha] at h
      | ok acc1 =>
        simp only [instantiateR1C.side, hw, ha] at h
        simp only [instantiateR1C.side, f2, ha]
        exact ih _ _ (fun u hu => hall u (List.mem_cons_of_mem _ hu)) h

theorem instantiateR1C_cases {r1cs : R1CS q} {r : R1C} {wv : List (ZMod q)} {x y z : ZMod q}
    (h : instantiateR1C r r1cs wv = .ok (x, y, z)) :
    instantiateR1C.side r1cs wv r.L 0 = .ok x ∧ instantiateR1C.side r1cs wv r.R 0 = .ok y ∧
      instantiateR1C.side r1cs wv r.O 0 = .ok z := by
  unfold instantiateR1C at h
  split at h
  · cases h
  · rename_i x1 h1
    split at h
    · cases h
    · rename_i y1 h2
      split at h
      · cases h
      · rename_i z1 h3
        injection h with h
        injection h with e1 h
        injection h with e2 e3
        subst e1; subst e2; subst e3
        exact ⟨h1, h2, h3⟩

theorem processTerm_keeps_plain {r : R1CS q} {m : ℕ → Option (hintFunction q)}
    {s s1 : solveR1CState q} {t : Term} {val val1 : ZMod q} {locValue : ℕ}
    (h : processTerm r m s t val locValue = .ok (s1, val1)) (v : ℕ) (hv : r.mHints v = none) :
    s1.wireValues[v]? = s.wireValues[v]? := by
  rcases processTerm_cases h with ⟨-, rfl, -⟩ | ⟨-, -, hID, hint, inputs, f, x, hm, -, -, -, -, -, rfl⟩ |
    ⟨-, -, -, -, rfl⟩
  · rfl
  · have hne : t.VariableID ≠ v := by
      rintro rfl
      rw [hv] at hm
      cases hm
    simp only
    rw [List.getElem?_set_ne hne]
  · rfl

theorem solveR1C.walks_keeps_plain {r : R1CS q} {m : ℕ → Option (hintFunction q)} {cons : R1C}
    {inst : List Bool} {wv : List (ZMod q)} {s : solveR1CState q} {a b c : ZMod q}
    (h : solveR1C.walks r cons inst wv m = .ok (s, a, b, c)) (v : ℕ) (hv : r.mHints v = none) :
    s.wireValues[v]? = wv[v]? := by
  obtain ⟨s1, s2, h1, h2, h3⟩ := solveR1C.walks_cases h
  have step : ∀ (locValue : ℕ) (s t val s1 val1), s.wireValues[v]? = wv[v]? →
      processTerm r m s t val locValue = .ok (s1, val1) → s1.wireValues[v]? = wv[v]? :=
    fun _ _ _ _ _ _ hP hp => (processTerm_keeps_plain hp v hv).trans hP
  have p1 := solveR1C.walk_induct (fun s => s.wireValues[v]? = wv[v]?) (step 1) _ _ _ _ _ rfl h1
  have p2 := solveR1C.walk_induct (fun s => s.wireValues[v]? = wv[v]?) (step 2) _ _ _ _ _ p1 h2
  exact solveR1C.walk_induct (fun s => s.wireValues[v]? = wv[v]?) (step 3) _ _ _ _ _ p2 h3


/-- C9, as the code has it: take a computational constraint `r` at index `i`
whose walk leaves the single unknown in `L` with the accumulator of `R` zero
(or in `R` with the accumulator of `L` zero), the wires of that other side
being instantiated before the walk.  Then `solveR1C` does not compute the
wire: it only marks it instantiated, leaves its stored value as it was and
returns offset 0.  The written product `A[i] * B[i]` is 0, so the check is
decided by `C[i]` alone: when `C[i] = 0` the constraint passes and the loop
goes on, and when `C[i] ≠ 0` the step returns `ErrUnsatisfiedConstraint` with
the debug entry at the current offset, provided that entry exists and names
existing wires; a size-valid call of `Solve` whose computational loop reaches
this constraint then returns that error, with the triple written at `i` and
the logs flushed, provided the log entries name existing wires. -/
theorem solveStep_zero_denominator [fr.Element q] (r1cs : R1CS q)
    (mHintsFunctions : ℕ → Option (hintFunction q)) (i : ℕ) (s : SolveState q) (r : R1C)
    (st : solveR1CState q) (a b c x y z : ZMod q)
    (hr : r1cs.Constraints[i]? = some r)
    (hlen : s.wireValues.length = s.wireInstantiated.length)
    (hbuf : i < s.a.length ∧ i < s.b.length ∧ i < s.c.length)
    (hwalk : solveR1C.walks r1cs r s.wireInstantiated s.wireValues mHintsFunctions =
      .ok (st, a, b, c))
    (hzero : (st.loc = 1 ∧ b = 0 ∧ ∀ t ∈ r.R, s.wireInstantiated[t.VariableID]? = some true) ∨
      (st.loc = 2 ∧ a = 0 ∧ ∀ t ∈ r.L, s.wireInstantiated[t.VariableID]? = some true))
    (hxyz : instantiateR1C r r1cs st.wireValues = .ok (x, y, z)) :
    r1cs.solveR1C r s.wireInstantiated s.wireValues mHintsFunctions =
      .ok (st.wireInstantiated.set st.termToCompute.VariableID true, st.wireValues, 0) ∧
    st.wireValues[st.termToCompute.VariableID]? =
      s.wireValues[st.termToCompute.VariableID]? ∧
    x * y = 0 ∧
    (z = 0 → Solve.solveStep r1cs mHintsFunctions i s =
      .next { a := s.a.set i x, b := s.b.set i y, c := s.c.set i z,
              wireValues := st.wireValues,
              wireInstantiated := st.wireInstantiated.set st.termToCompute.VariableID true,
              debugInfoComputationOffset := s.debugInfoComputationOffset }) ∧
    (z ≠ 0 → ∀ entry, r1cs.DebugInfoComputation[s.debugInfoComputationOffset]? = some entry →
      (∀ w ∈ entry.ToResolve, w < s.wireValues.length) →
      Solve.solveStep r1cs mHintsFunctions i s =
        .ret (.unsatisfiedConstraint (formatEntry st.wireValues
            (st.wireInstantiated.set st.termToCompute.VariableID true) entry))
          { a := s.a.set i x, b := s.b.set i y, c := s.c.set i z,
            wireValues := st.wireValues,
            wireInstantiated := st.wireInstantiated.set st.termToCompute.VariableID true,
            debugInfoComputationOffset := s.debugInfoComputationOffset } ∧
      ∀ (isZeroID ithBitID : ℕ) (witness a0 b0 c0 wireValues : List (ZMod q))
        (hintFunctions : List (hint.Function q)),
        SizesValid r1cs witness a0 b0 c0 wireValues →
        Solve.registerHints hintFunctions (Solve.builtinHints isZeroID ithBitID) =
          .ok mHintsFunctions →
        i < r1cs.NbCOConstraints →
        Solve.loop (Solve.solveStep r1cs mHintsFunctions) i 0
          (Solve.seed r1cs.nbWires witness a0 b0 c0 wireValues) = .next s →
        (∀ e ∈ r1cs.Logs, ∀ w ∈ e.ToResolve, w < s.wireValues.length) →
        r1cs.Solve isZeroID ithBitID witness a0 b0 c0 wireValues hintFunctions =
          .returned (some (.unsatisfiedConstraint (formatEntry st.wireValues
              (st.wireInstantiated.set st.termToCompute.VariableID true) entry)))
            (s.a.set i x) (s.b.set i y) (s.c.set i z) st.wireValues
            (st.wireInstantiated.set st.termToCompute.VariableID true)
            (if r1cs.loggerOut then
              r1cs.Logs.map (formatEntry st.wireValues
                (st.wireInstantiated.set st.termToCompute.VariableID true))
            else [])) := by
  obtain ⟨hfz, hw⟩ := solveR1C.walks_frozen hwalk
  have hloc : st.loc ≠ 0 := by rcases hzero with h | h <;> omega
  obtain ⟨hu, hplain⟩ := hw hloc
  have hb1 : st.termToCompute.VariableID < st.wireInstantiated.length := by
    rcases List.getElem?_eq_some_iff.mp hu with ⟨hlt, -⟩
    exact hlt
  have hcomp : solveR1C.compute r1cs st a b c =
      .ok (st.wireInstantiated.set st.termToCompute.VariableID true, st.wireValues, 0) := by
    have hsw : solveR1C.switch r1cs st a b c = .ok (st.wireValues, 0) := by
      unfold solveR1C.switch
      rcases hzero with ⟨h1, h2, -⟩ | ⟨h1, h2, -⟩
      · rw [if_pos h1, if_neg (by simpa using h2)]
      · rw [if_neg (by omega), if_pos h1, if_neg (by simpa using h2)]
    unfold solveR1C.compute
    rw [if_neg hloc, hsw]
    simp only
    rw [if_pos hb1]
  have hsolve : r1cs.solveR1C r s.wireInstantiated s.wireValues mHintsFunctions =
      .ok (st.wireInstantiated.set st.termToCompute.VariableID true, st.wireValues, 0) := by
    unfold R1CS.solveR1C
    rw [hwalk]
    exact hcomp
  obtain ⟨hx, hy, hz⟩ := instantiateR1C_cases hxyz
  obtain ⟨s1, s2, w1, w2, w3⟩ := solveR1C.walks_cases hwalk
  have w0 : WalkInv r1cs (⟨s.wireInstantiated, s.wireValues, 0, ⟨0, 0⟩⟩ : solveR1CState q) :=
    fun hl => absurd rfl hl
  have hxy : x * y = 0 := by
    rcases hzero with ⟨-, h2, hall⟩ | ⟨-, h2, hall⟩
    · obtain ⟨f1, i1⟩ := solveR1C.walk_frozen w1 (Frozen.refl _ _) w0
      have hall1 : ∀ t ∈ r.R, s1.wireInstantiated[t.VariableID]? = some true :=
        fun t ht => (f1.2.2 _ (hall t ht)).1
      obtain ⟨e1, e2⟩ := solveR1C.walk_of_instantiated _ _ _ _ _ hall1 w2
      subst e1
      obtain ⟨f3, -⟩ := solveR1C.walk_frozen w3 (Frozen.refl _ _) i1
      have := instantiateR1C.side_frozen f3 _ _ _ hall1 e2
      rw [hy] at this
      injection this with this
      rw [this, h2, mul_zero]
    · obtain ⟨e1, e2⟩ := solveR1C.walk_of_instantiated _ _ _ _ _ hall w1
      have := instantiateR1C.side_frozen hfz _ _ _ hall e2
      rw [hx] at this
      injection this with this
      rw [this, h2, zero_mul]
  refine ⟨hsolve, solveR1C.walks_keeps_plain hwalk _ hplain, hxy, ?_, ?_⟩
  · intro hz0
    unfold Solve.solveStep
    rw [hr]
    simp only
    rw [hsolve]
    simp only [Solve.check, hxyz, hbuf, Nat.add_zero]
    rw [if_pos (by trivial), if_pos (by rw [hxy, hz0])]
  · intro hz0 entry hentry hwf
    have hstep : Solve.solveStep r1cs mHintsFunctions i s =
        .ret (.unsatisfiedConstraint (formatEntry st.wireValues
            (st.wireInstantiated.set st.termToCompute.VariableID true) entry))
          { a := s.a.set i x, b := s.b.set i y, c := s.c.set i z,
            wireValues := st.wireValues,
            wireInstantiated := st.wireInstantiated.set st.termToCompute.VariableID true,
            debugInfoComputationOffset := s.debugInfoComputationOffset } := by
      unfold Solve.solveStep
      rw [hr]
      simp only
      rw [hsolve]
      simp only [Solve.check, hxyz, hbuf, Nat.add_zero, hentry]
      rw [if_pos (by trivial), if_neg (by rw [hxy]; exact fun h => hz0 h.symm)]
      rw [logValue_ok entry (by
        intro w hw1
        have := hwf w hw1
        rw [List.length_set, hfz.1, hfz.2.1, ← hlen]
        exact ⟨this, this⟩)]
    refine ⟨hstep, ?_⟩
    intro isZeroID ithBitID witness a0 b0 c0 wireValues hintFunctions hv hreg hi hreach hlogs
    have hloop := Solve.loop_stop r1cs.NbCOConstraints 0 i _ s _ _ hi hreach
      (by rw [Nat.zero_add]; exact hstep)
    have hlog := @printLogs.loop_ok q _ st.wireValues
      (st.wireInstantiated.set st.termToCompute.VariableID true) r1cs.loggerOut r1cs.Logs (by
        intro e he w hw1
        have := hlogs e he w hw1
        rw [List.length_set, hfz.1, hfz.2.1, ← hlen]
        exact ⟨this, this⟩)
    rw [Solve_of_valid _ _ _ _ _ _ _ _ _ hv]
    simp only [Solve.body, hreg, hloop, Solve.deferred, R1CS.printLogs, hlog]


/-- Witness of C9 as amended: in `u * 0 = 1` the unknown `u` lies in `L` and `R`
evaluates to zero; the wire keeps the value 4 the caller left in `wireValues`
and the step returns `ErrUnsatisfiedConstraint`. -/
theorem solveStep_zero_denominator_witness :
    solveR1C.walks exampleZeroDenominatorUnsat ⟨[⟨1, 1⟩], [⟨0, 0⟩], [⟨1, 0⟩]⟩
        [true, false] [1, 4] (Solve.builtinHints 1 2) =
      .ok (⟨[true, false], [1, 4], 1, ⟨1, 1⟩⟩, 0, 0, 1) ∧
    Solve.solveStep exampleZeroDenominatorUnsat (Solve.builtinHints 1 2) 0
        ⟨[0], [0], [0], [1, 4], [true, false], 0⟩ =
      .ret (.unsatisfiedConstraint ⟨"u*0=1, u=%s", ["4"]⟩)
        ⟨[4], [0], [1], [1, 4], [true, true], 0⟩ ∧
    exampleZeroDenominatorUnsat.Solve 1 2 [] [0] [0] [0] [0, 4] [] =
      .returned (some (.unsatisfiedConstraint ⟨"u*0=1, u=%s", ["4"]⟩))
        [4] [0] [1] [1, 4] [true, true] [] :=
  ⟨rfl, ((solveStep_zero_denominator exampleZeroDenominatorUnsat (Solve.builtinHints 1 2) 0
    ⟨[0], [0], [0], [1, 4], [true, false], 0⟩ ⟨[⟨1, 1⟩], [⟨0, 0⟩], [⟨1, 0⟩]⟩
    ⟨[true, false], [1, 4], 1, ⟨1, 1⟩⟩ 0 0 1 4 0 1 rfl rfl (by decide) rfl
    (Or.inl ⟨rfl, rfl, by decide⟩) rfl).2.2.2.2 (by decide) ⟨"u*0=1, u=%s", [1]⟩ rfl
    (by decide)).1,
   ((solveStep_zero_denominator exampleZeroDenominatorUnsat (Solve.builtinHints 1 2) 0
    ⟨[0], [0], [0], [1, 4], [true, false], 0⟩ ⟨[⟨1, 1⟩], [⟨0, 0⟩], [⟨1, 0⟩]⟩
    ⟨[true, false], [1, 4], 1, ⟨1, 1⟩⟩ 0 0 1 4 0 1 rfl rfl (by decide) rfl
    (Or.inl ⟨rfl, rfl, by decide⟩) rfl).2.2.2.2 (by decide) ⟨"u*0=1, u=%s", [1]⟩ rfl
    (by decide)).2 1 2 [] [0] [0] [0] [0, 4] [] ⟨by decide, rfl, rfl, rfl, rfl⟩ rfl
    (by decide) rfl (by decide)⟩

/-- Counterexample to C9 as stated: in `u * 0 = 0` the unknown lies in `L` (the
walk ends with `loc = 1`) and the accumulator of `R` is zero, the wire is not
computed, and yet the check passes and `Solve` returns nil. -/
theorem Solve_succeeds_on_zero_denominator :
    solveR1C.walks exampleZeroDenominator ⟨[⟨1, 1⟩], [⟨0, 0⟩], [⟨0, 0⟩]⟩
        [true, false] [1, 4] (Solve.builtinHints 1 2) =
      .ok (⟨[true, false], [1, 4], 1, ⟨1, 1⟩⟩, 0, 0, 0) ∧
    exampleZeroDenominator.Solve 1 2 [] [5] [5] [5] [0, 4] [] =
      .returned none [4] [0] [0] [1, 4] [true, true] [] :=
  ⟨rfl, rfl⟩

/-- C2 (completeness) fails on the code: in `x * 1 = 2 * u` with `x = 10` the
assignment `u = 5` satisfies the constraint, but `solveR1C` multiplies
`a * b - c = 10` by the coefficient 2 where it has to divide, sets `u = 20`,
and `Solve` returns `ErrUnsatisfiedConstraint` with `A * B = 10` and `C = 40`. -/
theorem Solve_incomplete_on_scaled_unknown :
    instantiateR1C ⟨[⟨1, 1⟩], [⟨1, 0⟩], [⟨2, 2⟩]⟩ exampleScaled [1, 10, 5] = .ok (10, 1, 10) ∧
    (10 : ZMod frModulus) * 1 = 10 ∧
    exampleScaled.Solve 1 2 [10] [0] [0] [0] [0, 0, 0] [] =
      .returned (some (.unsatisfiedConstraint ⟨"x=2u, u=%s", ["20"]⟩))
        [10] [1] [40] [1, 10, 20] [true, true, true] [] :=
  ⟨rfl, by decide, rfl⟩


theorem R1CS.AddTerm_eq_coeff (r : R1CS q) (acc : ZMod q) (t : Term) (value : ZMod q) :
    r.AddTerm acc t value =
      match r.coeff t with
      | some k => .ok (acc + k * value)
      | none => .error indexOutOfRange := by
  unfold R1CS.AddTerm R1CS.coeff
  dsimp only
  by_cases h1 : t.CoeffID = CoeffIdOne
  · simp [h1]
  · by_cases h2 : t.CoeffID = CoeffIdMinusOne
    · rw [if_neg h1, if_pos h2, if_neg h1, if_pos h2]
      simp [sub_eq_add_neg]
    · by_cases h3 : t.CoeffID = CoeffIdZero
      · rw [if_neg h1, if_neg h2, if_pos h3, if_neg h1, if_neg h2, if_pos h3]
        simp
      · by_cases h4 : t.CoeffID = CoeffIdTwo
        · rw [if_neg h1, if_neg h2, if_neg h3, if_pos h4, if_neg h1, if_neg h2, if_neg h3,
            if_pos h4]
          simp [two_mul]
        · rw [if_neg h1, if_neg h2, if_neg h3, if_neg h4, if_neg h1, if_neg h2, if_neg h3,
            if_neg h4]
          cases r.Coefficients[t.CoeffID]? <;> rfl

/-- C11 (term evaluation): `AddTerm` computes `acc + k * value`, where `k` is 1,
-1, 0, 2 for the reserved coefficient ids one, minus-one, zero, two, and the
table entry `Coefficients[coeffId(t)]` for any other id (it panics when the
table has no such entry); hence, when the table stores 0, 1, 2 and -1 at the
four reserved ids, `AddTerm` equals the unshortcut
`acc + Coefficients[coeffId(t)] * value` for every term. -/
theorem AddTerm_refines (r1cs : R1CS q) (acc : ZMod q) (t : Term) (value : ZMod q) :
    (t.CoeffID = CoeffIdOne → r1cs.AddTerm acc t value = .ok (acc + 1 * value)) ∧
    (t.CoeffID = CoeffIdMinusOne → r1cs.AddTerm acc t value = .ok (acc + (-1) * value)) ∧
    (t.CoeffID = CoeffIdZero → r1cs.AddTerm acc t value = .ok (acc + 0 * value)) ∧
    (t.CoeffID = CoeffIdTwo → r1cs.AddTerm acc t value = .ok (acc + 2 * value)) ∧
    (t.CoeffID ≠ CoeffIdOne → t.CoeffID ≠ CoeffIdMinusOne → t.CoeffID ≠ CoeffIdZero →
      t.CoeffID ≠ CoeffIdTwo →
      r1cs.AddTerm acc t value =
        match r1cs.Coefficients[t.CoeffID]? with
        | some k => .ok (acc + k * value)
        | none => .error indexOutOfRange) ∧
    (r1cs.Coefficients[CoeffIdZero]? = some 0 → r1cs.Coefficients[CoeffIdOne]? = some 1 →
      r1cs.Coefficients[CoeffIdTwo]? = some 2 → r1cs.Coefficients[CoeffIdMinusOne]? = some (-1) →
      r1cs.AddTerm acc t value = AddTerm.unshortcut r1cs acc t value) := by
  have e1 : CoeffIdOne = 1 := rfl
  have e2 : CoeffIdMinusOne = 3 := rfl
  have e3 : CoeffIdZero = 0 := rfl
  have e4 : CoeffIdTwo = 2 := rfl
  rw [e1, e2, e3, e4]
  have key := R1CS.AddTerm_eq_coeff r1cs acc t value
  unfold R1CS.coeff at key
  rw [e1, e2, e3, e4] at key
  refine ⟨?_, ?_, ?_, ?_, ?_, ?_⟩
  · intro h
    rw [key, h]
    simp
  · intro h
    rw [key, h]
    simp
  · intro h
    rw [key, h]
    simp
  · intro h
    rw [key, h]
    simp
  · intro h1 h2 h3 h4
    rw [key, if_neg h1, if_neg h2, if_neg h3, if_neg h4]
  · intro z0 z1 z2 z3
    rw [key]
    unfold AddTerm.unshortcut
    by_cases h1 : t.CoeffID = 1
    · rw [if_pos h1, h1, z1]
    · by_cases h2 : t.CoeffID = 3
      · rw [if_neg h1, if_pos h2, h2, z3]
      · by_cases h3 : t.CoeffID = 0
        · rw [if_neg h1, if_neg h2, if_pos h3, h3, z0]
        · by_cases h4 : t.CoeffID = 2
          · rw [if_neg h1, if_neg h2, if_neg h3, if_pos h4, h4, z2]
          · rw [if_neg h1, if_neg h2, if_neg h3, if_neg h4]
            cases r1cs.Coefficients[t.CoeffID]? <;> rfl

/-- Witness of C11: with the table `[0, 1, 2, -1]` of `exampleProduct`, the term
with the reserved id two adds twice the value, like the unshortcut form. -/
theorem AddTerm_refines_witness :
    exampleProduct.AddTerm 4 ⟨2, 1⟩ 3 = .ok (4 + 2 * 3) ∧
    exampleProduct.AddTerm 4 ⟨2, 1⟩ 3 = AddTerm.unshortcut exampleProduct 4 ⟨2, 1⟩ 3 :=
  ⟨(AddTerm_refines exampleProduct 4 ⟨2, 1⟩ 3).2.2.2.1 rfl,
    (AddTerm_refines exampleProduct 4 ⟨2, 1⟩ 3).2.2.2.2.2 rfl rfl rfl rfl⟩


/-- C12 (is-zero hint): over a prime modulus, `powModulusMinusOne([x])` returns
`1 - x^(q-1)`, which is 1 if `x = 0` and 0 otherwise; on an input vector that
does not have exactly one element it panics. -/
theorem powModulusMinusOne_is_zero [Fact q.Prime] (x : ZMod q) :
    powModulusMinusOne [x] = .ok (1 - x ^ (q - 1)) ∧
    powModulusMinusOne [x] = .ok (if x = 0 then 1 else 0) ∧
    ∀ inputs : List (ZMod q), inputs.length ≠ 1 →
      powModulusMinusOne inputs = .error "expected one input" := by
  have hq : q - 1 ≠ 0 := by
    have := (Fact.out : q.Prime).two_le
    omega
  refine ⟨rfl, ?_, ?_⟩
  · by_cases hx : x = 0
    · subst hx
      simp [powModulusMinusOne, zero_pow hq]
    · simp [powModulusMinusOne, hx, ZMod.pow_card_sub_one_eq_one hx]
  · intro inputs hlen
    match inputs, hlen with
    | [], _ => rfl
    | [_], h => simp at h
    | _ :: _ :: _, _ => rfl

/-- Witness of C12: in the bn254 scalar field `x = 0` gives 1 and `x = 17` gives 0. -/
theorem powModulusMinusOne_is_zero_witness :
    powModulusMinusOne [(0 : ZMod frModulus)] = .ok 1 ∧
    powModulusMinusOne [(17 : ZMod frModulus)] = .ok 0 :=
  ⟨by
    have h := (@powModulusMinusOne_is_zero frModulus ⟨frModulus_prime⟩ 0).2.1
    rwa [if_pos rfl] at h,
   by
    have h := (@powModulusMinusOne_is_zero frModulus ⟨frModulus_prime⟩ 17).2.1
    rwa [if_neg (by decide)] at h⟩

/-- C13 (ith-bit hint): over a modulus of at most 256 bits, for every value and
every position whose canonical representative fits in one 64-bit word,
`ithBit([value, position])` returns the field element
`floor(rep(value) / 2^rep(position)) mod 2`, which is 0 or 1; when the
representative of the position does not fit in one word it panics. -/
theorem ithBit_bit (hq : 0 < q) (hq256 : q ≤ 2 ^ 256) (value position : ZMod q) :
    (position.val < 2 ^ 64 →
      ithBit [value, position] =
        .ok ((value.val / 2 ^ position.val % 2 : ℕ) : ZMod q) ∧
      (ithBit [value, position] = .ok 0 ∨ ithBit [value, position] = .ok 1)) ∧
    (¬ position.val < 2 ^ 64 →
      ithBit [value, position] = .error "expected bit position to fit on one word") := by
  haveI : NeZero q := ⟨by omega⟩
  have key : position.val < 2 ^ 64 →
      ithBit [value, position] = .ok ((value.val / 2 ^ position.val % 2 : ℕ) : ZMod q) := by
    intro hp
    simp only [ithBit, hp, if_true]
    by_cases h4 : position.val / 64 ≥ 4
    · rw [if_pos h4]
      have h256 : 256 ≤ position.val := by omega
      have hlt : value.val < 2 ^ position.val :=
        lt_of_lt_of_le (ZMod.val_lt value)
          (le_trans hq256 (Nat.pow_le_pow_right (by norm_num) h256))
      rw [Nat.div_eq_of_lt hlt]
      simp
    · rw [if_neg h4, Nat.testBit_to_div_mod]
      rcases Nat.mod_two_eq_zero_or_one (value.val / 2 ^ position.val) with h | h
      · simp [h]
      · simp [h]
  refine ⟨fun hp => ⟨key hp, ?_⟩, ?_⟩
  · rw [key hp]
    rcases Nat.mod_two_eq_zero_or_one (value.val / 2 ^ position.val) with h | h
    · left; simp [h]
    · right; simp [h]
  · intro hp
    simp only [ithBit, hp, if_false]

/-- Witness of C13: in the bn254 scalar field, bit 3 of 13 is 1 and bit 1 of 13 is 0. -/
theorem ithBit_bit_witness :
    ithBit [(13 : ZMod frModulus), 3] = .ok 1 ∧ ithBit [(13 : ZMod frModulus), 1] = .ok 0 :=
  ⟨((ithBit_bit (by decide) (by decide) (13 : ZMod frModulus) 3).1 (by decide)).1,
   ((ithBit_bit (by decide) (by decide) (13 : ZMod frModulus) 1).1 (by decide)).1⟩


theorem instantiateR1C.side_eq_eval (r : R1CS q) (wv : List (ZMod q)) :
    ∀ (l : LinearExpression) (acc : ZMod q),
      instantiateR1C.side r wv l acc =
        match eval r wv l with
        | some v => .ok (acc + v)
        | none => .error indexOutOfRange := by
  intro l
  induction l with
  | nil => intro acc; simp [instantiateR1C.side, eval]
  | cons t ts ih =>
    intro acc
    simp only [instantiateR1C.side, eval]
    cases hw : wv[t.VariableID]? with
    | none => rfl
    | some w =>
      simp only
      rw [R1CS.AddTerm_eq_coeff]
      cases hk : r.coeff t with
      | none => rfl
      | some k =>
        simp only
        rw [ih]
        cases eval r wv ts with
        | none => rfl
        | some rest => simp [add_assoc]

theorem eval_perm (r : R1CS q) (wv : List (ZMod q)) {l l1 : LinearExpression}
    (h : l.Perm l1) : eval r wv l = eval r wv l1 := by
  induction h with
  | nil => rfl
  | cons t _ ih => simp only [eval, ih]
  | swap t u l =>
    simp only [eval]
    cases wv[t.VariableID]? <;> cases wv[u.VariableID]? <;> cases r.coeff t <;>
      cases r.coeff u <;> cases eval r wv l <;> simp
    ring
  | trans _ _ ih1 ih2 => exact ih1.trans ih2

theorem eval_eq_sum (r : R1CS q) (wv : List (ZMod q)) :
    ∀ (l : LinearExpression) (v : ZMod q), eval r wv l = some v →
      v = (l.map (fun t => (r.coeff t).getD 0 * wv.getD t.VariableID 0)).sum := by
  intro l
  induction l with
  | nil => intro v h; simp only [eval] at h; cases h; simp
  | cons t ts ih =>
    intro v h
    simp only [eval] at h
    cases hw : wv[t.VariableID]? with
    | none => simp [hw] at h
    | some w =>
      cases hk : r.coeff t with
      | none => simp [hw, hk] at h
      | some k =>
        cases hr : eval r wv ts with
        | none => simp [hw, hk, hr] at h
        | some rest =>
          simp only [hw, hk, hr, Option.some.injEq] at h
          subst h
          rw [List.map_cons, List.sum_cons, ← ih rest hr, hk]
          simp [List.getD_eq_getElem?_getD, hw]

theorem eval_isSome (r : R1CS q) (wv : List (ZMod q)) :
    ∀ (l : LinearExpression),
      (∀ t ∈ l, t.VariableID < wv.length ∧ (r.coeff t).isSome) → (eval r wv l).isSome := by
  intro l
  induction l with
  | nil => intro _; rfl
  | cons t ts ih =>
    intro h
    obtain ⟨h1, h2⟩ := h t (List.mem_cons_self _ _)
    have h3 := ih (fun u hu => h u (List.mem_cons_of_mem _ hu))
    simp only [eval, List.getElem?_eq_getElem h1]
    cases hk : r.coeff t with
    | none => rw [hk] at h2; cases h2
    | some k =>
      cases hr : eval r wv ts with
      | none => rw [hr] at h3; cases h3
      | some rest => rfl

theorem instantiateR1C_eq_eval (r : R1C) (r1cs : R1CS q) (wireValues : List (ZMod q)) :
    instantiateR1C r r1cs wireValues =
      (match eval r1cs wireValues r.L, eval r1cs wireValues r.R, eval r1cs wireValues r.O with
      | some a, some b, some c => .ok (a, b, c)
      | _, _, _ => .error indexOutOfRange) := by
  unfold instantiateR1C
  simp only [instantiateR1C.side_eq_eval]
  cases eval r1cs wireValues r.L <;> cases eval r1cs wireValues r.R <;>
    cases eval r1cs wireValues r.O <;> simp

theorem instantiateR1C_ok_eval {r : R1C} {r1cs : R1CS q} {wireValues : List (ZMod q)}
    {x y z : ZMod q} (h : instantiateR1C r r1cs wireValues = .ok (x, y, z)) :
    eval r1cs wireValues r.L = some x ∧ eval r1cs wireValues r.R = some y ∧
      eval r1cs wireValues r.O = some z := by
  rw [instantiateR1C_eq_eval] at h
  cases hL : eval r1cs wireValues r.L <;> cases hR : eval r1cs wireValues r.R <;>
    cases hO : eval r1cs wireValues r.O <;> simp [hL, hR, hO] at h
  obtain ⟨h1, h2, h3⟩ := h
  subst h1; subst h2; subst h3
  exact ⟨rfl, rfl, rfl⟩

/-- C19 (instantiation is order-independent evaluation): `instantiateR1C` returns
`(eval L, eval R, eval O)`, where `eval` of a linear expression is the field sum
of `coeff(t) * wireValues[var(t)]` over its terms (0 for the empty expression),
and defined whenever every term names an existing wire and coefficient (the code
panics on an index out of range otherwise); the result is unchanged when the
terms of `L`, of `R` or of `O` are permuted. -/
theorem instantiateR1C_eval (r : R1C) (r1cs : R1CS q) (wireValues : List (ZMod q)) :
    instantiateR1C r r1cs wireValues =
      (match eval r1cs wireValues r.L, eval r1cs wireValues r.R, eval r1cs wireValues r.O with
      | some a, some b, some c => .ok (a, b, c)
      | _, _, _ => .error indexOutOfRange) ∧
    eval r1cs wireValues [] = some 0 ∧
    (∀ (l : LinearExpression) (v : ZMod q), eval r1cs wireValues l = some v →
      v = (l.map (fun t => (r1cs.coeff t).getD 0 * wireValues.getD t.VariableID 0)).sum) ∧
    (∀ l : LinearExpression,
      (∀ t ∈ l, t.VariableID < wireValues.length ∧ (r1cs.coeff t).isSome) →
      (eval r1cs wireValues l).isSome) ∧
    (∀ r1 : R1C, r.L.Perm r1.L → r.R.Perm r1.R → r.O.Perm r1.O →
      instantiateR1C r1 r1cs wireValues = instantiateR1C r r1cs wireValues) := by
  have key := fun r : R1C => instantiateR1C_eq_eval r r1cs wireValues
  refine ⟨key r, rfl, eval_eq_sum r1cs wireValues, eval_isSome r1cs wireValues, ?_⟩
  intro r1 hL hR hO
  rw [key r, key r1, eval_perm r1cs wireValues hL, eval_perm r1cs wireValues hR,
    eval_perm r1cs wireValues hO]

/-- Witness of C19: `(3 + 2*5) * 1 = 15` written with the terms of `L` in either order. -/
theorem instantiateR1C_eval_witness :
    instantiateR1C ⟨[⟨1, 1⟩, ⟨2, 2⟩], [⟨1, 0⟩], [⟨1, 3⟩]⟩ exampleProduct [1, 3, 5, 15] =
      .ok (13, 1, 15) ∧
    instantiateR1C ⟨[⟨2, 2⟩, ⟨1, 1⟩], [⟨1, 0⟩], [⟨1, 3⟩]⟩ exampleProduct [1, 3, 5, 15] =
      instantiateR1C ⟨[⟨1, 1⟩, ⟨2, 2⟩], [⟨1, 0⟩], [⟨1, 3⟩]⟩ exampleProduct [1, 3, 5, 15] :=
  ⟨rfl, (instantiateR1C_eval ⟨[⟨1, 1⟩, ⟨2, 2⟩], [⟨1, 0⟩], [⟨1, 3⟩]⟩ exampleProduct
    [1, 3, 5, 15]).2.2.2.2 ⟨[⟨2, 2⟩, ⟨1, 1⟩], [⟨1, 0⟩], [⟨1, 3⟩]⟩
    (List.Perm.swap _ _ _) (List.Perm.refl _) (List.Perm.refl _)⟩


theorem Known.of_processTerm_self {r : R1CS q} {m : ℕ → Option (hintFunction q)}
    {s s1 : solveR1CState q} {t : Term} {val val1 : ZMod q} {locValue : ℕ}
    (hloc : locValue ≠ 0) (h : processTerm r m s t val locValue = .ok (s1, val1)) :
    Known s1 t := by
  rcases processTerm_cases h with ⟨hi, rfl, -⟩ |
    ⟨hi, -, hID, hint, inputs, f, v, -, -, -, -, -, -, rfl⟩ | ⟨-, -, -, -, rfl⟩
  · exact Or.inl hi
  · left
    have hlt : t.VariableID < s.wireInstantiated.length := by
      rcases List.getElem?_eq_some_iff.mp hi with ⟨hlt, -⟩
      exact hlt
    simp [hlt]
  · exact Or.inr ⟨hloc, rfl⟩

theorem Known.step_processTerm {r : R1CS q} {m : ℕ → Option (hintFunction q)}
    {s s1 : solveR1CState q} {t u : Term} {val val1 : ZMod q} {locValue : ℕ}
    (hk : Known s u) (hw : WalkInv r s)
    (h : processTerm r m s t val locValue = .ok (s1, val1)) : Known s1 u := by
  rcases hk with hk | ⟨hl, hu⟩
  · exact Or.inl ((processTerm_frozen h hw).1.2.2 _ hk).1
  · rcases processTerm_cases h with ⟨-, rfl, -⟩ |
      ⟨-, -, hID, hint, inputs, f, v, -, -, -, -, -, -, rfl⟩ | ⟨-, -, -, h0, -⟩
    · exact Or.inr ⟨hl, hu⟩
    · exact Or.inr ⟨hl, hu⟩
    · exact absurd h0 hl

theorem solveR1C.walk_known {r : R1CS q} {m : ℕ → Option (hintFunction q)} {locValue : ℕ}
    (hloc : locValue ≠ 0) :
    ∀ (ts : LinearExpression) (s : solveR1CState q) (val : ZMod q) (s1 : solveR1CState q)
      (val1 : ZMod q), WalkInv r s → solveR1C.walk r m locValue ts s val = .ok (s1, val1) →
      WalkInv r s1 ∧ (∀ u, Known s u → Known s1 u) ∧ ∀ t ∈ ts, Known s1 t := by
  intro ts
  induction ts with
  | nil =>
    intro s val s1 val1 hw h
    simp only [solveR1C.walk] at h
    injection h with h
    injection h with h1 h2
    subst h1
    exact ⟨hw, fun _ hk => hk, fun t ht => by simp at ht⟩
  | cons t0 ts ih =>
    intro s val s1 val1 hw h
    simp only [solveR1C.walk] at h
    split at h
    · cases h
    · rename_i s2 val2 hp
      obtain ⟨-, w2⟩ := processTerm_frozen hp hw
      obtain ⟨w1, hmono, hcov⟩ := ih s2 val2 s1 val1 w2 h
      refine ⟨w1, fun u hk => hmono u (hk.step_processTerm hw hp), ?_⟩
      intro t ht
      rcases List.mem_cons.mp ht with rfl | ht
      · exact hmono _ (Known.of_processTerm_self hloc hp)
      · exact hcov t ht

theorem R1CS.solveR1C_instantiates {r : R1CS q} {m : ℕ → Option (hintFunction q)} {cons : R1C}
    {inst inst1 : List Bool} {wv wv1 : List (ZMod q)} {off : ℕ}
    (h : r.solveR1C cons inst wv m = .ok (inst1, wv1, off)) :
    ∀ t ∈ cons.L ++ cons.R ++ cons.O, inst1[t.VariableID]? = some true := by
  obtain ⟨s, a, b, c, hw, hc⟩ := R1CS.solveR1C_cases h
  obtain ⟨s1, s2, h1, h2, h3⟩ := solveR1C.walks_cases hw
  have w0 : WalkInv r (⟨inst, wv, 0, ⟨0, 0⟩⟩ : solveR1CState q) := fun hl => absurd rfl hl
  obtain ⟨w1, -, c1⟩ := solveR1C.walk_known (by decide) _ _ _ _ _ w0 h1
  obtain ⟨w2, m2, c2⟩ := solveR1C.walk_known (by decide) _ _ _ _ _ w1 h2
  obtain ⟨w3, m3, c3⟩ := solveR1C.walk_known (by decide) _ _ _ _ _ w2 h3
  have hk : ∀ t ∈ cons.L ++ cons.R ++ cons.O, Known s t := by
    intro t ht
    simp only [List.mem_append] at ht
    rcases ht with (ht | ht) | ht
    · exact m3 _ (m2 _ (c1 t ht))
    · exact m3 _ (c2 t ht)
    · exact c3 t ht
  intro t ht
  rcases solveR1C.compute_cases hc with ⟨hl, rfl, -, -⟩ | ⟨hl, hlt, rfl, -, -⟩
  · rcases hk t ht with hi | ⟨hl1, -⟩
    · exact hi
    · exact absurd hl hl1
  · rcases hk t ht with hi | ⟨-, hu⟩
    · exact ((Frozen.set_flag s.wireValues s.termToCompute.VariableID).2.2 _ hi).1
    · rw [← hu]
      simp [hlt]

theorem instantiateR1C_frozen {r : R1CS q} {cons : R1C} {inst inst1 : List Bool}
    {wv wv1 : List (ZMod q)} {x y z : ZMod q} (hf : Frozen inst wv inst1 wv1)
    (hall : ∀ t ∈ cons.L ++ cons.R ++ cons.O, inst[t.VariableID]? = some true)
    (h : instantiateR1C cons r wv = .ok (x, y, z)) :
    instantiateR1C cons r wv1 = .ok (x, y, z) := by
  obtain ⟨hx, hy, hz⟩ := instantiateR1C_cases h
  unfold instantiateR1C
  rw [instantiateR1C.side_frozen hf _ _ _
      (fun t ht => hall t (by simp only [List.mem_append]; exact Or.inl (Or.inl ht))) hx,
    instantiateR1C.side_frozen hf _ _ _
      (fun t ht => hall t (by simp only [List.mem_append]; exact Or.inl (Or.inr ht))) hy,
    instantiateR1C.side_frozen hf _ _ _
      (fun t ht => hall t (by simp only [List.mem_append]; exact Or.inr ht)) hz]

theorem StoredInv.of_solveStep [fr.Element q] {r : R1CS q} {m : ℕ → Option (hintFunction q)}
    (i : ℕ) (s s1 : SolveState q) (hinv : StoredInv r true i s)
    (h : Solve.solveStep r m i s = .next s1) : StoredInv r true (i + 1) s1 := by
  obtain ⟨cons, inst, wv, off, hc, hs, hk⟩ := Solve.solveStep_next h
  obtain ⟨x, y, z, hin, hxy, hia, hib, hic, rfl⟩ := Solve.check_next hk
  have hlt : i < r.Constraints.length := by
    rcases List.getElem?_eq_some_iff.mp hc with ⟨hlt, -⟩
    exact hlt
  have hfz := R1CS.solveR1C_frozen hs
  refine ⟨hlt, ?_⟩
  intro j hj cons1 hc1
  simp only at hia hib hic hin ⊢
  rcases Nat.lt_succ_iff_lt_or_eq.mp hj with hlt2 | rfl
  · obtain ⟨hall, x1, y1, z1, g1, g2, g3, g4, g5⟩ := hinv.2 j hlt2 cons1 hc1
    have hne : i ≠ j := by omega
    refine ⟨fun _ t ht => (hfz.2.2 _ (hall rfl t ht)).1, x1, y1, z1,
      instantiateR1C_frozen hfz (hall rfl) g1, ?_, ?_, ?_, g5⟩
    · rw [List.getElem?_set_ne hne]; exact g2
    · rw [List.getElem?_set_ne hne]; exact g3
    · rw [List.getElem?_set_ne hne]; exact g4
  · rw [hc] at hc1
    injection hc1 with hc1
    subst hc1
    exact ⟨fun _ => R1CS.solveR1C_instantiates hs, x, y, z, hin, by simp [hia], by simp [hib],
      by simp [hic], hxy⟩

theorem StoredInv.of_assertStep [fr.Element q] {r : R1CS q}
    (i : ℕ) (s s1 : SolveState q) (hinv : StoredInv r false i s)
    (h : Solve.assertStep r i s = .next s1) : StoredInv r false (i + 1) s1 := by
  obtain ⟨cons, hc, hk⟩ := Solve.assertStep_eq h (by intro msg; simp)
  obtain ⟨x, y, z, hin, hxy, hia, hib, hic, rfl⟩ := Solve.check_next hk
  have hlt : i < r.Constraints.length := by
    rcases List.getElem?_eq_some_iff.mp hc with ⟨hlt, -⟩
    exact hlt
  refine ⟨hlt, ?_⟩
  intro j hj cons1 hc1
  simp only
  rcases Nat.lt_succ_iff_lt_or_eq.mp hj with hlt2 | rfl
  · obtain ⟨-, x1, y1, z1, g1, g2, g3, g4, g5⟩ := hinv.2 j hlt2 cons1 hc1
    have hne : i ≠ j := by omega
    refine ⟨(fun hf => Bool.noConfusion hf), x1, y1, z1, g1, ?_, ?_, ?_, g5⟩
    · rw [List.getElem?_set_ne hne]; exact g2
    · rw [List.getElem?_set_ne hne]; exact g3
    · rw [List.getElem?_set_ne hne]; exact g4
  · rw [hc] at hc1
    injection hc1 with hc1
    subst hc1
    exact ⟨(fun hf => Bool.noConfusion hf), x, y, z, hin, by simp [hia], by simp [hib],
      by simp [hic], hxy⟩

/-- C20 (the final wire vector satisfies every constraint): when the constraint
sequence has `NbConstraints` entries and `Solve` returns no error, for every
`i` below `NbConstraints` the stored `(A[i], B[i], C[i])` is
`instantiateR1C(Constraints[i], final wireValues)`, so that
`eval(L_i) * eval(R_i) = eval(O_i)` under the returned wire vector: every wire
of a computational constraint is marked instantiated once the constraint is
solved, and an instantiated wire is never written again. -/
theorem Solve_final_vector [fr.Element q] (isZeroID ithBitID : ℕ) (r1cs : R1CS q)
    (witness a b c wireValues : List (ZMod q)) (hintFunctions : List (hint.Function q))
    (hlen : r1cs.Constraints.length = r1cs.NbConstraints)
    (a1 b1 c1 wv1 : List (ZMod q)) (inst1 : List Bool) (logged : List Sprintf)
    (h : r1cs.Solve isZeroID ithBitID witness a b c wireValues hintFunctions =
      .returned none a1 b1 c1 wv1 inst1 logged) :
    ∀ i, i < r1cs.NbConstraints →
      ∃ r x y z, r1cs.Constraints[i]? = some r ∧
        instantiateR1C r r1cs wv1 = .ok (x, y, z) ∧
        a1[i]? = some x ∧ b1[i]? = some y ∧ c1[i]? = some z ∧
        eval r1cs wv1 r.L = some x ∧ eval r1cs wv1 r.R = some y ∧
        eval r1cs wv1 r.O = some z ∧ x * y = z := by
  intro i hi
  obtain ⟨s1, hb, rfl, rfl, rfl, rfl, -, -⟩ :=
    Solve_returned_of_valid (SizesValid_of_returned_none h) h
  obtain ⟨m, s2, -, h1, h2⟩ := Solve.body_cases_next hb
  have i1 := Solve.loop_next (StoredInv r1cs true) StoredInv.of_solveStep _ _ _ _
    ⟨Nat.zero_le _, fun j hj => absurd hj (Nat.not_lt_zero _)⟩ h1
  rw [Nat.zero_add] at i1
  have i1f : StoredInv r1cs false r1cs.NbCOConstraints s2 :=
    ⟨i1.1, fun j hj r hr => ⟨(fun hf => Bool.noConfusion hf), (i1.2 j hj r hr).2⟩⟩
  have i2 := Solve.loop_next (StoredInv r1cs false) StoredInv.of_assertStep _ _ _ _ i1f h2
  have hle := i1.1
  have e : r1cs.NbCOConstraints + (r1cs.Constraints.length - r1cs.NbCOConstraints)
      = r1cs.Constraints.length := by omega
  rw [e] at i2
  have hlt : i < r1cs.Constraints.length := by omega
  obtain ⟨-, x, y, z, g1, g2, g3, g4, g5⟩ :=
    i2.2 i hlt _ (List.getElem?_eq_getElem hlt)
  obtain ⟨e1, e2, e3⟩ := instantiateR1C_ok_eval g1
  exact ⟨_, x, y, z, List.getElem?_eq_getElem hlt, g1, g2, g3, g4, e1, e2, e3, g5⟩

/-- Witness of C20: the system `x * y = z` solved on `x = 3`, `y = 5`. -/
theorem Solve_final_vector_witness :
    exampleProduct.Solve 1 2 [3, 5] [0] [0] [0] [0, 0, 0, 0] [] =
      .returned none [3] [5] [15] [1, 3, 5, 15] [true, true, true, true] [⟨"z=%s", ["15"]⟩] ∧
    ∀ i, i < exampleProduct.NbConstraints →
      ∃ r x y z, exampleProduct.Constraints[i]? = some r ∧
        instantiateR1C r exampleProduct [1, 3, 5, 15] = .ok (x, y, z) ∧
        [(3 : ZMod frModulus)][i]? = some x ∧ [(5 : ZMod frModulus)][i]? = some y ∧
        [(15 : ZMod frModulus)][i]? = some z ∧
        eval exampleProduct [1, 3, 5, 15] r.L = some x ∧
        eval exampleProduct [1, 3, 5, 15] r.R = some y ∧
        eval exampleProduct [1, 3, 5, 15] r.O = some z ∧ x * y = z :=
  ⟨rfl, Solve_final_vector 1 2 exampleProduct [3, 5] [0] [0] [0] [0, 0, 0, 0] [] rfl
    [3] [5] [15] [1, 3, 5, 15] [true, true, true, true] [⟨"z=%s", ["15"]⟩] rfl⟩


/-- C17, as the code has it: when the walk of `solveR1C` leaves the unknown in
`L` with the accumulator of `R` zero (or in `R` with the accumulator of `L`
zero), `solveR1C` returns offset 0 and does not write `wireValues[v*]`, which
keeps what it held before the call; the wire `v*`, not instantiated before the
call, is marked instantiated all the same, so that a later diagnostic renders
the stored value (its `String()`) and not `"???"`. -/
theorem solveR1C_failed_guard [fr.Element q] (r1cs : R1CS q)
    (mHintsFunctions : ℕ → Option (hintFunction q)) (r : R1C) (wireInstantiated : List Bool)
    (wireValues : List (ZMod q)) (st : solveR1CState q) (a b c : ZMod q)
    (hwalk : solveR1C.walks r1cs r wireInstantiated wireValues mHintsFunctions =
      .ok (st, a, b, c))
    (hzero : (st.loc = 1 ∧ b = 0) ∨ (st.loc = 2 ∧ a = 0)) :
    wireInstantiated[st.termToCompute.VariableID]? = some false ∧
    r1cs.solveR1C r wireInstantiated wireValues mHintsFunctions =
      .ok (st.wireInstantiated.set st.termToCompute.VariableID true, st.wireValues, 0) ∧
    st.wireValues[st.termToCompute.VariableID]? =
      wireValues[st.termToCompute.VariableID]? ∧
    (st.wireInstantiated.set st.termToCompute.VariableID true)[st.termToCompute.VariableID]? =
      some true ∧
    ∀ (w : ZMod q) (format : String), wireValues[st.termToCompute.VariableID]? = some w →
      logValue ⟨format, [st.termToCompute.VariableID]⟩ st.wireValues
          (st.wireInstantiated.set st.termToCompute.VariableID true) =
        .ok ⟨format, [fr.Element.String w]⟩ := by
  obtain ⟨hfz, hw⟩ := solveR1C.walks_frozen hwalk
  have hloc : st.loc ≠ 0 := by rcases hzero with h | h <;> omega
  obtain ⟨hu, hplain⟩ := hw hloc
  have hb1 : st.termToCompute.VariableID < st.wireInstantiated.length := by
    rcases List.getElem?_eq_some_iff.mp hu with ⟨hlt, -⟩
    exact hlt
  have hsw : solveR1C.switch r1cs st a b c = .ok (st.wireValues, 0) := by
    unfold solveR1C.switch
    rcases hzero with ⟨h1, h2⟩ | ⟨h1, h2⟩
    · rw [if_pos h1, if_neg (by simpa using h2)]
    · rw [if_neg (by omega), if_pos h1, if_neg (by simpa using h2)]
  have hsolve : r1cs.solveR1C r wireInstantiated wireValues mHintsFunctions =
      .ok (st.wireInstantiated.set st.termToCompute.VariableID true, st.wireValues, 0) := by
    have hcomp : solveR1C.compute r1cs st a b c =
        .ok (st.wireInstantiated.set st.termToCompute.VariableID true, st.wireValues, 0) := by
      unfold solveR1C.compute
      rw [if_neg hloc, hsw]
      simp only
      rw [if_pos hb1]
    unfold R1CS.solveR1C
    rw [hwalk]
    exact hcomp
  have hkeep := solveR1C.walks_keeps_plain hwalk _ hplain
  have hflag : (st.wireInstantiated.set st.termToCompute.VariableID true)[
      st.termToCompute.VariableID]? = some true := by simp [hb1]
  have hbefore : wireInstantiated[st.termToCompute.VariableID]? = some false := by
    have hlt : st.termToCompute.VariableID < wireInstantiated.length := by
      rw [← hfz.1]; exact hb1
    rw [List.getElem?_eq_getElem hlt]
    cases hv : wireInstantiated[st.termToCompute.VariableID] with
    | false => rfl
    | true =>
      have h1 := (hfz.2.2 st.termToCompute.VariableID
        (by rw [List.getElem?_eq_getElem hlt, hv])).1
      rw [hu] at h1
      cases h1
  refine ⟨hbefore, hsolve, hkeep, hflag, ?_⟩
  intro w format hwv
  unfold logValue
  simp only [logValue.toResolve]
  rw [hflag]
  simp only
  rw [hkeep, hwv]

/-- Witness of C17 as amended: in `u * 0 = 1` the walk leaves the unknown `u`
in `L` with the accumulator of `R` zero; the wire keeps the value 4 it held,
is marked instantiated and is rendered as `4`. -/
theorem solveR1C_failed_guard_witness :
    exampleZeroDenominatorUnsat.solveR1C ⟨[⟨1, 1⟩], [⟨0, 0⟩], [⟨1, 0⟩]⟩ [true, false] [1, 4]
        (Solve.builtinHints 1 2) = .ok ([true, true], [1, 4], 0) ∧
    logValue ⟨"u=%s", [1]⟩ [(1 : ZMod frModulus), 4] [true, true] = .ok ⟨"u=%s", ["4"]⟩ :=
  have h := solveR1C_failed_guard exampleZeroDenominatorUnsat (Solve.builtinHints 1 2)
    ⟨[⟨1, 1⟩], [⟨0, 0⟩], [⟨1, 0⟩]⟩ [true, false] [1, 4]
    ⟨[true, false], [1, 4], 1, ⟨1, 1⟩⟩ 0 0 1 rfl (Or.inl ⟨rfl, rfl⟩)
  ⟨h.2.1, h.2.2.2.2 4 "u=%s" rfl⟩

/-- Counterexample to C17 as stated: in `u * 0 = 0` the unknown lies in `L`
and the accumulator of `R` is zero; `solveR1C` returns offset 0 and leaves the
stored value 4, but the wire comes back marked instantiated, and the
diagnostic of the unsatisfied `u * 0 = 1` prints `4`, not `"???"`. -/
theorem solveR1C_marks_wire_on_failed_guard :
    solveR1C.walks exampleZeroDenominator ⟨[⟨1, 1⟩], [⟨0, 0⟩], [⟨0, 0⟩]⟩
        [true, false] [1, 4] (Solve.builtinHints 1 2) =
      .ok (⟨[true, false], [1, 4], 1, ⟨1, 1⟩⟩, 0, 0, 0) ∧
    exampleZeroDenominator.solveR1C ⟨[⟨1, 1⟩], [⟨0, 0⟩], [⟨0, 0⟩]⟩ [true, false] [1, 4]
        (Solve.builtinHints 1 2) = .ok ([true, true], [1, 4], 0) ∧
    logValue ⟨"u=%s", [1]⟩ [(1 : ZMod frModulus), 4] [true, true] = .ok ⟨"u=%s", ["4"]⟩ ∧
    exampleZeroDenominatorUnsat.Solve 1 2 [] [0] [0] [0] [0, 4] [] =
      .returned (some (.unsatisfiedConstraint ⟨"u*0=1, u=%s", ["4"]⟩))
        [4] [0] [1] [1, 4] [true, true] [] :=
  ⟨rfl, rfl, rfl, rfl⟩


/-- C15 fails on the code: in `x * 1 = 2 * u` with `x = 10` the walk leaves the
unknown `u` in `O` with `a = 10`, `b = 1`, `c = 0` and the coefficient two, so
the solved value `(a * b - c) / 2` is 5; `solveR1C` calls `mulWireByCoeff`,
which multiplies by the coefficient, and assigns `wireValues[u] = 20`. -/
theorem solveR1C_multiplies_by_coefficient :
    solveR1C.walks exampleScaled ⟨[⟨1, 1⟩], [⟨1, 0⟩], [⟨2, 2⟩]⟩ [true, true, false] [1, 10, 0]
        (Solve.builtinHints 1 2) =
      .ok (⟨[true, true, false], [1, 10, 0], 3, ⟨2, 2⟩⟩, 10, 1, 0) ∧
    exampleScaled.coeff ⟨2, 2⟩ = some 2 ∧
    ((10 : ZMod frModulus) * 1 - 0) * (2 : ZMod frModulus)⁻¹ = 5 ∧
    exampleScaled.solveR1C ⟨[⟨1, 1⟩], [⟨1, 0⟩], [⟨2, 2⟩]⟩ [true, true, false] [1, 10, 0]
        (Solve.builtinHints 1 2) = .ok ([true, true, true], [1, 10, 20], 0) ∧
    (20 : ZMod frModulus) ≠ 5 ∧
    exampleScaled.mulWireByCoeff ((10 : ZMod frModulus) * 1 - 0) ⟨2, 2⟩ = .ok 20 := by
  have h2 : (2 : ZMod frModulus) ≠ 0 := by decide
  have h10 : (10 : ZMod frModulus) * 1 - 0 = 5 * 2 := by decide
  refine ⟨rfl, rfl, ?_, rfl, by decide, rfl⟩
  haveI : Fact (Nat.Prime frModulus) := ⟨frModulus_prime⟩
  rw [h10, mul_inv_cancel_right₀ h2]

/-- C16 fails on the code: in `h * 1 = u` with the hint wire `h = 2 * x` and
`x = 3`, the walk computes `h = 6` and marks it instantiated, but leaves the
accumulator of `L` at 0, whereas the sum over the resolved terms of `L` is 6;
the unknown `u` is then solved from `a = 0` as 0, and `Solve` returns
`ErrUnsatisfiedConstraint` on a system that `u = 6` satisfies. -/
theorem walk_skips_computed_hint_term :
    Solve.registerHints [⟨7, some exampleDouble⟩] (Solve.builtinHints 1 2) =
      .ok (fun id => if id = 7 then some exampleDouble else Solve.builtinHints 1 2 id) ∧
    solveR1C.walks exampleHintSum ⟨[⟨1, 2⟩], [⟨1, 0⟩], [⟨1, 3⟩]⟩ [true, true, false, false]
        [1, 3, 0, 0]
        (fun id => if id = 7 then some exampleDouble else Solve.builtinHints 1 2 id) =
      .ok (⟨[true, true, true, false], [1, 3, 6, 0], 3, ⟨1, 3⟩⟩, 0, 1, 0) ∧
    instantiateR1C.side exampleHintSum [1, 3, 6, 0] [⟨1, 2⟩] 0 = .ok 6 ∧
    eval exampleHintSum [1, 3, 6, 0] [⟨1, 2⟩] = some 6 ∧
    (0 : ZMod frModulus) ≠ 6 ∧
    instantiateR1C ⟨[⟨1, 2⟩], [⟨1, 0⟩], [⟨1, 3⟩]⟩ exampleHintSum [1, 3, 6, 6] = .ok (6, 1, 6) ∧
    (6 : ZMod frModulus) * 1 = 6 ∧
    exampleHintSum.Solve 1 2 [3] [0] [0] [0] [0, 0, 0, 0] [⟨7, some exampleDouble⟩] =
      .returned (some (.unsatisfiedConstraint ⟨"h=u, h=%s, u=%s", ["6", "0"]⟩))
        [6] [1] [0] [1, 3, 6, 0] [true, true, true, true] [] :=
  ⟨rfl, rfl, rfl, rfl, by decide, rfl, by decide, rfl⟩

end

end gnark
